import Mathlib

/-!
# The screen-capture subsystem

A shallow embedding of `src/src/ScreenCapture.cpp` with the data model of
`src/include/dakt/overlay/ScreenCapture.hpp`: the pixel-buffer utilities
`ScreenCapture::convertFormat`, `ScreenCapture::scale` and `ScreenCapture::crop`, the
factory `ScreenCapture::create`, and the member functions of the two backends
`BitBltCapture` and `DXGICapture` (the `_WIN32` build) as functions from the state of the
object and the outcomes of the platform calls to return value, new state and call log.

Conventions of the embedding.

* A `std::byte` is a `Fin 256`; a `std::vector<byte>` is a `List Byte`.
* `u32`, `u64`, `usize` and `i32` values are kept as `Nat` / `Int`.  Every arithmetic
  operation that the source performs in one of these types is followed by the reduction of
  that type (`u32`, `usize`, `toI32`), so wrap-around is part of the model.  `usize` is taken
  as 64 bits wide.
* `resize` on a fresh vector gives a zero-filled list; element writes are `List.set`; `for`
  loops are `forLoop`, a left fold over `0, 1, ..., n-1`.
* A read outside a buffer is undefined behaviour in the source.  `readByte` returns `0` there;
  every theorem about buffer contents carries the length bound that keeps reads inside.
* An `f32` value is kept as an exact fraction, and every `f32` operation is the exact
  operation followed by `f32`, the rounding to binary32 (nearest, ties to even).  `scale`
  takes the interpolation of one output byte as a parameter; `scaleSample` is the
  interpolation of the source.
-/

namespace dakt.overlay

/-! ## Machine integers -/

/-- One `std::byte` (also the `u8` the source casts it to). -/
abbrev Byte := Fin 256

/-- Reduction of a natural number to the range of `u32`. -/
def u32 (n : Nat) : Nat := n % 4294967296

/-- Reduction of a natural number to the range of `usize` (64 bits). -/
def usize (n : Nat) : Nat := n % 18446744073709551616

/-- Reduction of an integer to the range of `i32` (two's complement), as in
`static_cast<i32>(u32 value)`.  It is also applied after every `i32` addition and
subtraction: signed overflow is undefined behaviour in the source and wraps here; the
theorems that depend on the value of such a result bound the operands so that no overflow
occurs, and the theorems stated for every image hold for the wrapped result as well. -/
def toI32 (v : Int) : Int := (v + 2147483648) % 4294967296 - 2147483648

/-- Conversion of an `i32` value to `u32`, as the usual arithmetic conversions do when an
`i32` operand meets a `u32` operand. -/
def i32ToU32 (v : Int) : Nat := (v % 4294967296).toNat

/-- The `static_cast<byte>` of a non-negative `int`. -/
def toByte (n : Nat) : Byte := ⟨n % 256, Nat.mod_lt n (by decide)⟩

/-! ## Data model -/

/-- The enum `CaptureFormat`. -/
inductive CaptureFormat where
  | BGRA8
  | RGBA8
  | RGB8
  | Grayscale
deriving DecidableEq, Repr

/-- The struct `CapturedImage`; `width`, `height`, `stride` are `u32`, `timestamp` is `u64`. -/
structure CapturedImage where
  data : List Byte
  width : Nat
  height : Nat
  stride : Nat
  format : CaptureFormat
  timestamp : Nat
deriving DecidableEq, Repr

/-- The fields of the image fit the C++ types that hold them: `u32` for `width`, `height`
and `stride`, `u64` for `timestamp`, and a vector length that fits `usize`. -/
def CapturedImage.Representable (image : CapturedImage) : Prop :=
  image.width < 4294967296 ∧ image.height < 4294967296 ∧ image.stride < 4294967296 ∧
    image.timestamp < 18446744073709551616 ∧ image.data.length < 18446744073709551616

instance (image : CapturedImage) : Decidable image.Representable := by
  unfold CapturedImage.Representable
  exact inferInstance

/-- The region argument of `crop` after `static_cast<i32>` has been applied to each of
`region.x()`, `region.y()`, `region.width()`, `region.height()` (the `gui::Rect` type itself
lives in another library and stores `f32` components). -/
structure Rect where
  x : Int
  y : Int
  width : Int
  height : Int
deriving DecidableEq, Repr

/-- The four components are values of type `i32`. -/
def Rect.Representable (region : Rect) : Prop :=
  (-2147483648 ≤ region.x ∧ region.x ≤ 2147483647) ∧
    (-2147483648 ≤ region.y ∧ region.y ≤ 2147483647) ∧
    (-2147483648 ≤ region.width ∧ region.width ≤ 2147483647) ∧
    (-2147483648 ≤ region.height ∧ region.height ≤ 2147483647)

instance (region : Rect) : Decidable region.Representable := by
  unfold Rect.Representable
  exact inferInstance

/-! ## Buffers and loops -/

/-- The loop `for (i = 0; i < n; ++i) body`, threading the state the body updates. -/
def forLoop {σ : Type} (n : Nat) (body : Nat → σ → σ) (s : σ) : σ :=
  (List.range n).foldl (fun acc i => body i acc) s

/-- The read `buf[i]`. -/
def readByte (buf : List Byte) (i : Nat) : Byte := buf.getD i 0

/-- A fresh vector after `resize(n)`: `n` value-initialised bytes. -/
def zeroBuffer (n : Nat) : List Byte := List.replicate n 0

/-- The call `std::memcpy(dst + dOff, src + sOff, n)`, byte by byte. -/
def memcpy (dst : List Byte) (dOff : Nat) (src : List Byte) (sOff n : Nat) : List Byte :=
  forLoop n (fun k acc => acc.set (dOff + k) (readByte src (sOff + k))) dst

/-! ## convertFormat -/

/-- The pixel loop of the `BGRA8 -> RGBA8` branch and, with the same body, of the
`RGBA8 -> BGRA8` branch: bytes 0 and 2 of every pixel change places. -/
def swapRedBlue (src : List Byte) (pixelCount : Nat) : List Byte :=
  forLoop pixelCount (fun i dst =>
    let dst := dst.set (usize (i * 4 + 0)) (readByte src (usize (i * 4 + 2)))
    let dst := dst.set (usize (i * 4 + 1)) (readByte src (usize (i * 4 + 1)))
    let dst := dst.set (usize (i * 4 + 2)) (readByte src (usize (i * 4 + 0)))
    dst.set (usize (i * 4 + 3)) (readByte src (usize (i * 4 + 3))))
    (zeroBuffer (usize (pixelCount * 4)))

/-- The pixel loop of the `BGRA8 -> RGB8` branch. -/
def bgraToRgb (src : List Byte) (pixelCount : Nat) : List Byte :=
  forLoop pixelCount (fun i dst =>
    let dst := dst.set (usize (i * 3 + 0)) (readByte src (usize (i * 4 + 2)))
    let dst := dst.set (usize (i * 3 + 1)) (readByte src (usize (i * 4 + 1)))
    dst.set (usize (i * 3 + 2)) (readByte src (usize (i * 4 + 0))))
    (zeroBuffer (usize (pixelCount * 3)))

/-- The expression `static_cast<byte>((r * 299 + g * 587 + b * 114) / 1000)`. -/
def luma (r g b : Byte) : Byte :=
  toByte ((r.val * 299 + g.val * 587 + b.val * 114) / 1000)

/-- The pixel loop of the `BGRA8 -> Grayscale` branch. -/
def bgraToGray (src : List Byte) (pixelCount : Nat) : List Byte :=
  forLoop pixelCount (fun i dst =>
    let b := readByte src (usize (i * 4 + 0))
    let g := readByte src (usize (i * 4 + 1))
    let r := readByte src (usize (i * 4 + 2))
    dst.set i (luma r g b))
    (zeroBuffer pixelCount)

/-- The pixel loop of the `RGBA8 -> Grayscale` branch. -/
def rgbaToGray (src : List Byte) (pixelCount : Nat) : List Byte :=
  forLoop pixelCount (fun i dst =>
    let r := readByte src (usize (i * 4 + 0))
    let g := readByte src (usize (i * 4 + 1))
    let b := readByte src (usize (i * 4 + 2))
    dst.set i (luma r g b))
    (zeroBuffer pixelCount)

/-- The function `ScreenCapture::convertFormat`; `none` is `std::nullopt`. -/
def convertFormat (image : CapturedImage) (targetFormat : CaptureFormat) :
    Option CapturedImage :=
  if image.format = targetFormat then
    some image
  else
    let pixelCount := usize (image.width * image.height)
    if image.format = CaptureFormat.BGRA8 then
      if targetFormat = CaptureFormat.RGBA8 then
        some { data := swapRedBlue image.data pixelCount
               width := image.width
               height := image.height
               stride := u32 (image.width * 4)
               format := targetFormat
               timestamp := image.timestamp }
      else if targetFormat = CaptureFormat.RGB8 then
        some { data := bgraToRgb image.data pixelCount
               width := image.width
               height := image.height
               stride := u32 (image.width * 3)
               format := targetFormat
               timestamp := image.timestamp }
      else if targetFormat = CaptureFormat.Grayscale then
        some { data := bgraToGray image.data pixelCount
               width := image.width
               height := image.height
               stride := image.width
               format := targetFormat
               timestamp := image.timestamp }
      else
        none
    else if image.format = CaptureFormat.RGBA8 then
      if targetFormat = CaptureFormat.BGRA8 then
        some { data := swapRedBlue image.data pixelCount
               width := image.width
               height := image.height
               stride := u32 (image.width * 4)
               format := targetFormat
               timestamp := image.timestamp }
      else if targetFormat = CaptureFormat.Grayscale then
        some { data := rgbaToGray image.data pixelCount
               width := image.width
               height := image.height
               stride := image.width
               format := targetFormat
               timestamp := image.timestamp }
      else
        none
    else
      none

/-! ## scale -/

/-- The function `ScreenCapture::scale`.  The interpolation of one output byte (source lines
218-240: the sample position, the four neighbours, the blend, the rounding and the clamp)
is the parameter `sample`: `sample image newWidth newHeight x y c` is the byte stored for
destination pixel `(x, y)` and channel `c`.  The source is `scale scaleSample`, with
`scaleSample` below. -/
def scale (sample : CapturedImage → Nat → Nat → Nat → Nat → Nat → Byte)
    (image : CapturedImage) (newWidth newHeight : Nat) : Option CapturedImage :=
  if newWidth = 0 ∨ newHeight = 0 then
    none
  else if image.format ≠ CaptureFormat.BGRA8 ∧ image.format ≠ CaptureFormat.RGBA8 then
    none
  else
    some { data :=
             forLoop newHeight (fun y dst =>
               forLoop newWidth (fun x dst =>
                 forLoop 4 (fun c dst =>
                   dst.set (u32 (u32 (u32 (y * newWidth + x) * 4) + c))
                     (sample image newWidth newHeight x y c)) dst) dst)
               (zeroBuffer (usize (usize (newWidth * newHeight) * 4)))
           width := newWidth
           height := newHeight
           stride := u32 (newWidth * 4)
           format := image.format
           timestamp := image.timestamp }

/-! ## Binary32 arithmetic

The `f32` values of `scale` (source lines 211-240) are finite IEEE-754 binary32 numbers.  They
are kept as exact fractions: an operation of the source is the exact operation followed by
`f32`, the rounding to the nearest binary32 value with ties to even (every operation is
evaluated in binary32, without fused operations or excess precision).  Overflow to infinity
is not part of the model: while the sample positions are below 2^32 the values of `scale`
stay far below 2^128, and at a sample position of 2^32 or more the conversion to `u32` is
undefined in the source. -/

/-- An exact fraction `num / den`; `den` is not 0 wherever a fraction is used. -/
structure Frac where
  num : Int
  den : Nat
deriving DecidableEq, Repr

/-- The fraction `n / 1`. -/
def Frac.ofNat (n : Nat) : Frac := ⟨n, 1⟩

/-- The rational number a fraction stands for. -/
def Frac.toRat (a : Frac) : ℚ := (a.num : ℚ) / (a.den : ℚ)

instance : Mul Frac := ⟨fun a b => ⟨a.num * b.num, a.den * b.den⟩⟩

instance : Add Frac := ⟨fun a b => ⟨a.num * b.den + b.num * a.den, a.den * b.den⟩⟩

instance : Sub Frac := ⟨fun a b => ⟨a.num * b.den - b.num * a.den, a.den * b.den⟩⟩

instance : Div Frac :=
  ⟨fun a b => ⟨a.num * b.den * Int.sign b.num, a.den * b.num.natAbs⟩⟩

/-- The largest `k` (up to `fuel`) with `d * 2 ^ k <= n`, for `d <= n`. -/
def log2Up (n d : Nat) : Nat → Nat
  | 0 => 0
  | fuel + 1 => if 2 * d ≤ n then log2Up n (2 * d) fuel + 1 else 0

/-- The smallest `k` (up to `fuel`) with `d <= n * 2 ^ k`. -/
def log2Down (n d : Nat) : Nat → Nat
  | 0 => 0
  | fuel + 1 => if n < d then log2Down (2 * n) d fuel + 1 else 0

/-- The exponent of the leading bit of the positive fraction `n / d`: the integer `e` with
`2 ^ e <= n / d < 2 ^ (e + 1)`, for fractions between 2^-400 and 2^400. -/
def floorLog2 (n d : Nat) : Int :=
  if d ≤ n then (log2Up n d 400 : Int) else -(log2Down n d 400 : Int)

/-- The integer nearest to `n / (d * 2 ^ u)`, ties to the even one. -/
def roundAt (n d : Nat) (u : Int) : Nat :=
  let N := if 0 ≤ u then n else n * 2 ^ (-u).toNat
  let D := if 0 ≤ u then d * 2 ^ u.toNat else d
  let q := N / D
  let r := N % D
  if 2 * r < D then q else if D < 2 * r then q + 1 else if q % 2 = 0 then q else q + 1

/-- Rounding to binary32: the multiple of the unit in the last place nearest to the fraction,
ties to the even multiple.  The unit is `2 ^ (e - 23)` for the exponent `e` of the leading
bit, and `2 ^ (-149)` below the normal range. -/
def f32 (a : Frac) : Frac :=
  if a.num = 0 then
    ⟨0, 1⟩
  else
    let e := floorLog2 a.num.natAbs a.den
    let u : Int := (if e < -126 then -126 else e) - 23
    let m : Int := roundAt a.num.natAbs a.den u
    let s : Int := if a.num < 0 then -m else m
    if 0 ≤ u then ⟨s * 2 ^ u.toNat, 1⟩ else ⟨s, 2 ^ (-u).toNat⟩

/-- The conversion of a binary32 value to an integer type: the fraction rounded towards
zero. -/
def Frac.trunc (a : Frac) : Int :=
  if 0 ≤ a.num then ((a.num.toNat / a.den : Nat) : Int)
  else -(((-a.num).toNat / a.den : Nat) : Int)

/-! ## The interpolation of scale -/

/-- The ratios `xRatio` and `yRatio` (source lines 211-212):
`static_cast<f32>(extent - 1) / newExtent`, the subtraction being the one of `u32` and
`newExtent` being converted to `f32` for the division. -/
def scaleRatio (extent newExtent : Nat) : Frac :=
  f32 (f32 (Frac.ofNat (u32 (extent + 4294967295))) / f32 (Frac.ofNat newExtent))

/-- The sample positions `srcX = x * xRatio` and `srcY = y * yRatio` (source lines
218-219); the index is converted to `f32` for the product. -/
def scaleSrc (extent newExtent i : Nat) : Frac :=
  f32 (f32 (Frac.ofNat i) * scaleRatio extent newExtent)

/-- The lower neighbours `x0 = static_cast<u32>(srcX)` and `y0 = static_cast<u32>(srcY)`
(source lines 221-222): the sample position rounded towards zero.  The reduction to `u32`
changes the value only at a sample position of 2^32 or more, where the conversion is
undefined in the source. -/
def scaleLow (extent newExtent i : Nat) : Nat :=
  u32 (Int.toNat (Frac.trunc (scaleSrc extent newExtent i)))

/-- The upper neighbours `x1 = std::min(x0 + 1, image.width - 1)` and
`y1 = std::min(y0 + 1, image.height - 1)` (source lines 223-224), in `u32`. -/
def scaleHigh (extent newExtent i : Nat) : Nat :=
  min (u32 (scaleLow extent newExtent i + 1)) (u32 (extent + 4294967295))

/-- The weights `xFrac = srcX - x0` and `yFrac = srcY - y0` (source lines 226-227); the
neighbour is converted to `f32` for the difference. -/
def scaleFrac (extent newExtent i : Nat) : Frac :=
  f32 (scaleSrc extent newExtent i - f32 (Frac.ofNat (scaleLow extent newExtent i)))

/-- The index `(yy * image.width + xx) * 4 + c` of the source reads (source lines 231-234),
computed in `u32`. -/
def scaleIndex (image : CapturedImage) (yy xx c : Nat) : Nat :=
  u32 (u32 (u32 (u32 (yy * image.width) + xx) * 4) + c)

/-- The conversion `static_cast<int>(v)` of a binary32 value: rounding towards zero, then
the reduction to `i32`. -/
def truncToInt (v : Frac) : Int := toI32 (Frac.trunc v)

/-- The call `std::clamp(v, 0, 255)` on `int`. -/
def clampByte (v : Int) : Int :=
  if v < 0 then 0 else if 255 < v then 255 else v

/-- The blend of source lines 236-237 of the four neighbours `p00`, `p10`, `p01`, `p11` with
the weights `xFrac` and `yFrac`: products and sums from left to right, each rounded. -/
def scaleBlend (p00 p10 p01 p11 xFrac yFrac : Frac) : Frac :=
  let one := f32 (Frac.ofNat 1)
  f32 (f32 (f32 (f32 (f32 (p00 * f32 (one - xFrac)) * f32 (one - yFrac)) +
        f32 (f32 (p10 * xFrac) * f32 (one - yFrac))) +
      f32 (f32 (p01 * f32 (one - xFrac)) * yFrac)) +
    f32 (f32 (p11 * xFrac) * yFrac))

/-- The byte stored for a blended value (source lines 239-240):
`static_cast<byte>(std::clamp(static_cast<int>(value + 0.5f), 0, 255))`. -/
def scaleStore (value : Frac) : Byte :=
  toByte (Int.toNat (clampByte (truncToInt (f32 (value + f32 ⟨1, 2⟩)))))

/-- The byte `scale` stores for destination pixel `(x, y)` and channel `c` (source lines
218-240). -/
def scaleSample (image : CapturedImage) (newWidth newHeight x y c : Nat) : Byte :=
  let x0 := scaleLow image.width newWidth x
  let y0 := scaleLow image.height newHeight y
  let x1 := scaleHigh image.width newWidth x
  let y1 := scaleHigh image.height newHeight y
  let xFrac := scaleFrac image.width newWidth x
  let yFrac := scaleFrac image.height newHeight y
  let p00 := f32 (Frac.ofNat (readByte image.data (scaleIndex image y0 x0 c)).val)
  let p10 := f32 (Frac.ofNat (readByte image.data (scaleIndex image y0 x1 c)).val)
  let p01 := f32 (Frac.ofNat (readByte image.data (scaleIndex image y1 x0 c)).val)
  let p11 := f32 (Frac.ofNat (readByte image.data (scaleIndex image y1 x1 c)).val)
  scaleStore (scaleBlend p00 p10 p01 p11 xFrac yFrac)

/-! ## The interpolation as a formula

Two readings of the interpolation formula of the specification, to be compared with
`scaleSample`: over exact rationals, and with every operation rounded to binary32. -/

/-- The interpolation formula over exact rationals: the value
`clamp(floor(v + 1/2), 0, 255)` for destination pixel `(x, y)` and channel `c`, with
`sx = x * (srcW - 1) / dstW`, `x0 = floor(sx)`, `x1 = min(x0 + 1, srcW - 1)`,
`fx = sx - x0` (likewise in `y`), `p(i, j)` the channel-`c` byte of source pixel `(i, j)` and
`v = p(x0,y0)(1-fx)(1-fy) + p(x1,y0) fx (1-fy) + p(x0,y1)(1-fx) fy + p(x1,y1) fx fy`. -/
def bilinearExact (image : CapturedImage) (dstW dstH x y c : Nat) : Int :=
  let sx : ℚ := (x : ℚ) * ((image.width : ℚ) - 1) / (dstW : ℚ)
  let sy : ℚ := (y : ℚ) * ((image.height : ℚ) - 1) / (dstH : ℚ)
  let x0 : Int := ⌊sx⌋
  let y0 : Int := ⌊sy⌋
  let x1 : Int := min (x0 + 1) ((image.width : Int) - 1)
  let y1 : Int := min (y0 + 1) ((image.height : Int) - 1)
  let fx : ℚ := sx - (x0 : ℚ)
  let fy : ℚ := sy - (y0 : ℚ)
  let p : Int → Int → ℚ := fun i j =>
    ((readByte image.data (Int.toNat ((j * (image.width : Int) + i) * 4 + (c : Int)))).val : ℚ)
  let v : ℚ := p x0 y0 * (1 - fx) * (1 - fy) + p x1 y0 * fx * (1 - fy) +
    p x0 y1 * (1 - fx) * fy + p x1 y1 * fx * fy
  max 0 (min 255 ⌊v + 1 / 2⌋)

/-- The sample position of the formula in binary32: `sx = x * ((srcW - 1) / dstW)`, the
operands converted to binary32 and each operation rounded. -/
def formulaSrc (extent newExtent i : Nat) : Frac :=
  f32 (f32 (Frac.ofNat i) * f32 (f32 (Frac.ofNat (extent - 1)) / f32 (Frac.ofNat newExtent)))

/-- The lower neighbour of the formula in binary32: `x0`, the sample position rounded
towards zero. -/
def formulaLow (extent newExtent i : Nat) : Nat :=
  Int.toNat (Frac.trunc (formulaSrc extent newExtent i))

/-- The interpolation formula in binary32: as `bilinearExact`, with the sample position
`formulaSrc`, `x0` its truncation, every operand converted to binary32, every product, sum
and difference rounded (sums from left to right), and the conversion to `int` in place of
the floor. -/
def bilinearF32 (image : CapturedImage) (dstW dstH x y c : Nat) : Int :=
  let x0 := formulaLow image.width dstW x
  let y0 := formulaLow image.height dstH y
  let x1 := min (x0 + 1) (image.width - 1)
  let y1 := min (y0 + 1) (image.height - 1)
  let fx := f32 (formulaSrc image.width dstW x - f32 (Frac.ofNat x0))
  let fy := f32 (formulaSrc image.height dstH y - f32 (Frac.ofNat y0))
  let p : Nat → Nat → Frac := fun i j =>
    f32 (Frac.ofNat (readByte image.data ((j * image.width + i) * 4 + c)).val)
  let one := f32 (Frac.ofNat 1)
  let v := f32 (f32 (f32 (f32 (f32 (p x0 y0 * f32 (one - fx)) * f32 (one - fy)) +
        f32 (f32 (p x1 y0 * fx) * f32 (one - fy))) +
      f32 (f32 (p x0 y1 * f32 (one - fx)) * fy)) +
    f32 (f32 (p x1 y1 * fx) * fy))
  clampByte (truncToInt (f32 (v + f32 ⟨1, 2⟩)))

/-! ## crop -/

/-- The `switch` of `crop` that sets `bytesPerPixel`. -/
def bytesPerPixel : CaptureFormat → Nat
  | CaptureFormat.BGRA8 => 4
  | CaptureFormat.RGBA8 => 4
  | CaptureFormat.RGB8 => 3
  | CaptureFormat.Grayscale => 1

/-- The clamped origin and extent `(x, y, w, h)` that `crop` computes in `i32` before its
emptiness test (source lines 250-259): `static_cast<i32>(image.width) - x` is
`toI32 (toI32 image.width - x)`. -/
def cropClamp (image : CapturedImage) (region : Rect) : Int × Int × Int × Int :=
  let x := max 0 region.x
  let y := max 0 region.y
  let w := min region.width (toI32 (toI32 image.width - x))
  let h := min region.height (toI32 (toI32 image.height - y))
  (x, y, w, h)

/-- The function `ScreenCapture::crop`; `none` is `std::nullopt`.  The products
`(y + row) * image.stride`, `x * bytesPerPixel` and `row * result.stride` have an `i32` and a
`u32` operand and are therefore computed in `u32`; each is then added to a data pointer, so
the two source offsets are summed without reduction. -/
def crop (image : CapturedImage) (region : Rect) : Option CapturedImage :=
  let x := (cropClamp image region).1
  let y := (cropClamp image region).2.1
  let w := (cropClamp image region).2.2.1
  let h := (cropClamp image region).2.2.2
  if w ≤ 0 ∨ h ≤ 0 then
    none
  else
    let bpp := bytesPerPixel image.format
    let rWidth := i32ToU32 w
    let rHeight := i32ToU32 h
    let rStride := u32 (rWidth * bpp)
    some { data :=
             forLoop h.toNat (fun row dst =>
               let srcOff := u32 (i32ToU32 (toI32 (y + row)) * image.stride) +
                 u32 (i32ToU32 x * bpp)
               let dstOff := u32 (i32ToU32 row * rStride)
               memcpy dst dstOff image.data srcOff rStride)
               (zeroBuffer (usize (rStride * h.toNat)))
           width := rWidth
           height := rHeight
           stride := rStride
           format := image.format
           timestamp := image.timestamp }

/-- The offset of the pointer `srcRow` from `image.data.data()` in iteration `row` of the
copy loop of `crop` (source line 291), with the clamped origin of `cropClamp`. -/
def cropSrcRow (image : CapturedImage) (region : Rect) (row : Nat) : Nat :=
  u32 (i32ToU32 (toI32 ((cropClamp image region).2.1 + row)) * image.stride) +
    u32 (i32ToU32 (cropClamp image region).1 * bytesPerPixel image.format)

/-- The offset of the pointer `dstRow` from `result.data.data()` in iteration `row` of the
copy loop of `crop` (source line 292). -/
def cropDstRow (image : CapturedImage) (region : Rect) (row : Nat) : Nat :=
  u32 (i32ToU32 row *
    u32 (i32ToU32 (cropClamp image region).2.2.1 * bytesPerPixel image.format))

/-! ## Capture factory and backend state -/

/-- The enum `CaptureMethod`. -/
inductive CaptureMethod where
  | Auto
  | BitBlt
  | DXGI
  | WGC
deriving DecidableEq, Repr

/-- What `ScreenCapture::isMethodAvailable` sees of the platform: whether the build defines
`_WIN32`, and the answer of `VerifyVersionInfoW` to "major.minor >= 6.2" (Windows 8). -/
structure Platform where
  win32 : Bool
  windows8OrLater : Bool
deriving DecidableEq, Repr

/-- The function `ScreenCapture::isMethodAvailable`. -/
def isMethodAvailable (p : Platform) (method : CaptureMethod) : Bool :=
  if p.win32 then
    match method with
    | CaptureMethod.BitBlt => true
    | CaptureMethod.DXGI => p.windows8OrLater
    | CaptureMethod.WGC => false
    | CaptureMethod.Auto => false
  else
    false

/-- The function `ScreenCapture::getBestMethod`. -/
def getBestMethod (p : Platform) : CaptureMethod :=
  if isMethodAvailable p CaptureMethod.DXGI then CaptureMethod.DXGI else CaptureMethod.BitBlt

/-- A platform handle (`HDC`, `HBITMAP`, a COM interface pointer); a field of type
`Option Handle` is a pointer field and `none` is `nullptr`. -/
abbrev Handle := Nat

/-- The data members of `BitBltCapture` with their default member initialisers.
`m_bitmapInfo` is `none` while it is zeroed and `some (biWidth, biHeight)` once
`captureRegion` has filled the header (its other header fields are constants). -/
structure BitBltCapture where
  m_initialized : Bool := false
  m_format : CaptureFormat := CaptureFormat.BGRA8
  m_screenDC : Option Handle := none
  m_memoryDC : Option Handle := none
  m_bitmap : Option Handle := none
  m_bitmapInfo : Option (Int × Int) := none
deriving DecidableEq, Repr

/-- The data members of `DXGICapture` with their default member initialisers. -/
structure DXGICapture where
  m_initialized : Bool := false
  m_format : CaptureFormat := CaptureFormat.BGRA8
  m_monitorIndex : Nat := 0
  m_device : Option Handle := none
  m_context : Option Handle := none
  m_duplication : Option Handle := none
  m_stagingTexture : Option Handle := none
  m_outputWidth : Nat := 0
  m_outputHeight : Nat := 0
deriving DecidableEq, Repr

/-- The object behind the `std::unique_ptr<IScreenCapture>` that `create` returns;
`std::make_unique` never yields a null pointer. -/
inductive Backend where
  | bitBlt (s : BitBltCapture)
  | dxgi (s : DXGICapture)
deriving DecidableEq, Repr

/-- The virtual function `getMethod`. -/
def Backend.getMethod : Backend → CaptureMethod
  | Backend.bitBlt _ => CaptureMethod.BitBlt
  | Backend.dxgi _ => CaptureMethod.DXGI

/-- The function `ScreenCapture::create`: `Auto` is replaced by `getBestMethod`, the `DXGI`
case falls through to the `BitBlt` case when the method is not available, and `WGC` takes
the `default` label. -/
def create (p : Platform) (method : CaptureMethod) : Backend :=
  let method := if method = CaptureMethod.Auto then getBestMethod p else method
  match method with
  | CaptureMethod.DXGI =>
    if isMethodAvailable p CaptureMethod.DXGI then Backend.dxgi {} else Backend.bitBlt {}
  | _ => Backend.bitBlt {}

/-! ## Platform calls

The member functions of the backends call the operating system.  In the embedding a member
function takes the state of the object and the outcomes of the platform calls it may make,
and returns its return value, the new state and the list of the platform calls it made, in
order. -/

/-- The classes of `HRESULT` that `acquireFrame` tells apart after `AcquireNextFrame`: a
success code, `DXGI_ERROR_WAIT_TIMEOUT`, `DXGI_ERROR_ACCESS_LOST`, any other failure. -/
inductive AcquireResult where
  | ok
  | waitTimeout
  | accessLost
  | failed
deriving DecidableEq, Repr

/-- The platform calls of the two backends.  A release call carries the handle it releases;
`AcquireNextFrame` carries the result it reported. -/
inductive PlatformCall where
  | GetDC
  | CreateCompatibleDC (dc : Handle)
  | ReleaseDC (dc : Handle)
  | DeleteDC (dc : Handle)
  | DeleteObject (bitmap : Handle)
  | GetObject (bitmap : Handle)
  | CreateCompatibleBitmap (width height : Int)
  | SelectObject
  | BitBlt (x y width height : Int)
  | GetDIBits
  | GetSystemMetrics
  | IsWindow
  | GetWindowRect
  | D3D11CreateDevice
  | QueryDxgiDevice
  | GetAdapter
  | ReleaseDxgiDevice
  | EnumOutputs (monitorIndex : Nat)
  | ReleaseAdapter
  | QueryOutput1
  | ReleaseOutput
  | DuplicateOutput
  | ReleaseOutput1
  | GetDesc
  | CreateTexture2D (width height : Nat)
  | ReleaseStagingTexture (texture : Handle)
  | ReleaseDuplication (duplication : Handle)
  | ReleaseContext (context : Handle)
  | ReleaseDevice (device : Handle)
  | AcquireNextFrame (hr : AcquireResult)
  | QueryTexture
  | ReleaseResource
  | ReleaseFrame
  | CopyResource
  | ReleaseTexture
  | Map
  | Unmap
deriving DecidableEq, Repr

/-- One run of a member function: return value, state of the object afterwards, platform
calls made. -/
structure Step (σ α : Type) where
  ret : α
  state : σ
  calls : List PlatformCall
deriving DecidableEq, Repr

/-- Outcomes of the platform calls of `DXGICapture::initializeDuplication`: whether the four
interface lookups succeed, the duplication interface `DuplicateOutput` returns (`none`: the
call failed), the mode size `GetDesc` reports, and the texture `CreateTexture2D` returns
(`none`: the call failed).  A failed call leaves its output pointer as it was. -/
structure DuplicationOutcome where
  dxgiDevice : Bool
  adapter : Bool
  output : Bool
  output1 : Bool
  duplication : Option Handle
  descWidth : Nat
  descHeight : Nat
  stagingTexture : Option Handle
deriving DecidableEq, Repr

/-- Outcomes of the platform calls of `DXGICapture::initialize`: the device and the context
`D3D11CreateDevice` returns (`none`: the call failed), and the outcomes of
`initializeDuplication`. -/
structure DeviceOutcome where
  device : Option (Handle × Handle)
  duplication : DuplicationOutcome
deriving DecidableEq, Repr

/-- Outcomes of the platform calls of `DXGICapture::acquireFrame`: the result of the first
`AcquireNextFrame`, the outcomes of the recreation of the session, the result of the second
`AcquireNextFrame`, whether the frame resource is a texture, and the mapped staging memory
(`none`: `Map` failed; otherwise the bytes at `pData` and `RowPitch`). -/
structure FrameOutcome where
  first : AcquireResult
  recreate : DuplicationOutcome
  second : AcquireResult
  texture : Bool
  mapped : Option (List Byte × Nat)
deriving DecidableEq, Repr

/-- Outcomes of the two calls of `BitBltCapture::initialize`: the device contexts `GetDC`
and `CreateCompatibleDC` return (`none`: a null handle). -/
structure GdiOutcome where
  screenDC : Option Handle
  memoryDC : Option Handle
deriving DecidableEq, Repr

/-- Outcomes of the platform calls of `BitBltCapture::captureRegion`: the size `GetObject`
reports for the retained bitmap, the bitmap `CreateCompatibleBitmap` returns, whether
`BitBlt` succeeds, and the bytes `GetDIBits` stores. -/
structure BlitOutcome where
  bitmapSize : Int × Int
  newBitmap : Option Handle
  bitBlt : Bool
  pixels : List Byte
deriving DecidableEq, Repr

/-- Outcomes of the window lookups of `captureWindow`: whether the handle argument is null
(tested by `BitBltCapture` only), the answer of `IsWindow`, and the rectangle of
`GetWindowRect` as the region that reaches `captureRegion` or `crop` (`none`: the call
failed). -/
structure WindowOutcome where
  handleIsNull : Bool
  isWindow : Bool
  windowRect : Option Rect
deriving DecidableEq, Repr

/-! ## DXGICapture -/

/-- The function `DXGICapture::initializeDuplication`. -/
def DXGICapture.initializeDuplication (s : DXGICapture) (o : DuplicationOutcome) :
    Step DXGICapture Bool :=
  if !o.dxgiDevice then
    ⟨false, s, [PlatformCall.QueryDxgiDevice]⟩
  else if !o.adapter then
    ⟨false, s, [PlatformCall.QueryDxgiDevice, PlatformCall.GetAdapter,
      PlatformCall.ReleaseDxgiDevice]⟩
  else if !o.output then
    ⟨false, s, [PlatformCall.QueryDxgiDevice, PlatformCall.GetAdapter,
      PlatformCall.ReleaseDxgiDevice, PlatformCall.EnumOutputs s.m_monitorIndex,
      PlatformCall.ReleaseAdapter]⟩
  else if !o.output1 then
    ⟨false, s, [PlatformCall.QueryDxgiDevice, PlatformCall.GetAdapter,
      PlatformCall.ReleaseDxgiDevice, PlatformCall.EnumOutputs s.m_monitorIndex,
      PlatformCall.ReleaseAdapter, PlatformCall.QueryOutput1, PlatformCall.ReleaseOutput]⟩
  else
    match o.duplication with
    | none =>
      ⟨false, s, [PlatformCall.QueryDxgiDevice, PlatformCall.GetAdapter,
        PlatformCall.ReleaseDxgiDevice, PlatformCall.EnumOutputs s.m_monitorIndex,
        PlatformCall.ReleaseAdapter, PlatformCall.QueryOutput1, PlatformCall.ReleaseOutput,
        PlatformCall.DuplicateOutput, PlatformCall.ReleaseOutput1]⟩
    | some dup =>
      let s1 := { s with m_duplication := some dup, m_outputWidth := o.descWidth,
                         m_outputHeight := o.descHeight }
      match o.stagingTexture with
      | none =>
        ⟨false, { s1 with m_duplication := none },
          [PlatformCall.QueryDxgiDevice, PlatformCall.GetAdapter,
            PlatformCall.ReleaseDxgiDevice, PlatformCall.EnumOutputs s.m_monitorIndex,
            PlatformCall.ReleaseAdapter, PlatformCall.QueryOutput1,
            PlatformCall.ReleaseOutput, PlatformCall.DuplicateOutput,
            PlatformCall.ReleaseOutput1, PlatformCall.GetDesc,
            PlatformCall.CreateTexture2D o.descWidth o.descHeight,
            PlatformCall.ReleaseDuplication dup]⟩
      | some tex =>
        ⟨true, { s1 with m_stagingTexture := some tex },
          [PlatformCall.QueryDxgiDevice, PlatformCall.GetAdapter,
            PlatformCall.ReleaseDxgiDevice, PlatformCall.EnumOutputs s.m_monitorIndex,
            PlatformCall.ReleaseAdapter, PlatformCall.QueryOutput1,
            PlatformCall.ReleaseOutput, PlatformCall.DuplicateOutput,
            PlatformCall.ReleaseOutput1, PlatformCall.GetDesc,
            PlatformCall.CreateTexture2D o.descWidth o.descHeight]⟩

/-- The function `DXGICapture::releaseDuplication`. -/
def DXGICapture.releaseDuplication (s : DXGICapture) : Step DXGICapture Unit :=
  let callsTexture := match s.m_stagingTexture with
    | some tex => [PlatformCall.ReleaseStagingTexture tex]
    | none => []
  let callsDuplication := match s.m_duplication with
    | some dup => [PlatformCall.ReleaseDuplication dup]
    | none => []
  ⟨(), { s with m_stagingTexture := none, m_duplication := none },
    callsTexture ++ callsDuplication⟩

/-- The function `DXGICapture::initialize` (the `_WIN32` build). -/
def DXGICapture.initialize (s : DXGICapture) (o : DeviceOutcome) : Step DXGICapture Bool :=
  if s.m_initialized then
    ⟨true, s, []⟩
  else
    match o.device with
    | none => ⟨false, s, [PlatformCall.D3D11CreateDevice]⟩
    | some (device, context) =>
      let r := DXGICapture.initializeDuplication
        { s with m_device := some device, m_context := some context } o.duplication
      if !r.ret then
        ⟨false, { r.state with m_device := none, m_context := none },
          PlatformCall.D3D11CreateDevice :: r.calls ++
            [PlatformCall.ReleaseContext context, PlatformCall.ReleaseDevice device]⟩
      else
        ⟨true, { r.state with m_initialized := true },
          PlatformCall.D3D11CreateDevice :: r.calls⟩

/-- The function `DXGICapture::shutdown` (the `_WIN32` build). -/
def DXGICapture.shutdown (s : DXGICapture) : Step DXGICapture Unit :=
  if !s.m_initialized then
    ⟨(), s, []⟩
  else
    let r := DXGICapture.releaseDuplication s
    let callsContext := match r.state.m_context with
      | some context => [PlatformCall.ReleaseContext context]
      | none => []
    let callsDevice := match r.state.m_device with
      | some device => [PlatformCall.ReleaseDevice device]
      | none => []
    ⟨(), { r.state with m_context := none, m_device := none, m_initialized := false },
      r.calls ++ callsContext ++ callsDevice⟩

/-- The tail of both capture paths (source lines 491-501 and 806-816): the native frame is
converted when the configured format is not `BGRA8`, and the unconverted frame is returned
when `convertFormat` yields `std::nullopt`. -/
def convertIfNeeded (result : CapturedImage) (m_format : CaptureFormat) : CapturedImage :=
  if m_format ≠ CaptureFormat.BGRA8 then
    match convertFormat result m_format with
    | some converted => converted
    | none => result
  else
    result

/-- The frame `acquireFrame` builds from the mapped staging texture (source lines 790-801);
`timestamp` keeps its default 0.  `row * result.stride` and `row * mapped.RowPitch` are
products of `u32` values. -/
def DXGICapture.copyMappedRows (s : DXGICapture) (pData : List Byte) (rowPitch : Nat) :
    CapturedImage :=
  let stride := u32 (s.m_outputWidth * 4)
  { data :=
      forLoop s.m_outputHeight (fun row dst =>
        memcpy dst (u32 (row * stride)) pData (u32 (row * rowPitch)) stride)
        (zeroBuffer (usize (stride * s.m_outputHeight)))
    width := s.m_outputWidth
    height := s.m_outputHeight
    stride := stride
    format := CaptureFormat.BGRA8
    timestamp := 0 }

/-- The part of `DXGICapture::acquireFrame` that follows the acquisition (source lines
760-817), entered with the result `hr` of the last `AcquireNextFrame` and the calls made so
far. -/
def DXGICapture.readFrame (s : DXGICapture) (hr : AcquireResult) (o : FrameOutcome)
    (calls : List PlatformCall) : Step DXGICapture (Option CapturedImage) :=
  if hr ≠ AcquireResult.ok then
    ⟨none, s, calls⟩
  else if !o.texture then
    ⟨none, s, calls ++ [PlatformCall.QueryTexture, PlatformCall.ReleaseResource,
      PlatformCall.ReleaseFrame]⟩
  else
    match o.mapped with
    | none =>
      ⟨none, s, calls ++ [PlatformCall.QueryTexture, PlatformCall.ReleaseResource,
        PlatformCall.CopyResource, PlatformCall.ReleaseTexture, PlatformCall.Map,
        PlatformCall.ReleaseFrame]⟩
    | some (pData, rowPitch) =>
      ⟨some (convertIfNeeded (DXGICapture.copyMappedRows s pData rowPitch) s.m_format), s,
        calls ++ [PlatformCall.QueryTexture, PlatformCall.ReleaseResource,
          PlatformCall.CopyResource, PlatformCall.ReleaseTexture, PlatformCall.Map,
          PlatformCall.Unmap, PlatformCall.ReleaseFrame]⟩

/-- The function `DXGICapture::acquireFrame` (the `_WIN32` build). -/
def DXGICapture.acquireFrame (s : DXGICapture) (o : FrameOutcome) :
    Step DXGICapture (Option CapturedImage) :=
  match s.m_duplication with
  | none => ⟨none, s, []⟩
  | some _ =>
    if o.first = AcquireResult.waitTimeout then
      ⟨none, s, [PlatformCall.AcquireNextFrame o.first]⟩
    else if o.first = AcquireResult.accessLost then
      let released := DXGICapture.releaseDuplication s
      let recreated := DXGICapture.initializeDuplication released.state o.recreate
      if !recreated.ret then
        ⟨none, recreated.state,
          [PlatformCall.AcquireNextFrame o.first] ++ released.calls ++ recreated.calls⟩
      else
        DXGICapture.readFrame recreated.state o.second o
          ([PlatformCall.AcquireNextFrame o.first] ++ released.calls ++ recreated.calls ++
            [PlatformCall.AcquireNextFrame o.second])
    else
      DXGICapture.readFrame s o.first o [PlatformCall.AcquireNextFrame o.first]

/-- The function `DXGICapture::captureScreen`. -/
def DXGICapture.captureScreen (s : DXGICapture) (o : FrameOutcome) :
    Step DXGICapture (Option CapturedImage) :=
  DXGICapture.acquireFrame s o

/-- The function `DXGICapture::captureRegion`. -/
def DXGICapture.captureRegion (s : DXGICapture) (region : Rect) (o : FrameOutcome) :
    Step DXGICapture (Option CapturedImage) :=
  let full := DXGICapture.captureScreen s o
  match full.ret with
  | none => ⟨none, full.state, full.calls⟩
  | some fullCapture => ⟨crop fullCapture region, full.state, full.calls⟩

/-- The function `DXGICapture::captureWindow` (the `_WIN32` build). -/
def DXGICapture.captureWindow (s : DXGICapture) (w : WindowOutcome) (o : FrameOutcome) :
    Step DXGICapture (Option CapturedImage) :=
  let full := DXGICapture.captureScreen s o
  match full.ret with
  | none => ⟨none, full.state, full.calls⟩
  | some fullCapture =>
    if !w.isWindow then
      ⟨some fullCapture, full.state, full.calls ++ [PlatformCall.IsWindow]⟩
    else
      match w.windowRect with
      | none =>
        ⟨some fullCapture, full.state,
          full.calls ++ [PlatformCall.IsWindow, PlatformCall.GetWindowRect]⟩
      | some region =>
        ⟨crop fullCapture region, full.state,
          full.calls ++ [PlatformCall.IsWindow, PlatformCall.GetWindowRect]⟩

/-! ## BitBltCapture -/

/-- The function `BitBltCapture::initialize` (the `_WIN32` build). -/
def BitBltCapture.initialize (s : BitBltCapture) (o : GdiOutcome) : Step BitBltCapture Bool :=
  if s.m_initialized then
    ⟨true, s, []⟩
  else
    match o.screenDC with
    | none => ⟨false, { s with m_screenDC := none }, [PlatformCall.GetDC]⟩
    | some screenDC =>
      match o.memoryDC with
      | none =>
        ⟨false, { s with m_screenDC := none, m_memoryDC := none },
          [PlatformCall.GetDC, PlatformCall.CreateCompatibleDC screenDC,
            PlatformCall.ReleaseDC screenDC]⟩
      | some memoryDC =>
        ⟨true, { s with m_screenDC := some screenDC, m_memoryDC := some memoryDC,
                        m_initialized := true },
          [PlatformCall.GetDC, PlatformCall.CreateCompatibleDC screenDC]⟩

/-- The function `BitBltCapture::shutdown` (the `_WIN32` build). -/
def BitBltCapture.shutdown (s : BitBltCapture) : Step BitBltCapture Unit :=
  if !s.m_initialized then
    ⟨(), s, []⟩
  else
    let callsBitmap := match s.m_bitmap with
      | some bitmap => [PlatformCall.DeleteObject bitmap]
      | none => []
    let callsMemoryDC := match s.m_memoryDC with
      | some memoryDC => [PlatformCall.DeleteDC memoryDC]
      | none => []
    let callsScreenDC := match s.m_screenDC with
      | some screenDC => [PlatformCall.ReleaseDC screenDC]
      | none => []
    ⟨(), { s with m_bitmap := none, m_memoryDC := none, m_screenDC := none,
                  m_initialized := false },
      callsBitmap ++ callsMemoryDC ++ callsScreenDC⟩

/-- The bytes a platform call stores into a buffer: the buffer keeps its length, bytes the
call does not reach keep their value. -/
def storeBytes (buf bytes : List Byte) : List Byte :=
  bytes.take buf.length ++ buf.drop bytes.length

/-- The frame `BitBltCapture::captureRegion` builds (source lines 480-488) for a region of
`width` x `height` pixels (`int` values), filled by `GetDIBits`; `width * 4` is an `int`
product. -/
def BitBltCapture.readBitmap (width height : Int) (pixels : List Byte) : CapturedImage :=
  { data := storeBytes
      (zeroBuffer (usize (usize (i32ToU32 width * i32ToU32 height) * 4))) pixels
    width := i32ToU32 width
    height := i32ToU32 height
    stride := i32ToU32 (toI32 (width * 4))
    format := CaptureFormat.BGRA8
    timestamp := 0 }

/-- The function `BitBltCapture::captureRegion` (the `_WIN32` build); `region` holds the
four values after `static_cast<int>`. -/
def BitBltCapture.captureRegion (s : BitBltCapture) (region : Rect) (o : BlitOutcome) :
    Step BitBltCapture (Option CapturedImage) :=
  if !s.m_initialized then
    ⟨none, s, []⟩
  else if region.width ≤ 0 ∨ region.height ≤ 0 then
    ⟨none, s, []⟩
  else
    -- the retained bitmap is dropped when its size differs from the region
    let dropped : Step BitBltCapture Bool := match s.m_bitmap with
      | none => ⟨true, s, []⟩
      | some bitmap =>
        if o.bitmapSize.1 ≠ region.width ∨ o.bitmapSize.2 ≠ region.height then
          ⟨true, { s with m_bitmap := none },
            [PlatformCall.GetObject bitmap, PlatformCall.DeleteObject bitmap]⟩
        else
          ⟨false, s, [PlatformCall.GetObject bitmap]⟩
    -- a new bitmap is created when none is retained
    let created : Step BitBltCapture Bool :=
      if dropped.ret then
        ⟨o.newBitmap.isSome,
          { dropped.state with m_bitmapInfo := some (region.width, -region.height),
                               m_bitmap := o.newBitmap },
          dropped.calls ++ [PlatformCall.CreateCompatibleBitmap region.width region.height]⟩
      else
        ⟨true, dropped.state, dropped.calls⟩
    if !created.ret then
      ⟨none, created.state, created.calls⟩
    else if !o.bitBlt then
      ⟨none, created.state,
        created.calls ++ [PlatformCall.SelectObject,
          PlatformCall.BitBlt region.x region.y region.width region.height,
          PlatformCall.SelectObject]⟩
    else
      ⟨some (convertIfNeeded (BitBltCapture.readBitmap region.width region.height o.pixels)
          s.m_format),
        created.state,
        created.calls ++ [PlatformCall.SelectObject,
          PlatformCall.BitBlt region.x region.y region.width region.height,
          PlatformCall.SelectObject, PlatformCall.GetDIBits]⟩

/-- The function `BitBltCapture::captureScreen` (the `_WIN32` build); `screen` is the region
`{0, 0, width, height}` built from the two `GetSystemMetrics` values as it reaches
`captureRegion`. -/
def BitBltCapture.captureScreen (s : BitBltCapture) (screen : Rect) (o : BlitOutcome) :
    Step BitBltCapture (Option CapturedImage) :=
  if !s.m_initialized then
    ⟨none, s, []⟩
  else
    let r := BitBltCapture.captureRegion s screen o
    ⟨r.ret, r.state, [PlatformCall.GetSystemMetrics, PlatformCall.GetSystemMetrics] ++ r.calls⟩

/-- The function `BitBltCapture::captureWindow` (the `_WIN32` build). -/
def BitBltCapture.captureWindow (s : BitBltCapture) (w : WindowOutcome) (o : BlitOutcome) :
    Step BitBltCapture (Option CapturedImage) :=
  if !s.m_initialized ∨ w.handleIsNull then
    ⟨none, s, []⟩
  else if !w.isWindow then
    ⟨none, s, [PlatformCall.IsWindow]⟩
  else
    match w.windowRect with
    | none => ⟨none, s, [PlatformCall.IsWindow, PlatformCall.GetWindowRect]⟩
    | some region =>
      let r := BitBltCapture.captureRegion s region o
      ⟨r.ret, r.state, [PlatformCall.IsWindow, PlatformCall.GetWindowRect] ++ r.calls⟩

/-- The function `setFormat` of `BitBltCapture`. -/
def BitBltCapture.setFormat (s : BitBltCapture) (format : CaptureFormat) : BitBltCapture :=
  { s with m_format := format }

/-- The function `setFormat` of `DXGICapture`. -/
def DXGICapture.setFormat (s : DXGICapture) (format : CaptureFormat) : DXGICapture :=
  { s with m_format := format }

/-! ## Observers of the call log -/

/-- The results of the `AcquireNextFrame` calls in a call log, in order. -/
def acquireResults (calls : List PlatformCall) : List AcquireResult :=
  calls.filterMap (fun c =>
    match c with
    | PlatformCall.AcquireNextFrame hr => some hr
    | _ => none)

/-- The call releases a staging texture. -/
def PlatformCall.isReleaseStagingTexture : PlatformCall → Bool
  | PlatformCall.ReleaseStagingTexture _ => true
  | _ => false

/-- The call releases a duplication session. -/
def PlatformCall.isReleaseDuplication : PlatformCall → Bool
  | PlatformCall.ReleaseDuplication _ => true
  | _ => false

/-- Consecutive `acquireFrame` calls on one instance, one per element of `os`: the frames
returned, the final state and the calls of all runs. -/
def DXGICapture.acquireFrames (s : DXGICapture) :
    List FrameOutcome → Step DXGICapture (List (Option CapturedImage))
  | [] => ⟨[], s, []⟩
  | o :: os =>
    let r := DXGICapture.acquireFrame s o
    let rest := DXGICapture.acquireFrames r.state os
    ⟨r.ret :: rest.ret, rest.state, r.calls ++ rest.calls⟩

/-- The region capture of the duplication backend as the specification words it: one
`captureScreen`, followed by `crop` of the frame it returned; absent when the screen capture
is absent. -/
def captureScreenThenCrop (s : DXGICapture) (region : Rect) (o : FrameOutcome) :
    Step DXGICapture (Option CapturedImage) :=
  let screen := DXGICapture.captureScreen s o
  ⟨screen.ret.bind (fun frame => crop frame region), screen.state, screen.calls⟩

/-! ## Sample images -/

/-- A tightly packed 2x1 `BGRA8` image. -/
def bgraPair : CapturedImage :=
  { data := [10, 20, 30, 40, 50, 60, 70, 80], width := 2, height := 1, stride := 8,
    format := CaptureFormat.BGRA8, timestamp := 7 }

/-- A 4x1 `BGRA8` image whose pixels are pure red, pure green, pure blue and white. -/
def bgraPrimaries : CapturedImage :=
  { data := [0, 0, 255, 255, 0, 255, 0, 255, 255, 0, 0, 255, 255, 255, 255, 255],
    width := 4, height := 1, stride := 16, format := CaptureFormat.BGRA8, timestamp := 0 }

/-- A 1x1 `RGBA8` image. -/
def rgbaPixel : CapturedImage :=
  { data := [1, 2, 3, 4], width := 1, height := 1, stride := 4,
    format := CaptureFormat.RGBA8, timestamp := 0 }

/-- A 4x4 `Grayscale` image whose byte at row `r`, column `c` is `4 * r + c`. -/
def gray4x4 : CapturedImage :=
  { data := [0, 1, 2, 3, 4, 5, 6, 7, 8, 9, 10, 11, 12, 13, 14, 15],
    width := 4, height := 4, stride := 4, format := CaptureFormat.Grayscale, timestamp := 0 }

/-- A region of size 2x2 that lies entirely to the left of every image: it covers the
columns -3 and -2. -/
def leftRegion : Rect := { x := -3, y := 0, width := 2, height := 2 }

/-- A `Grayscale` image of one row that is 2^31 pixels wide. -/
def wideStrip : CapturedImage :=
  { data := List.replicate 2147483648 0, width := 2147483648, height := 1,
    stride := 2147483648, format := CaptureFormat.Grayscale, timestamp := 0 }

/-- The region of the single pixel at the origin. -/
def originPixel : Rect := { x := 0, y := 0, width := 1, height := 1 }

/-- A `Grayscale` image of 65536 columns and 65537 rows (2^32 + 65536 bytes): the first 65536
rows are filled with 0 and the last row with 1. -/
def tallGray : CapturedImage :=
  { data := List.replicate 4294967296 0 ++ List.replicate 65536 1, width := 65536,
    height := 65537, stride := 65536, format := CaptureFormat.Grayscale, timestamp := 0 }

/-- The region of the first pixel of the last row of `tallGray`. -/
def lastRowPixel : Rect := { x := 0, y := 65536, width := 1, height := 1 }

/-- A 100x100 `Grayscale` image filled with 0. -/
def gray100 : CapturedImage :=
  { data := List.replicate 10000 0, width := 100, height := 100, stride := 100,
    format := CaptureFormat.Grayscale, timestamp := 0 }

/-- The region (90, 90, 50, 50), which straddles the lower right corner of `gray100`. -/
def cornerRegion : Rect := { x := 90, y := 90, width := 50, height := 50 }

/-- A region of size 2x2 that starts in the column right after the last column of
`gray4x4`. -/
def rightRegion : Rect := { x := 4, y := 0, width := 2, height := 2 }

/-- A stand-in for the interpolation of `scale`: every output byte is 0. -/
def sampleZero : CapturedImage → Nat → Nat → Nat → Nat → Nat → Byte :=
  fun _ _ _ _ _ _ => 0

/-- A `DXGICapture` in the Ready state: initialized, with device 1, context 2, duplication
session 3 and a staging texture 4 for a 2x1 output. -/
def readyDXGI : DXGICapture :=
  { m_initialized := true, m_device := some 1, m_context := some 2, m_duplication := some 3,
    m_stagingTexture := some 4, m_outputWidth := 2, m_outputHeight := 1 }

/-- A recreation of the session that fails at its first call. -/
def failingDuplication : DuplicationOutcome :=
  { dxgiDevice := false, adapter := false, output := false, output1 := false,
    duplication := none, descWidth := 0, descHeight := 0, stagingTexture := none }

/-- A recreation of the session that succeeds with session 5 and staging texture 6. -/
def workingDuplication : DuplicationOutcome :=
  { dxgiDevice := true, adapter := true, output := true, output1 := true,
    duplication := some 5, descWidth := 2, descHeight := 1, stagingTexture := some 6 }

/-- A frame whose acquisition reports access lost and whose session recreation fails. -/
def lostFrame : FrameOutcome :=
  { first := AcquireResult.accessLost, recreate := failingDuplication,
    second := AcquireResult.failed, texture := false, mapped := none }

/-- A frame whose acquisition reports access lost twice, around a successful recreation. -/
def twiceLostFrame : FrameOutcome :=
  { first := AcquireResult.accessLost, recreate := workingDuplication,
    second := AcquireResult.accessLost, texture := true, mapped := none }

/-- A wait that times out. -/
def timeoutFrame : FrameOutcome :=
  { first := AcquireResult.waitTimeout, recreate := failingDuplication,
    second := AcquireResult.failed, texture := false, mapped := none }

/-- A frame that is acquired, read and mapped: eight bytes with a row pitch of 8. -/
def goodFrame : FrameOutcome :=
  { first := AcquireResult.ok, recreate := failingDuplication, second := AcquireResult.failed,
    texture := true, mapped := some ([10, 20, 30, 40, 50, 60, 70, 80], 8) }

/-- A `BitBltCapture` after a successful `initialize` and one capture: screen DC 1, memory
DC 2 and a retained 2x1 bitmap 3. -/
def readyBitBlt : BitBltCapture :=
  { m_initialized := true, m_screenDC := some 1, m_memoryDC := some 2, m_bitmap := some 3,
    m_bitmapInfo := some (2, -1) }

/-- A blit of a 2x1 region that succeeds and reuses the retained bitmap. -/
def goodBlit : BlitOutcome :=
  { bitmapSize := (2, 1), newBitmap := none, bitBlt := true,
    pixels := [10, 20, 30, 40, 50, 60, 70, 80] }

/-- The region of a 2x1 screen. -/
def smallScreen : Rect := { x := 0, y := 0, width := 2, height := 1 }

/-- The `Grayscale` frame that `readyDXGI` hands out for `goodFrame`. -/
def grayFrame : CapturedImage :=
  { data := [21, 61], width := 2, height := 1, stride := 2,
    format := CaptureFormat.Grayscale, timestamp := 0 }

/-- Outcomes of an `initialize` of `DXGICapture` in which every call succeeds. -/
def workingDevice : DeviceOutcome :=
  { device := some (7, 8), duplication := workingDuplication }

/-- A window that no longer exists: the handle is not null, `IsWindow` answers false. -/
def goneWindow : WindowOutcome :=
  { handleIsNull := false, isWindow := false, windowRect := none }

/-- A region of width 0. -/
def emptyRegion : Rect := { x := 0, y := 0, width := 0, height := 5 }

/-- A 1x2 `BGRA8` image whose rows are padded to a stride of 8: the pixels are
(1, 2, 3, 4) and (5, 6, 7, 8), the padding bytes are 9. -/
def paddedColumn : CapturedImage :=
  { data := [1, 2, 3, 4, 9, 9, 9, 9, 5, 6, 7, 8, 9, 9, 9, 9], width := 1, height := 2,
    stride := 8, format := CaptureFormat.BGRA8, timestamp := 3 }

/-- A tightly packed 1x2 `BGRA8` image that holds the first eight bytes of `paddedColumn`. -/
def packedColumn : CapturedImage :=
  { data := [1, 2, 3, 4, 9, 9, 9, 9], width := 1, height := 2, stride := 4,
    format := CaptureFormat.BGRA8, timestamp := 3 }

/-- A 1x1 `BGRA8` image whose four bytes are 7. -/
def flatPixel : CapturedImage :=
  { data := [7, 7, 7, 7], width := 1, height := 1, stride := 4,
    format := CaptureFormat.BGRA8, timestamp := 0 }

/-- The full bounds (0, 0, width, height) of `tallGray`. -/
def tallGrayBounds : Rect := { x := 0, y := 0, width := 65536, height := 65537 }

/-- A tightly packed 2x1 `BGRA8` image whose first byte is 3 and whose other bytes are 0. -/
def dotRow : CapturedImage :=
  { data := [3, 0, 0, 0, 0, 0, 0, 0], width := 2, height := 1, stride := 8,
    format := CaptureFormat.BGRA8, timestamp := 0 }

/-- A tightly packed `BGRA8` image of one row of 16777220 = 2^24 + 4 pixels, filled
with 0. -/
def wideRow : CapturedImage :=
  { data := List.replicate 67108880 0, width := 16777220, height := 1, stride := 67108880,
    format := CaptureFormat.BGRA8, timestamp := 0 }

/-! ## Loop lemmas -/

theorem forLoop_zero {σ : Type} (body : Nat → σ → σ) (s : σ) : forLoop 0 body s = s := by
  simp [forLoop]

theorem forLoop_succ {σ : Type} (n : Nat) (body : Nat → σ → σ) (s : σ) :
    forLoop (n + 1) body s = body n (forLoop n body s) := by
  simp [forLoop, List.range_succ, List.foldl_append]

theorem forLoop_one {σ : Type} (body : Nat → σ → σ) (s : σ) : forLoop 1 body s = body 0 s :=
  rfl

/-- Loop invariant rule: a property that holds before the loop and is carried from `i` to
`i + 1` by iteration `i` holds with index `n` after the loop. -/
theorem forLoop_invariant {σ : Type} (P : Nat → σ → Prop) (n : Nat) (body : Nat → σ → σ)
    (s : σ) (h0 : P 0 s) (hstep : ∀ i, i < n → ∀ t, P i t → P (i + 1) (body i t)) :
    P n (forLoop n body s) := by
  induction n with
  | zero => rw [forLoop_zero]; exact h0
  | succ k ih =>
    rw [forLoop_succ]
    exact hstep k (Nat.lt_succ_self k) _
      (ih (fun i hi t ht => hstep i (Nat.lt_succ_of_lt hi) t ht))

theorem usize_of_lt {n : Nat} (h : n < 18446744073709551616) : usize n = n :=
  Nat.mod_eq_of_lt h

theorem u32_of_lt {n : Nat} (h : n < 4294967296) : u32 n = n :=
  Nat.mod_eq_of_lt h

/-- A loop that stores `f i` at index `i` of a zero buffer of length `n` yields the buffer
whose `i`-th byte is `f i`. -/
theorem storeLoop_spec (f : Nat → Byte) (n : Nat) :
    (forLoop n (fun i dst => dst.set i (f i)) (zeroBuffer n)).length = n ∧
      ∀ i, i < n → (forLoop n (fun i dst => dst.set i (f i)) (zeroBuffer n))[i]? =
        some (f i) := by
  have key := forLoop_invariant
    (fun m (t : List Byte) => t.length = n ∧ ∀ i, i < m → t[i]? = some (f i)) n
    (fun i dst => dst.set i (f i)) (zeroBuffer n)
    (by simp [zeroBuffer])
    (by
      intro m hm t ht
      obtain ⟨hlen, hget⟩ := ht
      refine ⟨by simp [hlen], ?_⟩
      intro i hi
      by_cases hmi : i = m
      · subst hmi
        rw [List.getElem?_set_self (by omega)]
      · rw [List.getElem?_set_ne (by omega)]
        exact hget i (by omega))
  exact key

/-- The swap loop, on a pixel count whose byte count fits `usize`, yields a buffer of
`pixelCount * 4` bytes in which pixel `i` holds bytes 2, 1, 0, 3 of source pixel `i`. -/
theorem swapRedBlue_spec (src : List Byte) (n : Nat) (hn : n * 4 < 18446744073709551616) :
    (swapRedBlue src n).length = n * 4 ∧
      ∀ i, i < n →
        (swapRedBlue src n)[i * 4]? = some (readByte src (i * 4 + 2)) ∧
        (swapRedBlue src n)[i * 4 + 1]? = some (readByte src (i * 4 + 1)) ∧
        (swapRedBlue src n)[i * 4 + 2]? = some (readByte src (i * 4)) ∧
        (swapRedBlue src n)[i * 4 + 3]? = some (readByte src (i * 4 + 3)) := by
  have key := forLoop_invariant
    (fun m (t : List Byte) => t.length = n * 4 ∧ ∀ i, i < m →
        t[i * 4]? = some (readByte src (i * 4 + 2)) ∧
        t[i * 4 + 1]? = some (readByte src (i * 4 + 1)) ∧
        t[i * 4 + 2]? = some (readByte src (i * 4)) ∧
        t[i * 4 + 3]? = some (readByte src (i * 4 + 3))) n
    (fun i dst =>
      let dst := dst.set (usize (i * 4 + 0)) (readByte src (usize (i * 4 + 2)))
      let dst := dst.set (usize (i * 4 + 1)) (readByte src (usize (i * 4 + 1)))
      let dst := dst.set (usize (i * 4 + 2)) (readByte src (usize (i * 4 + 0)))
      dst.set (usize (i * 4 + 3)) (readByte src (usize (i * 4 + 3))))
    (zeroBuffer (usize (n * 4)))
    (by simp [zeroBuffer, usize_of_lt hn])
    (by
      intro m hm t ht
      obtain ⟨hlen, hget⟩ := ht
      have e0 : usize (m * 4 + 0) = m * 4 := usize_of_lt (by omega)
      have e1 : usize (m * 4 + 1) = m * 4 + 1 := usize_of_lt (by omega)
      have e2 : usize (m * 4 + 2) = m * 4 + 2 := usize_of_lt (by omega)
      have e3 : usize (m * 4 + 3) = m * 4 + 3 := usize_of_lt (by omega)
      simp only [e0, e1, e2, e3]
      refine ⟨by simp [hlen], ?_⟩
      intro i hi
      by_cases hmi : i = m
      · subst hmi
        refine ⟨?_, ?_, ?_, ?_⟩
        · rw [List.getElem?_set_ne (by omega), List.getElem?_set_ne (by omega),
            List.getElem?_set_ne (by omega), List.getElem?_set_self (by omega)]
        · rw [List.getElem?_set_ne (by omega), List.getElem?_set_ne (by omega),
            List.getElem?_set_self (by simp; omega)]
        · rw [List.getElem?_set_ne (by omega), List.getElem?_set_self (by simp; omega)]
        · rw [List.getElem?_set_self (by simp; omega)]
      · have h := hget i (by omega)
        refine ⟨?_, ?_, ?_, ?_⟩
        · rw [List.getElem?_set_ne (by omega), List.getElem?_set_ne (by omega),
            List.getElem?_set_ne (by omega), List.getElem?_set_ne (by omega)]
          exact h.1
        · rw [List.getElem?_set_ne (by omega), List.getElem?_set_ne (by omega),
            List.getElem?_set_ne (by omega), List.getElem?_set_ne (by omega)]
          exact h.2.1
        · rw [List.getElem?_set_ne (by omega), List.getElem?_set_ne (by omega),
            List.getElem?_set_ne (by omega), List.getElem?_set_ne (by omega)]
          exact h.2.2.1
        · rw [List.getElem?_set_ne (by omega), List.getElem?_set_ne (by omega),
            List.getElem?_set_ne (by omega), List.getElem?_set_ne (by omega)]
          exact h.2.2.2)
  exact key

/-- A read inside the buffer returns the stored byte. -/
theorem readByte_of_getElem? {buf : List Byte} {i : Nat} {b : Byte} (h : buf[i]? = some b) :
    readByte buf i = b := by
  simp [readByte, List.getD, h]

theorem getElem?_eq_some_readByte {buf : List Byte} {i : Nat} (h : i < buf.length) :
    buf[i]? = some (readByte buf i) := by
  simp [readByte, List.getD, List.getElem?_eq_getElem h]

/-- Swapping bytes 0 and 2 of every pixel twice gives back a buffer that holds exactly
`pixelCount` pixels. -/
theorem swapRedBlue_swapRedBlue (src : List Byte) (n : Nat) (hlen : src.length = n * 4)
    (hn : n * 4 < 18446744073709551616) : swapRedBlue (swapRedBlue src n) n = src := by
  obtain ⟨hlen1, hget1⟩ := swapRedBlue_spec src n hn
  obtain ⟨hlen2, hget2⟩ := swapRedBlue_spec (swapRedBlue src n) n hn
  apply List.ext_getElem?
  intro j
  by_cases hj : j < n * 4
  · have hi : j / 4 < n := by omega
    obtain ⟨a0, a1, a2, a3⟩ := hget1 (j / 4) hi
    obtain ⟨b0, b1, b2, b3⟩ := hget2 (j / 4) hi
    have r0 := readByte_of_getElem? a0
    have r1 := readByte_of_getElem? a1
    have r2 := readByte_of_getElem? a2
    have r3 := readByte_of_getElem? a3
    have hmod : j % 4 = 0 ∨ j % 4 = 1 ∨ j % 4 = 2 ∨ j % 4 = 3 := by omega
    rcases hmod with h | h | h | h
    · have hj0 : j = j / 4 * 4 := by omega
      rw [hj0, b0, r2]
      exact (getElem?_eq_some_readByte (by omega)).symm
    · have hj1 : j = j / 4 * 4 + 1 := by omega
      rw [hj1, b1, r1]
      exact (getElem?_eq_some_readByte (by omega)).symm
    · have hj2 : j = j / 4 * 4 + 2 := by omega
      rw [hj2, b2, r0]
      exact (getElem?_eq_some_readByte (by omega)).symm
    · have hj3 : j = j / 4 * 4 + 3 := by omega
      rw [hj3, b3, r3]
      exact (getElem?_eq_some_readByte (by omega)).symm
  · rw [List.getElem?_eq_none (by omega), List.getElem?_eq_none (by omega)]

/-- The product of two `u32` values fits `usize`. -/
theorem usize_mul_u32 {a b : Nat} (ha : a < 4294967296) (hb : b < 4294967296) :
    usize (a * b) = a * b := by
  apply usize_of_lt
  have h1 : a * b ≤ 4294967295 * 4294967295 := Nat.mul_le_mul (by omega) (by omega)
  omega

/-- The cast to `byte` in `luma` loses nothing: the weighted sum divided by 1000 is at most
255. -/
theorem luma_val (r g b : Byte) :
    (luma r g b).val = (r.val * 299 + g.val * 587 + b.val * 114) / 1000 := by
  have hr := r.isLt
  have hg := g.isLt
  have hb := b.isLt
  show (r.val * 299 + g.val * 587 + b.val * 114) / 1000 % 256 = _
  omega

/-- Two loop bodies that agree on the indices below `n` give the same loop. -/
theorem forLoop_congr {σ : Type} (n : Nat) (body body2 : Nat → σ → σ) (s : σ)
    (h : ∀ i, i < n → ∀ t, body i t = body2 i t) : forLoop n body s = forLoop n body2 s := by
  induction n with
  | zero => rfl
  | succ k ih =>
    rw [forLoop_succ, forLoop_succ, ih (fun i hi t => h i (Nat.lt_succ_of_lt hi) t)]
    exact h k (Nat.lt_succ_self k) _

/-- A `memcpy` whose destination range lies inside the destination buffer keeps the length of
the buffer and replaces exactly the bytes of the range by the source bytes. -/
theorem memcpy_spec (dst : List Byte) (dOff : Nat) (src : List Byte) (sOff n : Nat)
    (hfit : dOff + n ≤ dst.length) :
    (memcpy dst dOff src sOff n).length = dst.length ∧
      ∀ j, (memcpy dst dOff src sOff n)[j]? =
        if dOff ≤ j ∧ j < dOff + n then some (readByte src (sOff + (j - dOff))) else dst[j]? := by
  have key := forLoop_invariant
    (fun m (t : List Byte) => t.length = dst.length ∧ ∀ j, t[j]? =
      if dOff ≤ j ∧ j < dOff + m then some (readByte src (sOff + (j - dOff))) else dst[j]?) n
    (fun k acc => acc.set (dOff + k) (readByte src (sOff + k))) dst
    (by
      refine ⟨rfl, fun j => ?_⟩
      rw [if_neg (by omega)])
    (by
      intro m hm t ht
      obtain ⟨hlen, hget⟩ := ht
      refine ⟨by simp [hlen], fun j => ?_⟩
      by_cases hj : j = dOff + m
      · subst hj
        rw [List.getElem?_set_self (by omega), if_pos (by omega)]
        congr 3
        omega
      · rw [List.getElem?_set_ne (by omega), hget j]
        by_cases hin : dOff ≤ j ∧ j < dOff + m
        · rw [if_pos hin, if_pos (by omega)]
        · rw [if_neg hin, if_neg (by omega)])
  exact key

/-- A loop that copies, for every row `r < h`, `n` bytes from source offset `sOff r` to
offset `r * n` of a zero buffer of `n * h` bytes yields the buffer whose row `r` holds the
source bytes `sOff r, ..., sOff r + n - 1`. -/
theorem rowLoop_spec (src : List Byte) (sOff : Nat → Nat) (n h : Nat) :
    (forLoop h (fun row dst => memcpy dst (row * n) src (sOff row) n)
        (zeroBuffer (n * h))).length = n * h ∧
      ∀ r k, r < h → k < n →
        (forLoop h (fun row dst => memcpy dst (row * n) src (sOff row) n)
          (zeroBuffer (n * h)))[r * n + k]? = some (readByte src (sOff r + k)) := by
  have key := forLoop_invariant
    (fun m (t : List Byte) => t.length = n * h ∧ ∀ r k, r < m → k < n →
      t[r * n + k]? = some (readByte src (sOff r + k))) h
    (fun row dst => memcpy dst (row * n) src (sOff row) n) (zeroBuffer (n * h))
    (by
      refine ⟨by simp [zeroBuffer], fun r k hr _ => ?_⟩
      omega)
    (by
      intro m hm t ht
      obtain ⟨hlen, hget⟩ := ht
      have hrow : m * n + n ≤ n * h := by
        have h1 : (m + 1) * n ≤ h * n := Nat.mul_le_mul_right n hm
        rw [Nat.mul_comm n h]
        linarith
      obtain ⟨hlen2, hget2⟩ := memcpy_spec t (m * n) src (sOff m) n (by omega)
      refine ⟨by rw [hlen2, hlen], fun r k hr hk => ?_⟩
      rw [hget2]
      by_cases hrm : r = m
      · subst hrm
        rw [if_pos (by omega)]
        congr 3
        omega
      · have hlt : r < m := by omega
        have h1 : (r + 1) * n ≤ m * n := Nat.mul_le_mul_right n hlt
        have h2 : r * n + k < m * n := by linarith
        rw [if_neg (by omega)]
        exact hget r k hlt hk)
  exact key

/-! ## Integer conversions inside their ranges -/

theorem toI32_of_range {v : Int} (hlo : -2147483648 ≤ v) (hhi : v ≤ 2147483647) :
    toI32 v = v := by
  unfold toI32
  rw [Int.emod_eq_of_lt (by omega) (by omega)]
  omega

theorem i32ToU32_of_nonneg {v : Int} (hlo : 0 ≤ v) (hhi : v ≤ 2147483647) :
    ((i32ToU32 v : Nat) : Int) = v := by
  unfold i32ToU32
  rw [Int.emod_eq_of_lt (by omega) (by omega)]
  exact Int.toNat_of_nonneg hlo

/-- For an image whose width and height are at most 2^31 - 1 the clamp of `crop` is the
clamp over the integers: no cast and no subtraction leaves the range of `i32`. -/
theorem cropClamp_of_range (image : CapturedImage) (region : Rect)
    (hw : image.width ≤ 2147483647) (hh : image.height ≤ 2147483647)
    (hreg : region.Representable) :
    cropClamp image region =
      (max 0 region.x, max 0 region.y,
        min region.width ((image.width : Int) - max 0 region.x),
        min region.height ((image.height : Int) - max 0 region.y)) := by
  obtain ⟨⟨hx1, hx2⟩, ⟨hy1, hy2⟩, _, _⟩ := hreg
  have hW : toI32 (image.width : Int) = image.width := toI32_of_range (by omega) (by omega)
  have hH : toI32 (image.height : Int) = image.height := toI32_of_range (by omega) (by omega)
  have hdx : toI32 ((image.width : Int) - max 0 region.x) = image.width - max 0 region.x :=
    toI32_of_range (by omega) (by omega)
  have hdy : toI32 ((image.height : Int) - max 0 region.y) = image.height - max 0 region.y :=
    toI32_of_range (by omega) (by omega)
  simp only [cropClamp, hW, hH, hdx, hdy]

theorem toI32_natCast {n : Nat} (h : n ≤ 2147483647) : toI32 (n : Int) = n :=
  toI32_of_range (by omega) (by omega)

theorem i32ToU32_natCast {n : Nat} (h : n ≤ 2147483647) : i32ToU32 (n : Int) = n := by
  have h1 := i32ToU32_of_nonneg (v := (n : Int)) (by omega) (by omega)
  exact_mod_cast h1


/-- On an image of at most 2^32 bytes whose width and height are at most 2^31 - 1, a present
`crop` has the format of the source, stride = width * bytesPerPixel, a buffer of
stride * height bytes, and row `r` of the result holds the bytes of source row `y + r` from
byte offset `x * bytesPerPixel` on: no row offset wraps around. -/
theorem crop_copies_rows (image : CapturedImage) (region : Rect)
    (hrep : image.Representable) (hreg : region.Representable)
    (hw : image.width ≤ 2147483647) (hh : image.height ≤ 2147483647)
    (hstride : image.width * bytesPerPixel image.format ≤ image.stride)
    (hlen : image.data.length = image.stride * image.height)
    (hsmall : image.stride * image.height ≤ 4294967296)
    (res : CapturedImage) (hres : crop image region = some res) :
    ∃ X Y Wc Hc : Nat,
      (X : Int) = max 0 region.x ∧ (Y : Int) = max 0 region.y ∧
      (Wc : Int) = min region.width ((image.width : Int) - max 0 region.x) ∧
      (Hc : Int) = min region.height ((image.height : Int) - max 0 region.y) ∧
      res.format = image.format ∧ res.width = Wc ∧ res.height = Hc ∧
      res.stride = Wc * bytesPerPixel image.format ∧
      res.data.length = res.stride * res.height ∧
      ∀ r k, r < Hc → k < Wc * bytesPerPixel image.format →
        ∃ b, image.data[(Y + r) * image.stride + X * bytesPerPixel image.format + k]? = some b ∧
          res.data[r * res.stride + k]? = some b := by
  have hclamp := cropClamp_of_range image region hw hh hreg
  obtain ⟨_, _, hs, _, _⟩ := hrep
  obtain ⟨⟨hx1, hx2⟩, ⟨hy1, hy2⟩, ⟨_, hrw⟩, ⟨_, hrh⟩⟩ := hreg
  simp only [crop, hclamp] at hres
  by_cases hc : min region.width ((image.width : Int) - max 0 region.x) ≤ 0 ∨
      min region.height ((image.height : Int) - max 0 region.y) ≤ 0
  · rw [if_pos hc] at hres
    exact Option.noConfusion hres
  rw [if_neg hc] at hres
  have hres2 := Option.some.inj hres
  clear hres
  -- the clamped origin and size as natural numbers
  obtain ⟨X, hX⟩ : ∃ X : Nat, (X : Int) = max 0 region.x :=
    ⟨(max 0 region.x).toNat, Int.toNat_of_nonneg (by omega)⟩
  obtain ⟨Y, hY⟩ : ∃ Y : Nat, (Y : Int) = max 0 region.y :=
    ⟨(max 0 region.y).toNat, Int.toNat_of_nonneg (by omega)⟩
  obtain ⟨Wc, hWc⟩ : ∃ Wc : Nat,
      (Wc : Int) = min region.width ((image.width : Int) - max 0 region.x) :=
    ⟨(min region.width ((image.width : Int) - max 0 region.x)).toNat,
      Int.toNat_of_nonneg (by omega)⟩
  obtain ⟨Hc, hHc⟩ : ∃ Hc : Nat,
      (Hc : Int) = min region.height ((image.height : Int) - max 0 region.y) :=
    ⟨(min region.height ((image.height : Int) - max 0 region.y)).toNat,
      Int.toNat_of_nonneg (by omega)⟩
  rw [← hWc, ← hHc, ← hX, ← hY] at hres2
  have hXW : X + Wc ≤ image.width := by omega
  have hYH : Y + Hc ≤ image.height := by omega
  have hWpos : 1 ≤ Wc := by omega
  have hHpos : 1 ≤ Hc := by omega
  have hbpp1 : 1 ≤ bytesPerPixel image.format := by
    cases image.format <;> decide
  generalize hbpp : bytesPerPixel image.format = bpp at hstride hres2 hbpp1 ⊢
  have hWb : 1 ≤ Wc * bpp := Nat.mul_pos hWpos hbpp1
  -- no `u32` or `usize` reduction changes a value
  have hrowbytes : X * bpp + Wc * bpp ≤ image.stride := by
    have h1 : (X + Wc) * bpp ≤ image.width * bpp := Nat.mul_le_mul_right bpp hXW
    linarith
  have hWcU : i32ToU32 (Wc : Int) = Wc := i32ToU32_natCast (by omega)
  have hHcU : i32ToU32 (Hc : Int) = Hc := i32ToU32_natCast (by omega)
  have hXU : i32ToU32 (X : Int) = X := i32ToU32_natCast (by omega)
  have hrs : u32 (Wc * bpp) = Wc * bpp := u32_of_lt (by omega)
  have hHcN : (Hc : Int).toNat = Hc := Int.toNat_natCast Hc
  have hbytes : Wc * bpp * Hc ≤ image.stride * image.height :=
    Nat.mul_le_mul (by omega) (by omega)
  have hsz : usize (Wc * bpp * Hc) = Wc * bpp * Hc := usize_of_lt (by omega)
  have hsrcrow : ∀ row, row < Hc →
      (Y + row) * image.stride + image.stride ≤ image.stride * image.height := by
    intro row hrow
    have h1 : (Y + row + 1) * image.stride ≤ image.height * image.stride :=
      Nat.mul_le_mul_right _ (by omega)
    linarith
  have hbody : ∀ row, row < Hc → ∀ t : List Byte,
      memcpy t (u32 (i32ToU32 (row : Int) * (Wc * bpp))) image.data
          (u32 (i32ToU32 (toI32 ((Y : Int) + (row : Int))) * image.stride) +
            u32 (X * bpp)) (Wc * bpp) =
        memcpy t (row * (Wc * bpp)) image.data
          ((Y + row) * image.stride + X * bpp) (Wc * bpp) := by
    intro row hrow t
    have hsr := hsrcrow row hrow
    have e1 : i32ToU32 (row : Int) = row := i32ToU32_natCast (by omega)
    have hyr : Y + row ≤ 2147483647 := by omega
    have e2 : toI32 ((Y : Int) + (row : Int)) = ((Y + row : Nat) : Int) := by
      rw [← Int.ofNat_add]
      exact toI32_natCast hyr
    have e3 : i32ToU32 (((Y + row : Nat) : Int)) = Y + row := i32ToU32_natCast hyr
    have hdrow : (row + 1) * (Wc * bpp) ≤ Hc * (Wc * bpp) := Nat.mul_le_mul_right _ hrow
    have hdrow2 : row * (Wc * bpp) + Wc * bpp ≤ Wc * bpp * Hc := by
      rw [Nat.add_mul, Nat.one_mul, Nat.mul_comm Hc] at hdrow
      exact hdrow
    have e4 : u32 (row * (Wc * bpp)) = row * (Wc * bpp) := u32_of_lt (by omega)
    have e5 : u32 ((Y + row) * image.stride) = (Y + row) * image.stride :=
      u32_of_lt (by omega)
    have e6 : u32 (X * bpp) = X * bpp := u32_of_lt (by omega)
    rw [e1, e2, e3, e4, e5, e6]
  simp only [hWcU, hHcU, hXU, hrs, hHcN, hsz] at hres2
  rw [forLoop_congr Hc _ _ _ hbody] at hres2
  obtain ⟨hlenR, hgetR⟩ := rowLoop_spec image.data
    (fun row => (Y + row) * image.stride + X * bpp) (Wc * bpp) Hc
  refine ⟨X, Y, Wc, Hc, hX, hY, hWc, hHc, ?_, ?_, ?_, ?_, ?_, ?_⟩
  · rw [← hres2]
  · rw [← hres2]
  · rw [← hres2]
  · rw [← hres2]
  · rw [← hres2]
    exact hlenR
  · intro r k hr hk
    have hsr := hsrcrow r hr
    refine ⟨readByte image.data ((Y + r) * image.stride + X * bpp + k),
      getElem?_eq_some_readByte (by omega), ?_⟩
    rw [← hres2]
    exact hgetR r k hr hk

/-! ## Buffer lengths -/

/-- A loop whose body keeps the length of the buffer keeps the length of the buffer. -/
theorem forLoop_length (n : Nat) (body : Nat → List Byte → List Byte) (s : List Byte)
    (h : ∀ i t, (body i t).length = t.length) : (forLoop n body s).length = s.length :=
  forLoop_invariant (fun _ (t : List Byte) => t.length = s.length) n body s rfl
    (fun i _ t ht => (h i t).trans ht)

theorem memcpy_length (dst : List Byte) (dOff : Nat) (src : List Byte) (sOff n : Nat) :
    (memcpy dst dOff src sOff n).length = dst.length :=
  forLoop_length n _ dst (fun _ _ => List.length_set _ _ _)

theorem zeroBuffer_length (n : Nat) : (zeroBuffer n).length = n :=
  List.length_replicate n 0

theorem swapRedBlue_length (src : List Byte) (n : Nat) :
    (swapRedBlue src n).length = usize (n * 4) := by
  unfold swapRedBlue
  rw [forLoop_length _ _ _ (fun _ _ => by simp), zeroBuffer_length]

theorem bgraToRgb_length (src : List Byte) (n : Nat) :
    (bgraToRgb src n).length = usize (n * 3) := by
  unfold bgraToRgb
  rw [forLoop_length _ _ _ (fun _ _ => by simp), zeroBuffer_length]

theorem bgraToGray_length (src : List Byte) (n : Nat) : (bgraToGray src n).length = n := by
  unfold bgraToGray
  rw [forLoop_length _ _ _ (fun _ _ => by simp), zeroBuffer_length]

theorem rgbaToGray_length (src : List Byte) (n : Nat) : (rgbaToGray src n).length = n := by
  unfold rgbaToGray
  rw [forLoop_length _ _ _ (fun _ _ => by simp), zeroBuffer_length]

/-- Rows of `k` bytes per pixel cut from rows of `b >= k` bytes per pixel fit the types
that hold their stride and their total size. -/
theorem packed_rows {w h stride len k b : Nat} (hk : k ≤ b) (hs : stride < 4294967296)
    (hin : w * b ≤ stride) (hlen : len = stride * h) (hd : len < 18446744073709551616) :
    usize (w * h * k) = u32 (w * k) * h ∧ w * k ≤ u32 (w * k) := by
  have h1 : w * k ≤ w * b := Nat.mul_le_mul_left w hk
  have h2 : w * k * h ≤ stride * h := Nat.mul_le_mul_right h (by omega)
  have h3 : w * h * k = w * k * h := by ring
  rw [u32_of_lt (by omega), h3, usize_of_lt (by omega)]
  exact ⟨rfl, Nat.le_refl _⟩

/-- Every present result of `convertFormat` on an image with
data length = stride * height and stride >= width * bytesPerPixel has the same two
properties. -/
theorem convertFormat_buffer (image : CapturedImage) (hrep : image.Representable)
    (hlen : image.data.length = image.stride * image.height)
    (hstride : image.width * bytesPerPixel image.format ≤ image.stride)
    (target : CaptureFormat) (res : CapturedImage)
    (hres : convertFormat image target = some res) :
    res.data.length = res.stride * res.height ∧
      res.width * bytesPerPixel res.format ≤ res.stride := by
  obtain ⟨hw, hh, hs, _, hd⟩ := hrep
  have hcount : usize (image.width * image.height) = image.width * image.height :=
    usize_mul_u32 hw hh
  have hbytes : image.width * bytesPerPixel image.format * image.height ≤
      image.stride * image.height := Nat.mul_le_mul_right _ hstride
  unfold convertFormat at hres
  split_ifs at hres with h1 h2 h3 h4 h5 h6 h7 h8
  · rw [← Option.some.inj hres]
    exact ⟨hlen, hstride⟩
  · rw [← Option.some.inj hres, h3]
    rw [h2] at hstride
    simp only [swapRedBlue_length, hcount, bytesPerPixel]
    exact packed_rows (by decide) hs hstride hlen hd
  · rw [← Option.some.inj hres, h4]
    rw [h2] at hstride
    simp only [bgraToRgb_length, hcount, bytesPerPixel]
    exact packed_rows (by decide) hs hstride hlen hd
  · rw [← Option.some.inj hres, h5]
    simp [bgraToGray_length, hcount, bytesPerPixel]
  · rw [← Option.some.inj hres, h7]
    rw [h6] at hstride
    simp only [swapRedBlue_length, hcount, bytesPerPixel]
    exact packed_rows (by decide) hs hstride hlen hd
  · rw [← Option.some.inj hres, h8]
    simp [rgbaToGray_length, hcount, bytesPerPixel]

/-- Every present result of `scale` whose row of `newWidth * 4` bytes fits `u32` has
data length = stride * height and stride = width * 4. -/
theorem scale_buffer (sample : CapturedImage → Nat → Nat → Nat → Nat → Nat → Byte)
    (image : CapturedImage) (newWidth newHeight : Nat) (hnw : newWidth * 4 < 4294967296)
    (hnh : newHeight < 4294967296) (res : CapturedImage)
    (hres : scale sample image newWidth newHeight = some res) :
    res.data.length = res.stride * res.height ∧
      res.width * bytesPerPixel res.format ≤ res.stride := by
  unfold scale at hres
  split_ifs at hres with h1 h2
  rw [← Option.some.inj hres]
  have hbpp : bytesPerPixel image.format = 4 := by
    cases hf : image.format <;> simp_all [bytesPerPixel]
  have hprod : newWidth * 4 * newHeight ≤ 4294967295 * 4294967295 :=
    Nat.mul_le_mul (by omega) (by omega)
  have hring : newWidth * newHeight * 4 = newWidth * 4 * newHeight := by ring
  have hcount : usize (newWidth * newHeight) = newWidth * newHeight :=
    usize_of_lt (by omega)
  have hsize : usize (newWidth * newHeight * 4) = newWidth * 4 * newHeight := by
    rw [hring]
    exact usize_of_lt (by omega)
  have hlenR := forLoop_length newHeight
    (fun y dst => forLoop newWidth (fun x dst => forLoop 4 (fun c dst =>
      dst.set (u32 (u32 (u32 (y * newWidth + x) * 4) + c))
        (sample image newWidth newHeight x y c)) dst) dst)
    (zeroBuffer (usize (usize (newWidth * newHeight) * 4)))
    (fun y t => forLoop_length newWidth _ t
      (fun x t2 => forLoop_length 4 _ t2 (fun c t3 => List.length_set _ _ _)))
  simp only []
  rw [hlenR]
  simp [zeroBuffer_length, hcount, hsize, hbpp, u32_of_lt hnw]

/-- The extent that `crop` computes never exceeds the requested extent, and it does not
exceed the width of the image when that width is at most 2^31 - 1. -/
theorem cropClamp_bounds (image : CapturedImage) (region : Rect)
    (hreg : region.Representable) :
    (cropClamp image region).2.2.1 ≤ region.width ∧
      (cropClamp image region).2.2.2 ≤ region.height ∧
      (image.width ≤ 2147483647 → (cropClamp image region).2.2.1 ≤ image.width) := by
  obtain ⟨⟨hx1, hx2⟩, _, _, _⟩ := hreg
  simp only [cropClamp]
  refine ⟨min_le_left _ _, min_le_left _ _, fun hw => ?_⟩
  have hW : toI32 (image.width : Int) = image.width := toI32_of_range (by omega) (by omega)
  have hdx : toI32 ((image.width : Int) - max 0 region.x) = image.width - max 0 region.x :=
    toI32_of_range (by omega) (by omega)
  rw [hW, hdx]
  omega

/-- A row of at most `W` pixels cut from an image whose rows fit `u32` fits `u32`. -/
theorem crop_row_fits {W imgW bpp stride : Nat} (hb : bpp = 1 ∨ bpp = 3 ∨ bpp = 4)
    (hin : imgW * bpp ≤ stride) (hs : stride < 4294967296) (hW : W ≤ 2147483647)
    (hle : imgW ≤ 2147483647 → W ≤ imgW) : W * bpp < 4294967296 := by
  by_cases hwide : imgW ≤ 2147483647
  · have h1 : W * bpp ≤ imgW * bpp := Nat.mul_le_mul_right _ (hle hwide)
    exact lt_of_le_of_lt (le_trans h1 hin) hs
  · rcases hb with hb | hb | hb <;> subst hb <;> omega

/-- Every present result of `crop` on an image with stride >= width * bytesPerPixel has
data length = stride * height and stride = width * bytesPerPixel. -/
theorem crop_buffer (image : CapturedImage) (hrep : image.Representable)
    (hstride : image.width * bytesPerPixel image.format ≤ image.stride)
    (region : Rect) (hreg : region.Representable) (res : CapturedImage)
    (hres : crop image region = some res) :
    res.data.length = res.stride * res.height ∧
      res.width * bytesPerPixel res.format ≤ res.stride := by
  obtain ⟨hb1, hb2, hb3⟩ := cropClamp_bounds image region hreg
  obtain ⟨_, _, hs, _, _⟩ := hrep
  obtain ⟨_, _, ⟨_, hrw⟩, ⟨_, hrh⟩⟩ := hreg
  simp only [crop] at hres
  split_ifs at hres with hc
  rw [← Option.some.inj hres]
  clear hres
  have hbpp : bytesPerPixel image.format = 1 ∨ bytesPerPixel image.format = 3 ∨
      bytesPerPixel image.format = 4 := by
    cases image.format <;> simp [bytesPerPixel]
  have hfits : ∀ W : Nat, W ≤ 2147483647 → (image.width ≤ 2147483647 → W ≤ image.width) →
      W * bytesPerPixel image.format < 4294967296 :=
    fun W hW hle => crop_row_fits hbpp hstride hs hW hle
  clear hstride hbpp hs
  generalize bytesPerPixel image.format = bpp at hfits ⊢
  generalize (cropClamp image region).2.2.1 = w at hb1 hb3 hc ⊢
  generalize (cropClamp image region).2.2.2 = h at hb2 hc ⊢
  have hw0 : 0 ≤ w := by omega
  have hh0 : 0 ≤ h := by omega
  obtain ⟨W, hW⟩ : ∃ W : Nat, (W : Int) = w := ⟨w.toNat, Int.toNat_of_nonneg hw0⟩
  obtain ⟨H, hH⟩ : ∃ H : Nat, (H : Int) = h := ⟨h.toNat, Int.toNat_of_nonneg hh0⟩
  subst hW hH
  have hWle : W ≤ 2147483647 := by omega
  have hHle : H ≤ 2147483647 := by omega
  have hrowfit : W * bpp < 4294967296 :=
    hfits W hWle (fun hwide => by have := hb3 hwide; omega)
  have hrowle : W * bpp ≤ 4294967295 := by omega
  have hsize : W * bpp * H ≤ 4294967295 * 2147483647 := Nat.mul_le_mul hrowle hHle
  simp only [i32ToU32_natCast hWle, i32ToU32_natCast hHle, Int.toNat_natCast,
    u32_of_lt hrowfit]
  rw [forLoop_length _ _ _ (fun _ _ => memcpy_length _ _ _ _ _), zeroBuffer_length,
    usize_of_lt (by omega)]
  exact ⟨rfl, Nat.le_refl _⟩

/-- The fields of a present result of `scale`, whatever the interpolation computes. -/
theorem scale_fields (sample : CapturedImage → Nat → Nat → Nat → Nat → Nat → Byte)
    (image : CapturedImage) (newWidth newHeight : Nat) (res : CapturedImage)
    (hres : scale sample image newWidth newHeight = some res) :
    res.width = newWidth ∧ res.height = newHeight ∧ res.stride = u32 (newWidth * 4) ∧
      res.format = image.format ∧
      res.data.length = usize (usize (newWidth * newHeight) * 4) := by
  unfold scale at hres
  split_ifs at hres with h1 h2
  rw [← Option.some.inj hres]
  refine ⟨rfl, rfl, rfl, rfl, ?_⟩
  simp only []
  rw [forLoop_length newHeight _ _
    (fun y t => forLoop_length newWidth _ t
      (fun x t2 => forLoop_length 4 _ t2 (fun c t3 => List.length_set _ _ _))),
    zeroBuffer_length]

/-! ## Formats of captured frames -/

/-- A frame in the native format `BGRA8` converts to every format, and the result has the
requested format. -/
theorem convertFormat_of_bgra (image : CapturedImage) (target : CaptureFormat)
    (hf : image.format = CaptureFormat.BGRA8) :
    ∃ converted, convertFormat image target = some converted ∧ converted.format = target := by
  cases target <;> simp [convertFormat, hf]

/-- The tail of the capture paths hands out a native frame in the configured format. -/
theorem convertIfNeeded_format (result : CapturedImage) (m_format : CaptureFormat)
    (hf : result.format = CaptureFormat.BGRA8) :
    (convertIfNeeded result m_format).format = m_format := by
  obtain ⟨converted, hc, hfmt⟩ := convertFormat_of_bgra result m_format hf
  unfold convertIfNeeded
  split_ifs with h
  · rw [hc]
    exact hfmt
  · rw [hf]
    exact (not_not.mp h).symm

/-- A present `crop` has the format of its source. -/
theorem crop_format (image : CapturedImage) (region : Rect) (res : CapturedImage)
    (hres : crop image region = some res) : res.format = image.format := by
  simp only [crop] at hres
  split_ifs at hres with hc
  rw [← Option.some.inj hres]

/-- Every frame `DXGICapture::readFrame` hands out has the configured format. -/
theorem DXGICapture.readFrame_format (s : DXGICapture) (hr : AcquireResult)
    (o : FrameOutcome) (calls : List PlatformCall) (image : CapturedImage)
    (h : (DXGICapture.readFrame s hr o calls).ret = some image) :
    image.format = s.m_format := by
  unfold DXGICapture.readFrame at h
  split_ifs at h with h1 h2
  all_goals first
    | exact Option.noConfusion h
    | (split at h
       · exact Option.noConfusion h
       · rw [← Option.some.inj h]
         exact convertIfNeeded_format _ _ rfl)

/-- The function `initializeDuplication` changes at most the duplication handle, the staging
texture and the output size. -/
theorem DXGICapture.initializeDuplication_keeps (s : DXGICapture) (o : DuplicationOutcome) :
    (DXGICapture.initializeDuplication s o).state.m_format = s.m_format ∧
      (DXGICapture.initializeDuplication s o).state.m_initialized = s.m_initialized ∧
      (DXGICapture.initializeDuplication s o).state.m_monitorIndex = s.m_monitorIndex ∧
      (DXGICapture.initializeDuplication s o).state.m_device = s.m_device ∧
      (DXGICapture.initializeDuplication s o).state.m_context = s.m_context := by
  obtain ⟨q, a, e, q1, dup, width, height, tex⟩ := o
  cases q <;> cases a <;> cases e <;> cases q1 <;> cases dup <;> cases tex <;>
    exact ⟨rfl, rfl, rfl, rfl, rfl⟩

/-- Every frame `acquireFrame` hands out has the configured format. -/
theorem DXGICapture.acquireFrame_format (s : DXGICapture) (o : FrameOutcome)
    (image : CapturedImage) (h : (DXGICapture.acquireFrame s o).ret = some image) :
    image.format = s.m_format := by
  unfold DXGICapture.acquireFrame at h
  split at h
  · exact Option.noConfusion h
  · dsimp only at h
    split_ifs at h with h1 h2 h3
    all_goals first
      | exact Option.noConfusion h
      | exact DXGICapture.readFrame_format _ _ _ _ _ h
      | (have hfmt := DXGICapture.readFrame_format _ _ _ _ _ h
         rw [hfmt, (DXGICapture.initializeDuplication_keeps _ _).1]
         rfl)

/-- Every frame `BitBltCapture::captureRegion` hands out has the configured format. -/
theorem BitBltCapture.blit_captureRegion_format (s : BitBltCapture) (region : Rect)
    (o : BlitOutcome) (image : CapturedImage)
    (h : (BitBltCapture.captureRegion s region o).ret = some image) :
    image.format = s.m_format := by
  unfold BitBltCapture.captureRegion at h
  dsimp only at h
  split_ifs at h with h1 h2 h3 h4
  all_goals first
    | exact Option.noConfusion h
    | (rw [← Option.some.inj h]
       exact convertIfNeeded_format _ _ rfl)

theorem BitBltCapture.blit_captureScreen_format (s : BitBltCapture) (screen : Rect)
    (o : BlitOutcome) (image : CapturedImage)
    (h : (BitBltCapture.captureScreen s screen o).ret = some image) :
    image.format = s.m_format := by
  unfold BitBltCapture.captureScreen at h
  by_cases hi : (!s.m_initialized) = true
  · rw [if_pos hi] at h
    exact Option.noConfusion h
  · rw [if_neg hi] at h
    exact BitBltCapture.blit_captureRegion_format _ _ _ _ h

theorem BitBltCapture.blit_captureWindow_format (s : BitBltCapture) (w : WindowOutcome)
    (o : BlitOutcome) (image : CapturedImage)
    (h : (BitBltCapture.captureWindow s w o).ret = some image) :
    image.format = s.m_format := by
  unfold BitBltCapture.captureWindow at h
  by_cases h1 : (!s.m_initialized) = true ∨ w.handleIsNull = true
  · rw [if_pos h1] at h
    exact Option.noConfusion h
  · rw [if_neg h1] at h
    by_cases h2 : (!w.isWindow) = true
    · rw [if_pos h2] at h
      exact Option.noConfusion h
    · rw [if_neg h2] at h
      cases hrect : w.windowRect with
      | none =>
        rw [hrect] at h
        exact Option.noConfusion h
      | some region =>
        rw [hrect] at h
        exact BitBltCapture.blit_captureRegion_format _ _ _ _ h

theorem DXGICapture.captureRegion_format (s : DXGICapture) (region : Rect)
    (o : FrameOutcome) (image : CapturedImage)
    (h : (DXGICapture.captureRegion s region o).ret = some image) :
    image.format = s.m_format := by
  unfold DXGICapture.captureRegion DXGICapture.captureScreen at h
  cases hfull : (DXGICapture.acquireFrame s o).ret with
  | none =>
    dsimp only at h
    rw [hfull] at h
    exact Option.noConfusion h
  | some fullCapture =>
    dsimp only at h
    rw [hfull] at h
    dsimp only at h
    rw [crop_format fullCapture region image h]
    exact DXGICapture.acquireFrame_format _ _ _ hfull

theorem DXGICapture.captureWindow_format (s : DXGICapture) (w : WindowOutcome)
    (o : FrameOutcome) (image : CapturedImage)
    (h : (DXGICapture.captureWindow s w o).ret = some image) :
    image.format = s.m_format := by
  unfold DXGICapture.captureWindow DXGICapture.captureScreen at h
  cases hfull : (DXGICapture.acquireFrame s o).ret with
  | none =>
    dsimp only at h
    rw [hfull] at h
    exact Option.noConfusion h
  | some fullCapture =>
    have hfmt := DXGICapture.acquireFrame_format _ _ _ hfull
    dsimp only at h
    rw [hfull] at h
    dsimp only at h
    by_cases h2 : (!w.isWindow) = true
    · rw [if_pos h2] at h
      rw [← Option.some.inj h]
      exact hfmt
    · rw [if_neg h2] at h
      cases hrect : w.windowRect with
      | none =>
        rw [hrect] at h
        rw [← Option.some.inj h]
        exact hfmt
      | some region =>
        rw [hrect] at h
        dsimp only at h
        rw [crop_format fullCapture region image h]
        exact hfmt

/-! ## Session state of DXGICapture -/

/-- A failed `initializeDuplication` that starts without session and staging texture ends
without session and staging texture. -/
theorem DXGICapture.initializeDuplication_failed (s : DXGICapture) (o : DuplicationOutcome)
    (hdup : s.m_duplication = none) (htex : s.m_stagingTexture = none)
    (hret : (DXGICapture.initializeDuplication s o).ret = false) :
    (DXGICapture.initializeDuplication s o).state.m_duplication = none ∧
      (DXGICapture.initializeDuplication s o).state.m_stagingTexture = none := by
  obtain ⟨q, a, e, q1, dup, width, height, tex⟩ := o
  cases q <;> cases a <;> cases e <;> cases q1 <;> cases dup <;> cases tex <;>
    first
      | exact ⟨hdup, htex⟩
      | exact ⟨rfl, htex⟩
      | exact Bool.noConfusion hret

/-- The run of `acquireFrame` on a live session when the acquisition reports access lost
and the recreation of the session fails. -/
theorem DXGICapture.acquireFrame_lost_failed (s : DXGICapture) (o : FrameOutcome)
    (dup : Handle) (hdup : s.m_duplication = some dup)
    (hfirst : o.first = AcquireResult.accessLost)
    (hfail : (DXGICapture.initializeDuplication (DXGICapture.releaseDuplication s).state
      o.recreate).ret = false) :
    DXGICapture.acquireFrame s o =
      ⟨none,
        (DXGICapture.initializeDuplication (DXGICapture.releaseDuplication s).state
          o.recreate).state,
        [PlatformCall.AcquireNextFrame o.first] ++ (DXGICapture.releaseDuplication s).calls ++
          (DXGICapture.initializeDuplication (DXGICapture.releaseDuplication s).state
            o.recreate).calls⟩ := by
  unfold DXGICapture.acquireFrame
  rw [hdup]
  dsimp only
  rw [if_neg (by rw [hfirst]; decide), if_pos hfirst, if_pos (by rw [hfail]; rfl)]

/-! ## Call logs of acquireFrame -/

theorem getLast?_append_some {α : Type} (a b : List α) (x : α)
    (h : b.getLast? = some x) : (a ++ b).getLast? = some x := by
  rw [List.getLast?_append, h]
  rfl

theorem acquireResults_nil : acquireResults [] = [] := rfl

theorem acquireResults_acquire (hr : AcquireResult) (l : List PlatformCall) :
    acquireResults (PlatformCall.AcquireNextFrame hr :: l) = hr :: acquireResults l := by
  simp [acquireResults]

theorem acquireResults_append (a b : List PlatformCall) :
    acquireResults (a ++ b) = acquireResults a ++ acquireResults b := by
  simp [acquireResults, List.filterMap_append]

/-- The teardown of the session makes no frame call and no creation call, and releases at
most one staging texture and one session. -/
theorem DXGICapture.releaseDuplication_calls (s : DXGICapture) :
    acquireResults (DXGICapture.releaseDuplication s).calls = [] ∧
      (DXGICapture.releaseDuplication s).calls.count PlatformCall.ReleaseFrame = 0 ∧
      (DXGICapture.releaseDuplication s).calls.count PlatformCall.DuplicateOutput = 0 ∧
      (DXGICapture.releaseDuplication s).calls.countP
        PlatformCall.isReleaseStagingTexture ≤ 1 ∧
      (DXGICapture.releaseDuplication s).calls.countP PlatformCall.isReleaseDuplication ≤ 1 := by
  unfold DXGICapture.releaseDuplication
  cases s.m_stagingTexture <;> cases s.m_duplication <;>
    simp [acquireResults, PlatformCall.isReleaseStagingTexture,
      PlatformCall.isReleaseDuplication]

/-- The creation of the session makes no frame call, calls `DuplicateOutput` at most once,
and releases a session only when it has created one. -/
theorem DXGICapture.initializeDuplication_calls (s : DXGICapture) (o : DuplicationOutcome) :
    acquireResults (DXGICapture.initializeDuplication s o).calls = [] ∧
      (DXGICapture.initializeDuplication s o).calls.count PlatformCall.ReleaseFrame = 0 ∧
      (DXGICapture.initializeDuplication s o).calls.count PlatformCall.DuplicateOutput ≤ 1 ∧
      (DXGICapture.initializeDuplication s o).calls.countP
        PlatformCall.isReleaseStagingTexture = 0 ∧
      (DXGICapture.initializeDuplication s o).calls.countP PlatformCall.isReleaseDuplication ≤
        (DXGICapture.initializeDuplication s o).calls.count PlatformCall.DuplicateOutput := by
  obtain ⟨q, a, e, q1, dup, width, height, tex⟩ := o
  cases q <;> cases a <;> cases e <;> cases q1 <;> cases dup <;> cases tex <;>
    simp [DXGICapture.initializeDuplication, acquireResults,
      PlatformCall.isReleaseStagingTexture, PlatformCall.isReleaseDuplication]

/-- The part of `acquireFrame` after the acquisition keeps the state, appends its calls to
the log, makes no acquisition, creation or release of a session, and calls `ReleaseFrame`
once, as its last call, exactly when it was entered with an acquired frame. -/
theorem DXGICapture.readFrame_calls (s : DXGICapture) (hr : AcquireResult)
    (o : FrameOutcome) (calls : List PlatformCall) :
    ∃ tail, (DXGICapture.readFrame s hr o calls).calls = calls ++ tail ∧
      (DXGICapture.readFrame s hr o calls).state = s ∧
      acquireResults tail = [] ∧
      tail.count PlatformCall.ReleaseFrame = (if hr = AcquireResult.ok then 1 else 0) ∧
      tail.count PlatformCall.DuplicateOutput = 0 ∧
      tail.countP PlatformCall.isReleaseStagingTexture = 0 ∧
      tail.countP PlatformCall.isReleaseDuplication = 0 ∧
      (hr ≠ AcquireResult.ok → tail = [] ∧ (DXGICapture.readFrame s hr o calls).ret = none) ∧
      (hr = AcquireResult.ok → tail.getLast? = some PlatformCall.ReleaseFrame) := by
  obtain ⟨first, recreate, second, texture, mapped⟩ := o
  by_cases hok : hr = AcquireResult.ok
  · subst hok
    cases texture
    · exact ⟨[PlatformCall.QueryTexture, PlatformCall.ReleaseResource,
        PlatformCall.ReleaseFrame], by
          simp [DXGICapture.readFrame, acquireResults, PlatformCall.isReleaseStagingTexture,
            PlatformCall.isReleaseDuplication]⟩
    · cases mapped with
      | none =>
        exact ⟨[PlatformCall.QueryTexture, PlatformCall.ReleaseResource,
          PlatformCall.CopyResource, PlatformCall.ReleaseTexture, PlatformCall.Map,
          PlatformCall.ReleaseFrame], by
            simp [DXGICapture.readFrame, acquireResults,
              PlatformCall.isReleaseStagingTexture, PlatformCall.isReleaseDuplication]⟩
      | some m =>
        exact ⟨[PlatformCall.QueryTexture, PlatformCall.ReleaseResource,
          PlatformCall.CopyResource, PlatformCall.ReleaseTexture, PlatformCall.Map,
          PlatformCall.Unmap, PlatformCall.ReleaseFrame], by
            simp [DXGICapture.readFrame, acquireResults,
              PlatformCall.isReleaseStagingTexture, PlatformCall.isReleaseDuplication]⟩
  · exact ⟨[], by
      simp [DXGICapture.readFrame, hok, acquireResults]⟩

/-- The run of `acquireFrame` on an instance without session. -/
theorem DXGICapture.acquireFrame_no_session (s : DXGICapture) (o : FrameOutcome)
    (hdup : s.m_duplication = none) : DXGICapture.acquireFrame s o = ⟨none, s, []⟩ := by
  unfold DXGICapture.acquireFrame
  rw [hdup]

/-- The run of `acquireFrame` on a live session when the wait times out. -/
theorem DXGICapture.acquireFrame_timeout (s : DXGICapture) (o : FrameOutcome) (dup : Handle)
    (hdup : s.m_duplication = some dup) (hfirst : o.first = AcquireResult.waitTimeout) :
    DXGICapture.acquireFrame s o =
      ⟨none, s, [PlatformCall.AcquireNextFrame AcquireResult.waitTimeout]⟩ := by
  unfold DXGICapture.acquireFrame
  rw [hdup]
  dsimp only
  rw [if_pos hfirst, hfirst]

/-- The run of `acquireFrame` on a live session when the acquisition reports access lost
and the recreation of the session succeeds. -/
theorem DXGICapture.acquireFrame_lost_recreated (s : DXGICapture) (o : FrameOutcome)
    (dup : Handle) (hdup : s.m_duplication = some dup)
    (hfirst : o.first = AcquireResult.accessLost)
    (hok : (DXGICapture.initializeDuplication (DXGICapture.releaseDuplication s).state
      o.recreate).ret = true) :
    DXGICapture.acquireFrame s o =
      DXGICapture.readFrame
        (DXGICapture.initializeDuplication (DXGICapture.releaseDuplication s).state
          o.recreate).state o.second o
        ([PlatformCall.AcquireNextFrame o.first] ++ (DXGICapture.releaseDuplication s).calls ++
          (DXGICapture.initializeDuplication (DXGICapture.releaseDuplication s).state
            o.recreate).calls ++ [PlatformCall.AcquireNextFrame o.second]) := by
  unfold DXGICapture.acquireFrame
  rw [hdup]
  dsimp only
  rw [if_neg (by rw [hfirst]; decide), if_pos hfirst, if_neg (by rw [hok]; decide)]

/-- The run of `acquireFrame` on a live session when the first acquisition reports neither
a timeout nor access lost. -/
theorem DXGICapture.acquireFrame_direct (s : DXGICapture) (o : FrameOutcome) (dup : Handle)
    (hdup : s.m_duplication = some dup) (h1 : o.first ≠ AcquireResult.waitTimeout)
    (h2 : o.first ≠ AcquireResult.accessLost) :
    DXGICapture.acquireFrame s o =
      DXGICapture.readFrame s o.first o [PlatformCall.AcquireNextFrame o.first] := by
  unfold DXGICapture.acquireFrame
  rw [hdup]
  dsimp only
  rw [if_neg h1, if_neg h2]

/-! ## Life cycle of the backends -/

/-- A failed `initialize` of a `DXGICapture` that holds no handle changes nothing but,
possibly, the recorded output size. -/
theorem DXGICapture.initialize_failed (d : DXGICapture) (o : DeviceOutcome)
    (hinit : d.m_initialized = false) (hdev : d.m_device = none) (hctx : d.m_context = none)
    (hdup : d.m_duplication = none) (htex : d.m_stagingTexture = none)
    (hret : ( DXGICapture.initialize d o).ret = false) :
    ∃ width height, ( DXGICapture.initialize d o).state =
      { d with m_outputWidth := width, m_outputHeight := height } := by
  obtain ⟨init, fmt, mon, dev, ctx, dup, tex, w, h⟩ := d
  simp only at hinit hdev hctx hdup htex
  subst hinit hdev hctx hdup htex
  obtain ⟨device, ⟨q, a, e, q1, dup2, width, height, tex2⟩⟩ := o
  cases device with
  | none => exact ⟨w, h, rfl⟩
  | some pair =>
    obtain ⟨dv, cx⟩ := pair
    cases q <;> cases a <;> cases e <;> cases q1 <;> cases dup2 <;> cases tex2 <;>
      first
        | exact ⟨w, h, rfl⟩
        | exact ⟨width, height, rfl⟩
        | exact Bool.noConfusion hret

/-- The run of `initialize` does not depend on the output size recorded before it: the
return value and the calls are the same, and so is the state after a success. -/
theorem DXGICapture.initialize_ignores_size (d : DXGICapture) (width height : Nat)
    (o : DeviceOutcome) :
    ( DXGICapture.initialize { d with m_outputWidth := width, m_outputHeight := height } o).ret =
        ( DXGICapture.initialize d o).ret ∧
      ( DXGICapture.initialize { d with m_outputWidth := width, m_outputHeight := height }
        o).calls = ( DXGICapture.initialize d o).calls ∧
      (( DXGICapture.initialize d o).ret = true → d.m_initialized = false →
        ( DXGICapture.initialize { d with m_outputWidth := width, m_outputHeight := height }
          o).state = ( DXGICapture.initialize d o).state) := by
  obtain ⟨init, fmt, mon, dev, ctx, dup, tex, w, h⟩ := d
  obtain ⟨device, ⟨q, a, e, q1, dup2, width2, height2, tex2⟩⟩ := o
  cases init
  · cases device with
    | none => exact ⟨rfl, rfl, fun hr _ => Bool.noConfusion hr⟩
    | some pair =>
      obtain ⟨dv, cx⟩ := pair
      cases q <;> cases a <;> cases e <;> cases q1 <;> cases dup2 <;> cases tex2 <;>
        first
          | exact ⟨rfl, rfl, fun hr _ => Bool.noConfusion hr⟩
          | exact ⟨rfl, rfl, fun _ _ => rfl⟩
  · exact ⟨rfl, rfl, fun _ hi => Bool.noConfusion hi⟩

/-! ## Dependence of the conversion loops on the source bytes -/

theorem usize_le (n : Nat) : usize n ≤ n := Nat.mod_le _ _

theorem u32_le (n : Nat) : u32 n ≤ n := Nat.mod_le _ _

/-- The swap loop reads only the first `pixelCount * 4` bytes of its source. -/
theorem swapRedBlue_congr (a b : List Byte) (n : Nat)
    (h : ∀ j, j < n * 4 → readByte a j = readByte b j) :
    swapRedBlue a n = swapRedBlue b n := by
  unfold swapRedBlue
  apply forLoop_congr
  intro i hi t
  have b0 : usize (i * 4 + 0) < n * 4 := lt_of_le_of_lt (usize_le _) (by omega)
  have b1 : usize (i * 4 + 1) < n * 4 := lt_of_le_of_lt (usize_le _) (by omega)
  have b2 : usize (i * 4 + 2) < n * 4 := lt_of_le_of_lt (usize_le _) (by omega)
  have b3 : usize (i * 4 + 3) < n * 4 := lt_of_le_of_lt (usize_le _) (by omega)
  dsimp only
  rw [h _ b0, h _ b1, h _ b2, h _ b3]

/-- The `RGB8` loop reads only the first `pixelCount * 4` bytes of its source. -/
theorem bgraToRgb_congr (a b : List Byte) (n : Nat)
    (h : ∀ j, j < n * 4 → readByte a j = readByte b j) :
    bgraToRgb a n = bgraToRgb b n := by
  unfold bgraToRgb
  apply forLoop_congr
  intro i hi t
  have b0 : usize (i * 4 + 0) < n * 4 := lt_of_le_of_lt (usize_le _) (by omega)
  have b1 : usize (i * 4 + 1) < n * 4 := lt_of_le_of_lt (usize_le _) (by omega)
  have b2 : usize (i * 4 + 2) < n * 4 := lt_of_le_of_lt (usize_le _) (by omega)
  dsimp only
  rw [h _ b0, h _ b1, h _ b2]

/-- The grayscale loop of the `BGRA8` branch reads only the first `pixelCount * 4` bytes of
its source. -/
theorem bgraToGray_congr (a b : List Byte) (n : Nat)
    (h : ∀ j, j < n * 4 → readByte a j = readByte b j) :
    bgraToGray a n = bgraToGray b n := by
  unfold bgraToGray
  apply forLoop_congr
  intro i hi t
  have b0 : usize (i * 4 + 0) < n * 4 := lt_of_le_of_lt (usize_le _) (by omega)
  have b1 : usize (i * 4 + 1) < n * 4 := lt_of_le_of_lt (usize_le _) (by omega)
  have b2 : usize (i * 4 + 2) < n * 4 := lt_of_le_of_lt (usize_le _) (by omega)
  dsimp only
  rw [h _ b0, h _ b1, h _ b2]

/-- The grayscale loop of the `RGBA8` branch reads only the first `pixelCount * 4` bytes of
its source. -/
theorem rgbaToGray_congr (a b : List Byte) (n : Nat)
    (h : ∀ j, j < n * 4 → readByte a j = readByte b j) :
    rgbaToGray a n = rgbaToGray b n := by
  unfold rgbaToGray
  apply forLoop_congr
  intro i hi t
  have b0 : usize (i * 4 + 0) < n * 4 := lt_of_le_of_lt (usize_le _) (by omega)
  have b1 : usize (i * 4 + 1) < n * 4 := lt_of_le_of_lt (usize_le _) (by omega)
  have b2 : usize (i * 4 + 2) < n * 4 := lt_of_le_of_lt (usize_le _) (by omega)
  dsimp only
  rw [h _ b0, h _ b1, h _ b2]

/-- The grayscale loop of the `BGRA8` branch stores at index `i` the luma of source
pixel `i`, whose red, green and blue are the bytes 2, 1 and 0. -/
theorem bgraToGray_spec (src : List Byte) (n : Nat) (hn : n * 4 < 18446744073709551616) :
    (bgraToGray src n).length = n ∧
      ∀ i, i < n → (bgraToGray src n)[i]? =
        some (luma (readByte src (i * 4 + 2)) (readByte src (i * 4 + 1))
          (readByte src (i * 4))) := by
  obtain ⟨hl, hg⟩ := storeLoop_spec (fun i =>
    luma (readByte src (usize (i * 4 + 2))) (readByte src (usize (i * 4 + 1)))
      (readByte src (usize (i * 4 + 0)))) n
  refine ⟨hl, fun i hi => ?_⟩
  have e0 : usize (i * 4 + 0) = i * 4 := usize_of_lt (by omega)
  have e1 : usize (i * 4 + 1) = i * 4 + 1 := usize_of_lt (by omega)
  have e2 : usize (i * 4 + 2) = i * 4 + 2 := usize_of_lt (by omega)
  have h := hg i hi
  simp only [e0, e1, e2] at h
  exact h

/-- The grayscale loop of the `RGBA8` branch stores at index `i` the luma of source
pixel `i`, whose red, green and blue are the bytes 0, 1 and 2. -/
theorem rgbaToGray_spec (src : List Byte) (n : Nat) (hn : n * 4 < 18446744073709551616) :
    (rgbaToGray src n).length = n ∧
      ∀ i, i < n → (rgbaToGray src n)[i]? =
        some (luma (readByte src (i * 4)) (readByte src (i * 4 + 1))
          (readByte src (i * 4 + 2))) := by
  obtain ⟨hl, hg⟩ := storeLoop_spec (fun i =>
    luma (readByte src (usize (i * 4 + 0))) (readByte src (usize (i * 4 + 1)))
      (readByte src (usize (i * 4 + 2)))) n
  refine ⟨hl, fun i hi => ?_⟩
  have e0 : usize (i * 4 + 0) = i * 4 := usize_of_lt (by omega)
  have e1 : usize (i * 4 + 1) = i * 4 + 1 := usize_of_lt (by omega)
  have e2 : usize (i * 4 + 2) = i * 4 + 2 := usize_of_lt (by omega)
  have h := hg i hi
  simp only [e0, e1, e2] at h
  exact h

/-- The grayscale loops see through the channel swap: the `RGBA8` loop on swapped bytes is the
`BGRA8` loop on the original bytes, and the other way round. -/
theorem gray_of_swapRedBlue (src : List Byte) (n : Nat) (hn : n * 4 < 18446744073709551616) :
    rgbaToGray (swapRedBlue src n) n = bgraToGray src n ∧
      bgraToGray (swapRedBlue src n) n = rgbaToGray src n := by
  obtain ⟨_, hget⟩ := swapRedBlue_spec src n hn
  constructor
  · unfold rgbaToGray bgraToGray
    apply forLoop_congr
    intro i hi t
    obtain ⟨a0, a1, a2, _⟩ := hget i hi
    have e0 : usize (i * 4 + 0) = i * 4 := usize_of_lt (by omega)
    have e1 : usize (i * 4 + 1) = i * 4 + 1 := usize_of_lt (by omega)
    have e2 : usize (i * 4 + 2) = i * 4 + 2 := usize_of_lt (by omega)
    dsimp only
    rw [e0, e1, e2, readByte_of_getElem? a0, readByte_of_getElem? a1, readByte_of_getElem? a2]
  · unfold rgbaToGray bgraToGray
    apply forLoop_congr
    intro i hi t
    obtain ⟨a0, a1, a2, _⟩ := hget i hi
    have e0 : usize (i * 4 + 0) = i * 4 := usize_of_lt (by omega)
    have e1 : usize (i * 4 + 1) = i * 4 + 1 := usize_of_lt (by omega)
    have e2 : usize (i * 4 + 2) = i * 4 + 2 := usize_of_lt (by omega)
    dsimp only
    rw [e0, e1, e2, readByte_of_getElem? a0, readByte_of_getElem? a1, readByte_of_getElem? a2]

/-- The `RGB8` loop, on a pixel count whose byte count fits `usize`, yields a buffer of
`pixelCount * 3` bytes in which pixel `i` holds bytes 2, 1, 0 of source pixel `i`. -/
theorem bgraToRgb_spec (src : List Byte) (n : Nat) (hn : n * 4 < 18446744073709551616) :
    (bgraToRgb src n).length = n * 3 ∧
      ∀ i, i < n →
        (bgraToRgb src n)[i * 3]? = some (readByte src (i * 4 + 2)) ∧
        (bgraToRgb src n)[i * 3 + 1]? = some (readByte src (i * 4 + 1)) ∧
        (bgraToRgb src n)[i * 3 + 2]? = some (readByte src (i * 4)) := by
  have key := forLoop_invariant
    (fun m (t : List Byte) => t.length = n * 3 ∧ ∀ i, i < m →
        t[i * 3]? = some (readByte src (i * 4 + 2)) ∧
        t[i * 3 + 1]? = some (readByte src (i * 4 + 1)) ∧
        t[i * 3 + 2]? = some (readByte src (i * 4))) n
    (fun i dst =>
      let dst := dst.set (usize (i * 3 + 0)) (readByte src (usize (i * 4 + 2)))
      let dst := dst.set (usize (i * 3 + 1)) (readByte src (usize (i * 4 + 1)))
      dst.set (usize (i * 3 + 2)) (readByte src (usize (i * 4 + 0))))
    (zeroBuffer (usize (n * 3)))
    (by
      have e : usize (n * 3) = n * 3 := usize_of_lt (by omega)
      simp [zeroBuffer, e])
    (by
      intro m hm t ht
      obtain ⟨hlen, hget⟩ := ht
      have d0 : usize (m * 3 + 0) = m * 3 := usize_of_lt (by omega)
      have d1 : usize (m * 3 + 1) = m * 3 + 1 := usize_of_lt (by omega)
      have d2 : usize (m * 3 + 2) = m * 3 + 2 := usize_of_lt (by omega)
      have e0 : usize (m * 4 + 0) = m * 4 := usize_of_lt (by omega)
      have e1 : usize (m * 4 + 1) = m * 4 + 1 := usize_of_lt (by omega)
      have e2 : usize (m * 4 + 2) = m * 4 + 2 := usize_of_lt (by omega)
      simp only [d0, d1, d2, e0, e1, e2]
      refine ⟨by simp [hlen], ?_⟩
      intro i hi
      by_cases hmi : i = m
      · subst hmi
        refine ⟨?_, ?_, ?_⟩
        · rw [List.getElem?_set_ne (by omega), List.getElem?_set_ne (by omega),
            List.getElem?_set_self (by omega)]
        · rw [List.getElem?_set_ne (by omega), List.getElem?_set_self (by simp; omega)]
        · rw [List.getElem?_set_self (by simp; omega)]
      · have h := hget i (by omega)
        refine ⟨?_, ?_, ?_⟩
        · rw [List.getElem?_set_ne (by omega), List.getElem?_set_ne (by omega),
            List.getElem?_set_ne (by omega)]
          exact h.1
        · rw [List.getElem?_set_ne (by omega), List.getElem?_set_ne (by omega),
            List.getElem?_set_ne (by omega)]
          exact h.2.1
        · rw [List.getElem?_set_ne (by omega), List.getElem?_set_ne (by omega),
            List.getElem?_set_ne (by omega)]
          exact h.2.2)
  exact key

/-! ## The copies of crop -/

/-- A present result of `crop` in terms of the row pointers `cropSrcRow` and `cropDstRow`:
the clamped size is positive, the fields are those of source lines 282-286, and the buffer is
filled by one `memcpy` of `stride` bytes per row. -/
theorem crop_some_rows (image : CapturedImage) (region : Rect) (res : CapturedImage)
    (hres : crop image region = some res) :
    0 < (cropClamp image region).2.2.1 ∧ 0 < (cropClamp image region).2.2.2 ∧
      res.width = i32ToU32 (cropClamp image region).2.2.1 ∧
      res.height = i32ToU32 (cropClamp image region).2.2.2 ∧
      res.stride =
        u32 (i32ToU32 (cropClamp image region).2.2.1 * bytesPerPixel image.format) ∧
      res.format = image.format ∧ res.timestamp = image.timestamp ∧
      res.data =
        forLoop (cropClamp image region).2.2.2.toNat (fun row dst =>
          memcpy dst (cropDstRow image region row) image.data (cropSrcRow image region row)
            res.stride)
          (zeroBuffer (usize (res.stride * (cropClamp image region).2.2.2.toNat))) := by
  simp only [crop] at hres
  split_ifs at hres with hc
  have hpos : 0 < (cropClamp image region).2.2.1 ∧ 0 < (cropClamp image region).2.2.2 := by
    omega
  have heq := Option.some.inj hres
  obtain ⟨d, w, h, st, f, ts⟩ := res
  rw [CapturedImage.mk.injEq] at heq
  obtain ⟨h1, h2, h3, h4, h5, h6⟩ := heq
  refine ⟨hpos.1, hpos.2, h2.symm, h3.symm, h4.symm, h5.symm, h6.symm, ?_⟩
  show d = _
  rw [← h1, ← h4]
  simp only [cropSrcRow, cropDstRow]

/-- The clamped rectangle of `crop` lies inside the image whenever its size is positive:
the reductions to `i32` in `cropClamp` never enlarge it. -/
theorem cropClamp_inside (image : CapturedImage) (region : Rect)
    (hreg : region.Representable) :
    0 ≤ (cropClamp image region).1 ∧ (cropClamp image region).1 ≤ 2147483647 ∧
      0 ≤ (cropClamp image region).2.1 ∧ (cropClamp image region).2.1 ≤ 2147483647 ∧
      (cropClamp image region).2.2.1 ≤ 2147483647 ∧
      (cropClamp image region).2.2.2 ≤ 2147483647 ∧
      (0 < (cropClamp image region).2.2.1 →
        (cropClamp image region).1 + (cropClamp image region).2.2.1 ≤ image.width) ∧
      (0 < (cropClamp image region).2.2.2 →
        (cropClamp image region).2.1 + (cropClamp image region).2.2.2 ≤ image.height) := by
  obtain ⟨⟨hx1, hx2⟩, ⟨hy1, hy2⟩, ⟨hw1, hw2⟩, ⟨hh1, hh2⟩⟩ := hreg
  simp only [cropClamp, toI32]
  refine ⟨?_, ?_, ?_, ?_, ?_, ?_, ?_, ?_⟩ <;> omega

/-- The `u32` value of an `i32` that holds the sum of two non-negative numbers is at most the
sum. -/
theorem i32ToU32_toI32_le (n : Nat) : i32ToU32 (toI32 (n : Int)) ≤ n := by
  unfold i32ToU32 toI32
  omega

/-- Byte `k` of row `row` of a rectangle that lies inside an image lies inside the buffer of
the image. -/
theorem row_byte_inside {X Y Wc Hc W H bpp stride row k : Nat} (hxw : X + Wc ≤ W)
    (hyh : Y + Hc ≤ H) (hs : W * bpp ≤ stride) (hrow : row < Hc) (hk : k < Wc * bpp) :
    (Y + row) * stride + X * bpp + k < stride * H := by
  have h1 : (X + Wc) * bpp ≤ W * bpp := Nat.mul_le_mul_right _ hxw
  have h2 : (Y + row + 1) * stride ≤ H * stride := Nat.mul_le_mul_right _ (by omega)
  have h3 : (X + Wc) * bpp = X * bpp + Wc * bpp := by ring
  have h4 : (Y + row + 1) * stride = (Y + row) * stride + stride := by ring
  rw [Nat.mul_comm stride H]
  omega

/-! ## Sample positions of scale -/

/-- The `u32` difference `extent - 1` of a non-zero `u32` extent. -/
theorem u32_pred {extent : Nat} (h1 : 1 ≤ extent) (h2 : extent < 4294967296) :
    u32 (extent + 4294967295) = extent - 1 := by
  unfold u32
  omega

/-- The upper neighbour of a sample position lies inside the source. -/
theorem scaleHigh_le {extent : Nat} (newExtent i : Nat) (h1 : 1 ≤ extent)
    (h2 : extent < 4294967296) : scaleHigh extent newExtent i ≤ extent - 1 := by
  unfold scaleHigh
  rw [u32_pred h1 h2]
  exact min_le_right _ _

/-- The index of a channel of a pixel inside the source is the index `j * 4 + c` of a channel
of a pixel `j` of the source, also when the `u32` arithmetic wraps around. -/
theorem scaleIndex_pixel (image : CapturedImage) {yy xx c : Nat} (hw : 1 ≤ image.width)
    (hh : 1 ≤ image.height) (hy : yy ≤ image.height - 1) (hx : xx ≤ image.width - 1)
    (hc : c < 4) :
    ∃ j, j < image.width * image.height ∧ scaleIndex image yy xx c = j * 4 + c ∧
      scaleIndex image yy xx c ≤ (yy * image.width + xx) * 4 + c := by
  have h1 : yy * image.width ≤ (image.height - 1) * image.width := Nat.mul_le_mul_right _ hy
  have h2 : (image.height - 1) * image.width + image.width = image.width * image.height := by
    have h3 : (image.height - 1 + 1) * image.width = image.width * image.height := by
      rw [Nat.sub_add_cancel hh, Nat.mul_comm]
    rw [Nat.add_mul, Nat.one_mul] at h3
    exact h3
  have h4 : u32 (yy * image.width) ≤ yy * image.width := u32_le _
  refine ⟨u32 (u32 (yy * image.width) + xx) % 1073741824, ?_, ?_, ?_⟩
  · have h5 : u32 (u32 (yy * image.width) + xx) ≤ u32 (yy * image.width) + xx := u32_le _
    have h6 := Nat.mod_le (u32 (u32 (yy * image.width) + xx)) 1073741824
    omega
  · unfold scaleIndex
    generalize u32 (u32 (yy * image.width) + xx) = m
    unfold u32
    omega
  · unfold scaleIndex
    have h5 : u32 (u32 (yy * image.width) + xx) ≤ u32 (yy * image.width) + xx := u32_le _
    generalize u32 (yy * image.width) = a at h4 h5 ⊢
    generalize yy * image.width = b at h4 ⊢
    generalize u32 (a + xx) = m at h5 ⊢
    unfold u32
    omega

/-- On a source of at most 2^32 bytes the index of a channel of a pixel inside the source
is computed without wrap-around. -/
theorem scaleIndex_inside (image : CapturedImage) {yy xx c : Nat} (hw : 1 ≤ image.width)
    (hh : 1 ≤ image.height) (hy : yy ≤ image.height - 1) (hx : xx ≤ image.width - 1)
    (hc : c < 4) (hsrc : image.width * image.height * 4 ≤ 4294967296) :
    scaleIndex image yy xx c = (yy * image.width + xx) * 4 + c := by
  have h1 : yy * image.width ≤ (image.height - 1) * image.width := Nat.mul_le_mul_right _ hy
  have h2 : (image.height - 1) * image.width + image.width = image.width * image.height := by
    have h3 : (image.height - 1 + 1) * image.width = image.width * image.height := by
      rw [Nat.sub_add_cancel hh, Nat.mul_comm]
    rw [Nat.add_mul, Nat.one_mul] at h3
    exact h3
  unfold scaleIndex
  generalize yy * image.width = a at h1 ⊢
  generalize (image.height - 1) * image.width = b at h1 h2
  generalize image.width * image.height = n at h2 hsrc
  unfold u32
  omega

/-- For a `u32` extent that is not 0 the sample position of the source is the sample
position of the formula. -/
theorem scaleSrc_eq_formulaSrc {extent : Nat} (newExtent i : Nat) (h1 : 1 ≤ extent)
    (h2 : extent < 4294967296) : scaleSrc extent newExtent i = formulaSrc extent newExtent i := by
  unfold scaleSrc scaleRatio formulaSrc
  rw [u32_pred h1 h2]

/-- A lower neighbour of the formula that lies inside the source is the lower neighbour the
source computes. -/
theorem scaleLow_eq_formulaLow {extent : Nat} (newExtent i : Nat) (h1 : 1 ≤ extent)
    (h2 : extent < 4294967296) (hin : formulaLow extent newExtent i ≤ extent - 1) :
    scaleLow extent newExtent i = formulaLow extent newExtent i := by
  unfold scaleLow
  rw [scaleSrc_eq_formulaSrc newExtent i h1 h2]
  exact u32_of_lt (by unfold formulaLow at hin; omega)

/-- With the lower neighbour inside the source, the upper neighbour is the minimum of the
formula. -/
theorem scaleHigh_eq_min {extent : Nat} (newExtent i : Nat) (h1 : 1 ≤ extent)
    (h2 : extent < 4294967296) (hin : formulaLow extent newExtent i ≤ extent - 1) :
    scaleHigh extent newExtent i = min (formulaLow extent newExtent i + 1) (extent - 1) := by
  unfold scaleHigh
  rw [scaleLow_eq_formulaLow newExtent i h1 h2 hin, u32_pred h1 h2, u32_of_lt (by omega)]

/-- The clamp yields a byte value. -/
theorem clampByte_range (v : Int) : 0 ≤ clampByte v ∧ clampByte v ≤ 255 := by
  unfold clampByte
  split_ifs <;> omega

/-- The cast of a clamped value to a byte keeps the value. -/
theorem toByte_clampByte (v : Int) :
    (((toByte (Int.toNat (clampByte v))).val : Nat) : Int) = clampByte v := by
  obtain ⟨h0, h255⟩ := clampByte_range v
  show ((Int.toNat (clampByte v) % 256 : Nat) : Int) = clampByte v
  omega

/-- On a source of at most 2^32 bytes, for a destination pixel whose lower neighbours lie
inside the source, the byte the source computes is the value of the interpolation formula in
binary32. -/
theorem scaleSample_eq_bilinearF32 (image : CapturedImage) (newWidth newHeight x y c : Nat)
    (hrep : image.Representable) (hw : 1 ≤ image.width) (hh : 1 ≤ image.height)
    (hsrc : image.width * image.height * 4 ≤ 4294967296) (hc : c < 4)
    (hx0 : formulaLow image.width newWidth x ≤ image.width - 1)
    (hy0 : formulaLow image.height newHeight y ≤ image.height - 1) :
    (((scaleSample image newWidth newHeight x y c).val : Nat) : Int) =
      bilinearF32 image newWidth newHeight x y c := by
  obtain ⟨hW, hH, _, _, _⟩ := hrep
  have ex0 := scaleLow_eq_formulaLow newWidth x hw hW hx0
  have ey0 := scaleLow_eq_formulaLow newHeight y hh hH hy0
  have ex1 := scaleHigh_eq_min newWidth x hw hW hx0
  have ey1 := scaleHigh_eq_min newHeight y hh hH hy0
  have esx := scaleSrc_eq_formulaSrc newWidth x hw hW
  have esy := scaleSrc_eq_formulaSrc newHeight y hh hH
  have hx1 : min (formulaLow image.width newWidth x + 1) (image.width - 1) ≤
      image.width - 1 := min_le_right _ _
  have hy1 : min (formulaLow image.height newHeight y + 1) (image.height - 1) ≤
      image.height - 1 := min_le_right _ _
  have i00 := scaleIndex_inside image hw hh hy0 hx0 hc hsrc
  have i10 := scaleIndex_inside image hw hh hy0 hx1 hc hsrc
  have i01 := scaleIndex_inside image hw hh hy1 hx0 hc hsrc
  have i11 := scaleIndex_inside image hw hh hy1 hx1 hc hsrc
  simp only [scaleSample, scaleStore, scaleBlend, scaleFrac, bilinearF32, ex0, ey0, ex1, ey1,
    esx, esy, i00, i10, i01, i11]
  exact toByte_clampByte _

/-! ## Binary32 rounding -/

/-- The doublings counted by `log2Up` stay at or below `n`, and with enough fuel the next
doubling exceeds it. -/
theorem log2Up_spec (n : Nat) : ∀ (fuel d : Nat), d ≤ n →
    d * 2 ^ log2Up n d fuel ≤ n ∧ (n < d * 2 ^ fuel → n < d * 2 ^ (log2Up n d fuel + 1)) := by
  intro fuel
  induction fuel with
  | zero =>
    intro d hdn
    simp only [log2Up, pow_zero, Nat.mul_one, Nat.zero_add, pow_one]
    exact ⟨hdn, fun h => by omega⟩
  | succ fuel ih =>
    intro d hdn
    unfold log2Up
    by_cases h2 : 2 * d ≤ n
    · rw [if_pos h2]
      obtain ⟨h1, h3⟩ := ih (2 * d) h2
      have e1 : d * 2 ^ (log2Up n (2 * d) fuel + 1) = 2 * d * 2 ^ log2Up n (2 * d) fuel := by
        rw [pow_succ]; ring
      have e2 : d * 2 ^ (log2Up n (2 * d) fuel + 1 + 1) =
          2 * d * 2 ^ (log2Up n (2 * d) fuel + 1) := by
        rw [pow_succ (2 : Nat) (log2Up n (2 * d) fuel + 1)]; ring
      have e3 : d * 2 ^ (fuel + 1) = 2 * d * 2 ^ fuel := by rw [pow_succ]; ring
      rw [e1, e2, e3]
      exact ⟨h1, h3⟩
    · rw [if_neg h2]
      simp only [pow_zero, Nat.mul_one, Nat.zero_add, pow_one]
      exact ⟨hdn, fun _ => by omega⟩

/-- Every doubling counted by `log2Down` but the last stays below `d`, and with enough fuel
the last one reaches it. -/
theorem log2Down_spec (d : Nat) : ∀ (fuel n : Nat),
    (∀ j, j < log2Down n d fuel → n * 2 ^ j < d) ∧
      (d ≤ n * 2 ^ fuel → d ≤ n * 2 ^ log2Down n d fuel) := by
  intro fuel
  induction fuel with
  | zero =>
    intro n
    simp only [log2Down, pow_zero, Nat.mul_one]
    exact ⟨fun j hj => absurd hj (Nat.not_lt_zero j), fun h => h⟩
  | succ fuel ih =>
    intro n
    unfold log2Down
    by_cases h2 : n < d
    · rw [if_pos h2]
      obtain ⟨h1, h3⟩ := ih (2 * n)
      refine ⟨?_, ?_⟩
      · intro j hj
        cases j with
        | zero => simpa using h2
        | succ j =>
          have := h1 j (by omega)
          have e1 : n * 2 ^ (j + 1) = 2 * n * 2 ^ j := by rw [pow_succ]; ring
          rw [e1]; exact this
      · intro h
        have e1 : n * 2 ^ (fuel + 1) = 2 * n * 2 ^ fuel := by rw [pow_succ]; ring
        have e2 : n * 2 ^ (log2Down (2 * n) d fuel + 1) = 2 * n * 2 ^ log2Down (2 * n) d fuel := by
          rw [pow_succ]; ring
        rw [e2]
        exact h3 (by rw [← e1]; exact h)
    · rw [if_neg h2]
      simp only [pow_zero, Nat.mul_one]
      exact ⟨fun j hj => absurd hj (Nat.not_lt_zero j), fun _ => by omega⟩

/-- The exponent found by `floorLog2` brackets the fraction: `2 ^ e <= n / d < 2 ^ (e + 1)`,
for fractions between 2^-400 and 2^400. -/
theorem floorLog2_spec (n d : Nat) (hd : 0 < d) (hup : n < d * 2 ^ 400)
    (hlo : d ≤ n * 2 ^ 400) :
    (2 : ℚ) ^ floorLog2 n d ≤ (n : ℚ) / (d : ℚ) ∧
      (n : ℚ) / (d : ℚ) < (2 : ℚ) ^ (floorLog2 n d + 1) := by
  have hdq : (0 : ℚ) < (d : ℚ) := by exact_mod_cast hd
  unfold floorLog2
  by_cases hdn : d ≤ n
  · rw [if_pos hdn]
    obtain ⟨h1, h2⟩ := log2Up_spec n 400 d hdn
    have h3 := h2 hup
    generalize log2Up n d 400 = k at h1 h3
    have e1 : ((k : Int) + 1) = ((k + 1 : Nat) : Int) := by push_cast; rfl
    rw [e1, zpow_natCast, zpow_natCast]
    refine ⟨?_, ?_⟩
    · rw [le_div_iff₀ hdq]
      have : ((d * 2 ^ k : Nat) : ℚ) ≤ (n : ℚ) := by exact_mod_cast h1
      push_cast at this
      linarith
    · rw [div_lt_iff₀ hdq]
      have : (n : ℚ) < ((d * 2 ^ (k + 1) : Nat) : ℚ) := by exact_mod_cast h3
      push_cast at this
      linarith
  · rw [if_neg hdn]
    obtain ⟨h1, h2⟩ := log2Down_spec d 400 n
    have h3 := h2 hlo
    have hk : 1 ≤ log2Down n d 400 := by
      unfold log2Down
      rw [if_pos (by omega)]
      omega
    generalize log2Down n d 400 = k at h1 h3 hk
    have h4 := h1 (k - 1) (by omega)
    have e1 : (-(k : Int) + 1) = -((k - 1 : Nat) : Int) := by omega
    rw [e1, zpow_neg, zpow_neg, zpow_natCast, zpow_natCast]
    have hp : (0 : ℚ) < (2 : ℚ) ^ k := by positivity
    have hp1 : (0 : ℚ) < (2 : ℚ) ^ (k - 1) := by positivity
    refine ⟨?_, ?_⟩
    · rw [le_div_iff₀ hdq, inv_mul_le_iff₀ hp]
      have : (d : ℚ) ≤ ((n * 2 ^ k : Nat) : ℚ) := by exact_mod_cast h3
      push_cast at this
      linarith
    · rw [div_lt_iff₀ hdq, lt_inv_mul_iff₀ hp1]
      have : ((n * 2 ^ (k - 1) : Nat) : ℚ) < (d : ℚ) := by exact_mod_cast h4
      push_cast at this
      linarith

/-- The integer chosen by the rounding rule of `roundAt` lies within one half of `N / D`. -/
theorem roundNearest_spec (N D : Nat) (hD : 0 < D) :
    2 * (if 2 * (N % D) < D then N / D else if D < 2 * (N % D) then N / D + 1
        else if N / D % 2 = 0 then N / D else N / D + 1) * D ≤ 2 * N + D ∧
      2 * N ≤ 2 * (if 2 * (N % D) < D then N / D else if D < 2 * (N % D) then N / D + 1
        else if N / D % 2 = 0 then N / D else N / D + 1) * D + D := by
  have h1 := Nat.div_add_mod N D
  have h2 := Nat.mod_lt N hD
  have e1 : 2 * (N / D) * D = 2 * (D * (N / D)) := by ring
  have e2 : 2 * (N / D + 1) * D = 2 * (D * (N / D)) + 2 * D := by ring
  generalize D * (N / D) = P at h1 e1 e2
  split_ifs <;> simp only [e1, e2] <;> omega

/-- The value `roundAt n d u` lies within one half of `n / d / 2 ^ u`. -/
theorem roundAt_near (n d : Nat) (u : Int) (hd : 0 < d) :
    |((roundAt n d u : Nat) : ℚ) - (n : ℚ) / (d : ℚ) / (2 : ℚ) ^ u| ≤ 1 / 2 := by
  have hdq : (0 : ℚ) < (d : ℚ) := by exact_mod_cast hd
  have key : ∀ (N D m : Nat), 0 < D → 2 * m * D ≤ 2 * N + D → 2 * N ≤ 2 * m * D + D →
      |(m : ℚ) - (N : ℚ) / (D : ℚ)| ≤ 1 / 2 := by
    intro N D m hD h1 h2
    have hDq : (0 : ℚ) < (D : ℚ) := by exact_mod_cast hD
    have q1 : (2 : ℚ) * m * D ≤ 2 * N + D := by exact_mod_cast h1
    have q2 : (2 : ℚ) * N ≤ 2 * m * D + D := by exact_mod_cast h2
    have ht : (N : ℚ) / (D : ℚ) * D = N := div_mul_cancel₀ _ (ne_of_gt hDq)
    generalize (N : ℚ) / (D : ℚ) = t at ht
    rw [abs_le]
    constructor
    · have : (-(1 / 2) + t) * D ≤ (m : ℚ) * D := by nlinarith
      have := le_of_mul_le_mul_right this hDq
      linarith
    · have : (m : ℚ) * D ≤ (1 / 2 + t) * D := by nlinarith
      have := le_of_mul_le_mul_right this hDq
      linarith
  unfold roundAt
  by_cases hu : 0 ≤ u
  · simp only [if_pos hu]
    have hD : 0 < d * 2 ^ u.toNat := Nat.mul_pos hd (by positivity)
    obtain ⟨h1, h2⟩ := roundNearest_spec n (d * 2 ^ u.toNat) hD
    have := key n (d * 2 ^ u.toNat) _ hD h1 h2
    have e : (2 : ℚ) ^ u = (2 : ℚ) ^ u.toNat := by
      conv_lhs => rw [← Int.toNat_of_nonneg hu]
      exact zpow_natCast _ _
    rw [e, div_div]
    simp only [Nat.cast_mul, Nat.cast_pow, Nat.cast_ofNat] at this
    exact this
  · simp only [if_neg hu]
    obtain ⟨h1, h2⟩ := roundNearest_spec (n * 2 ^ (-u).toNat) d hd
    have := key (n * 2 ^ (-u).toNat) d _ hd h1 h2
    have hu2 : 0 ≤ -u := by omega
    have e : (2 : ℚ) ^ u = ((2 : ℚ) ^ (-u).toNat)⁻¹ := by
      have : u = -(((-u).toNat : Nat) : Int) := by rw [Int.toNat_of_nonneg hu2]; ring
      conv_lhs => rw [this]
      rw [zpow_neg, zpow_natCast]
    rw [e, div_inv_eq_mul]
    simp only [Nat.cast_mul, Nat.cast_pow, Nat.cast_ofNat] at this
    have e2 : (n : ℚ) / (d : ℚ) * (2 : ℚ) ^ (-u).toNat = (n : ℚ) * (2 : ℚ) ^ (-u).toNat / (d : ℚ) := by
      ring
    rw [e2]
    exact this

/-- Rounding a fraction with numerator 0 gives 0. -/
theorem f32_zero (a : Frac) (h : a.num = 0) : f32 a = ⟨0, 1⟩ := by
  unfold f32
  rw [if_pos h]

/-- The shape of `f32` on a positive fraction between 2^-400 and 2^400: with `e` the exponent
of the leading bit and `2 ^ (max e (-126) - 23)` the unit in the last place, the result is a
multiple `m` of the unit, and `m` lies within one half of the fraction divided by the
unit. -/
theorem f32_spec (a : Frac) (hn : 0 < a.num) (hd : 0 < a.den)
    (hlo : 1 ≤ a.toRat * (2 : ℚ) ^ 400) (hup : a.toRat < (2 : ℚ) ^ 400) :
    ∃ (e : Int) (m : Nat), (2 : ℚ) ^ e ≤ a.toRat ∧ a.toRat < (2 : ℚ) ^ (e + 1) ∧
      (f32 a).toRat = (m : ℚ) * (2 : ℚ) ^ (max e (-126) - 23) ∧
      |(m : ℚ) - a.toRat / (2 : ℚ) ^ (max e (-126) - 23)| ≤ 1 / 2 ∧
      0 < (f32 a).den ∧ 0 ≤ (f32 a).num := by
  obtain ⟨num, d⟩ := a
  dsimp only at hn hd
  lift num to Nat using (le_of_lt hn) with n
  have hn0 : 0 < n := by exact_mod_cast hn
  have hdq : (0 : ℚ) < (d : ℚ) := by exact_mod_cast hd
  have hval : (Frac.mk (n : Int) d).toRat = (n : ℚ) / (d : ℚ) := by
    simp [Frac.toRat]
  rw [hval] at hlo hup ⊢
  have hupN : n < d * 2 ^ 400 := by
    rw [div_lt_iff₀ hdq] at hup
    have : (n : ℚ) < ((d * 2 ^ 400 : Nat) : ℚ) := by
      rw [Nat.cast_mul, Nat.cast_pow, Nat.cast_ofNat]; linarith
    exact_mod_cast this
  have hloN : d ≤ n * 2 ^ 400 := by
    rw [div_mul_eq_mul_div, le_div_iff₀ hdq] at hlo
    have : (d : ℚ) ≤ ((n * 2 ^ 400 : Nat) : ℚ) := by
      rw [Nat.cast_mul, Nat.cast_pow, Nat.cast_ofNat]; linarith
    exact_mod_cast this
  obtain ⟨s1, s2⟩ := floorLog2_spec n d hd hupN hloN
  refine ⟨floorLog2 n d, roundAt n d (max (floorLog2 n d) (-126) - 23), s1, s2, ?_⟩
  have hmax : (if floorLog2 n d < -126 then (-126 : Int) else floorLog2 n d) =
      max (floorLog2 n d) (-126) := by
    split_ifs with h
    · exact (max_eq_right (le_of_lt h)).symm
    · exact (max_eq_left (by omega)).symm
  have hnear := roundAt_near n d (max (floorLog2 n d) (-126) - 23) hd
  unfold f32
  have hne : ((n : Int) = 0) = False := by
    apply eq_false; omega
  have hneg : ((n : Int) < 0) = False := by
    apply eq_false; omega
  simp only [hne, hneg, if_false, Int.natAbs_ofNat, hmax]
  generalize max (floorLog2 n d) (-126) - 23 = U at hnear ⊢
  generalize roundAt n d U = m at hnear ⊢
  refine ⟨?_, hnear, ?_, ?_⟩
  · by_cases hu : 0 ≤ U
    · rw [if_pos hu]
      have e : (2 : ℚ) ^ U = (2 : ℚ) ^ U.toNat := by
        conv_lhs => rw [← Int.toNat_of_nonneg hu]
        exact zpow_natCast _ _
      simp [Frac.toRat, e]
    · rw [if_neg hu]
      have hu2 : 0 ≤ -U := by omega
      have e : (2 : ℚ) ^ U = ((2 : ℚ) ^ (-U).toNat)⁻¹ := by
        have : U = -(((-U).toNat : Nat) : Int) := by rw [Int.toNat_of_nonneg hu2]; ring
        conv_lhs => rw [this]
        rw [zpow_neg, zpow_natCast]
      simp [Frac.toRat, e, div_eq_mul_inv]
  · split_ifs
    · exact Nat.one_pos
    · exact Nat.two_pow_pos _
  · split_ifs
    · exact mul_nonneg (Int.ofNat_nonneg m) (by positivity)
    · exact Int.ofNat_nonneg m

/-- The denominator of a rounded fraction is positive. -/
theorem f32_den_pos (a : Frac) : 0 < (f32 a).den := by
  unfold f32
  dsimp only
  split_ifs <;> first | exact Nat.one_pos | exact Nat.two_pow_pos _

/-- Rounding keeps a fraction with a non-negative numerator non-negative. -/
theorem f32_num_nonneg (a : Frac) (h : 0 ≤ a.num) : 0 ≤ (f32 a).num := by
  unfold f32
  dsimp only
  have hneg : (a.num < 0) = False := by
    apply eq_false; omega
  simp only [hneg, if_false]
  split_ifs <;>
    first
      | exact le_refl _
      | exact mul_nonneg (Int.ofNat_nonneg _) (by positivity)
      | exact Int.ofNat_nonneg _

/-- The value of a fraction with non-negative numerator and positive denominator is
non-negative. -/
theorem Frac.toRat_nonneg (a : Frac) (h : 0 ≤ a.num) : 0 ≤ a.toRat := by
  unfold Frac.toRat
  exact div_nonneg (by exact_mod_cast h) (by positivity)

/-- The value of a fraction with positive numerator and denominator is positive. -/
theorem Frac.toRat_pos (a : Frac) (h : 0 < a.num) (hd : 0 < a.den) : 0 < a.toRat := by
  unfold Frac.toRat
  exact div_pos (by exact_mod_cast h) (by exact_mod_cast hd)

/-- The value of a product of fractions. -/
theorem Frac.toRat_mul (a b : Frac) : (a * b).toRat = a.toRat * b.toRat := by
  show (Frac.mk (a.num * b.num) (a.den * b.den)).toRat = a.toRat * b.toRat
  unfold Frac.toRat
  push_cast
  rw [mul_div_mul_comm]

/-- The value of a quotient of fractions with a positive divisor. -/
theorem Frac.toRat_div (a b : Frac) (hb : 0 < b.num) :
    (a / b).toRat = a.toRat / b.toRat := by
  show (Frac.mk (a.num * b.den * Int.sign b.num) (a.den * b.num.natAbs)).toRat =
    a.toRat / b.toRat
  unfold Frac.toRat
  rw [Int.sign_eq_one_of_pos hb]
  have : ((b.num.natAbs : Nat) : ℚ) = (b.num : ℚ) := by
    have h := Int.natAbs_of_nonneg (le_of_lt hb)
    rw [← Int.cast_natCast, h]
  push_cast
  rw [this, mul_one, div_div_div_eq]

/-- The value of the fraction of a natural number. -/
theorem Frac.toRat_ofNat (n : Nat) : (Frac.ofNat n).toRat = (n : ℚ) := by
  simp [Frac.toRat, Frac.ofNat]

/-- Values between 2^-100 and 2^100 lie in the range of `f32_spec`. -/
theorem range_of_bounds (v : ℚ) (h1 : 1 ≤ v * (2 : ℚ) ^ 100) (h2 : v < (2 : ℚ) ^ 100) :
    1 ≤ v * (2 : ℚ) ^ 400 ∧ v < (2 : ℚ) ^ 400 := by
  have hp : (2 : ℚ) ^ 100 ≤ (2 : ℚ) ^ 400 := pow_le_pow_right₀ (by norm_num) (by norm_num)
  have hv : 0 < v := by
    by_contra hc
    have : v * (2 : ℚ) ^ 100 ≤ 0 := mul_nonpos_of_nonpos_of_nonneg (not_lt.mp hc) (by positivity)
    linarith
  refine ⟨?_, lt_of_lt_of_le h2 hp⟩
  calc (1 : ℚ) ≤ v * (2 : ℚ) ^ 100 := h1
    _ ≤ v * (2 : ℚ) ^ 400 := mul_le_mul_of_nonneg_left hp (le_of_lt hv)

/-- An integer within one half of `t` is at most every integer at or above `t`. -/
theorem round_le_int (m : Nat) (K : Int) (t : ℚ) (h : |(m : ℚ) - t| ≤ 1 / 2)
    (ht : t ≤ (K : ℚ)) : (m : ℚ) ≤ (K : ℚ) := by
  have h5 := (abs_le.mp h).2
  have h7 : (2 : ℚ) * ((m : Int) : ℚ) ≤ 2 * (K : ℚ) + 1 := by push_cast; linarith
  have h8 : 2 * (m : Int) ≤ 2 * K + 1 := by exact_mod_cast h7
  have h9 : (m : Int) ≤ K := by omega
  exact_mod_cast h9

/-- An integer within one half of `t` is at least every integer at or below `t`. -/
theorem round_ge_int (m : Nat) (K : Int) (t : ℚ) (h : |(m : ℚ) - t| ≤ 1 / 2)
    (ht : (K : ℚ) ≤ t) : (K : ℚ) ≤ (m : ℚ) := by
  have h5 := (abs_le.mp h).1
  have h7 : (2 : ℚ) * (K : ℚ) ≤ 2 * ((m : Int) : ℚ) + 1 := by push_cast; linarith
  have h8 : 2 * K ≤ 2 * (m : Int) + 1 := by exact_mod_cast h7
  have h9 : K ≤ (m : Int) := by omega
  exact_mod_cast h9

/-- A multiple `k * 2 ^ s` of a power of two is a multiple of the unit in the last place of a
fraction below `2 ^ (s + 24)`, for `s` at or above the exponent -149 of the smallest unit. -/
theorem f32_grid (a : Frac) (hn : 0 < a.num) (hd : 0 < a.den)
    (hlo : 1 ≤ a.toRat * (2 : ℚ) ^ 400) (hup : a.toRat < (2 : ℚ) ^ 400)
    (k s : Int) (hs : -149 ≤ s) (hlt : a.toRat < (2 : ℚ) ^ (s + 24)) :
    ∃ (K : Int) (m : Nat) (U : Int), 0 < (2 : ℚ) ^ U ∧ (f32 a).toRat = (m : ℚ) * (2 : ℚ) ^ U ∧
      (k : ℚ) * (2 : ℚ) ^ s = (K : ℚ) * (2 : ℚ) ^ U ∧
      |(m : ℚ) - a.toRat / (2 : ℚ) ^ U| ≤ 1 / 2 := by
  obtain ⟨e, m, h1, _, h3, h4, _, _⟩ := f32_spec a hn hd hlo hup
  have he : e < s + 24 := (zpow_lt_zpow_iff_right₀ (by norm_num : (1 : ℚ) < 2)).mp
    (lt_of_le_of_lt h1 hlt)
  have hU : max e (-126) - 23 ≤ s := by
    rcases max_cases e (-126) with ⟨hm, _⟩ | ⟨hm, _⟩ <;> rw [hm] <;> omega
  generalize max e (-126) - 23 = U at h3 h4 hU
  have hpU : (0 : ℚ) < (2 : ℚ) ^ U := zpow_pos (by norm_num) U
  have hsplit : (2 : ℚ) ^ s = ((2 ^ (s - U).toNat : Nat) : ℚ) * (2 : ℚ) ^ U := by
    have : s = (((s - U).toNat : Nat) : Int) + U := by
      rw [Int.toNat_of_nonneg (by omega)]; ring
    conv_lhs => rw [this]
    rw [zpow_add₀ (by norm_num : (2 : ℚ) ≠ 0), zpow_natCast]
    push_cast
    rfl
  refine ⟨k * ((2 ^ (s - U).toNat : Nat) : Int), m, U, hpU, h3, ?_, h4⟩
  rw [hsplit, ← mul_assoc]
  push_cast
  rfl

/-- Rounding does not cross a multiple of a power of two that is a multiple of the unit in
the last place: a fraction at or below `k * 2 ^ s` is rounded to a value at or below it. -/
theorem f32_le_of_grid (a : Frac) (hn : 0 < a.num) (hd : 0 < a.den)
    (hlo : 1 ≤ a.toRat * (2 : ℚ) ^ 400) (hup : a.toRat < (2 : ℚ) ^ 400)
    (k s : Int) (hs : -149 ≤ s) (hlt : a.toRat < (2 : ℚ) ^ (s + 24))
    (hle : a.toRat ≤ (k : ℚ) * (2 : ℚ) ^ s) : (f32 a).toRat ≤ (k : ℚ) * (2 : ℚ) ^ s := by
  obtain ⟨K, m, U, hpU, h3, hK, h4⟩ := f32_grid a hn hd hlo hup k s hs hlt
  rw [hK] at hle ⊢
  rw [h3]
  apply mul_le_mul_of_nonneg_right _ (le_of_lt hpU)
  exact round_le_int m K _ h4 (by rw [div_le_iff₀ hpU]; exact hle)

/-- A fraction at or above a multiple `k * 2 ^ s` of the unit in the last place is rounded to
a value at or above it. -/
theorem f32_ge_of_grid (a : Frac) (hn : 0 < a.num) (hd : 0 < a.den)
    (hlo : 1 ≤ a.toRat * (2 : ℚ) ^ 400) (hup : a.toRat < (2 : ℚ) ^ 400)
    (k s : Int) (hs : -149 ≤ s) (hlt : a.toRat < (2 : ℚ) ^ (s + 24))
    (hle : (k : ℚ) * (2 : ℚ) ^ s ≤ a.toRat) : (k : ℚ) * (2 : ℚ) ^ s ≤ (f32 a).toRat := by
  obtain ⟨K, m, U, hpU, h3, hK, h4⟩ := f32_grid a hn hd hlo hup k s hs hlt
  rw [hK] at hle ⊢
  rw [h3]
  apply mul_le_mul_of_nonneg_right _ (le_of_lt hpU)
  exact round_ge_int m K _ h4 (by rw [le_div_iff₀ hpU]; exact hle)

/-- The relative error of rounding in the normal range is at most 2^-24. -/
theorem f32_rel_err (a : Frac) (hn : 0 < a.num) (hd : 0 < a.den)
    (hlo : 1 ≤ a.toRat * (2 : ℚ) ^ 400) (hup : a.toRat < (2 : ℚ) ^ 400)
    (hnormal : (2 : ℚ) ^ (-126 : Int) ≤ a.toRat) :
    a.toRat * (1 - 1 / 16777216) ≤ (f32 a).toRat ∧
      (f32 a).toRat ≤ a.toRat * (1 + 1 / 16777216) := by
  obtain ⟨e, m, h1, h2, h3, h4, _, _⟩ := f32_spec a hn hd hlo hup
  have he : -126 < e + 1 := (zpow_lt_zpow_iff_right₀ (by norm_num : (1 : ℚ) < 2)).mp
    (lt_of_le_of_lt hnormal h2)
  have hU : max e (-126) - 23 = e - 23 := by rw [max_eq_left (by omega)]
  rw [hU] at h3 h4
  have hpU : (0 : ℚ) < (2 : ℚ) ^ (e - 23) := zpow_pos (by norm_num) _
  have hsplit : (2 : ℚ) ^ e = 8388608 * (2 : ℚ) ^ (e - 23) := by
    have : e = 23 + (e - 23) := by ring
    conv_lhs => rw [this]
    rw [zpow_add₀ (by norm_num : (2 : ℚ) ≠ 0)]
    norm_num
  rw [hsplit] at h1
  rw [h3]
  have ht : a.toRat / (2 : ℚ) ^ (e - 23) * (2 : ℚ) ^ (e - 23) = a.toRat :=
    div_mul_cancel₀ _ (ne_of_gt hpU)
  generalize a.toRat / (2 : ℚ) ^ (e - 23) = t at h4 ht
  generalize (2 : ℚ) ^ (e - 23) = P at hpU h1 ht ⊢
  obtain ⟨h5, h6⟩ := abs_le.mp h4
  rw [← ht]
  have h7 : (8388608 : ℚ) ≤ t := by
    rw [← ht] at h1
    exact le_of_mul_le_mul_right h1 hpU
  constructor
  · have : t * (1 - 1 / 16777216) ≤ (m : ℚ) := by linarith
    calc t * P * (1 - 1 / 16777216) = t * (1 - 1 / 16777216) * P := by ring
      _ ≤ (m : ℚ) * P := mul_le_mul_of_nonneg_right this (le_of_lt hpU)
  · have : (m : ℚ) ≤ t * (1 + 1 / 16777216) := by linarith
    calc (m : ℚ) * P ≤ t * (1 + 1 / 16777216) * P :=
          mul_le_mul_of_nonneg_right this (le_of_lt hpU)
      _ = t * P * (1 + 1 / 16777216) := by ring

/-- Rounding is monotone on positive fractions: of two fractions the larger one has the
larger or the same rounded value. -/
theorem f32_mono_of_lt (a b : Frac) (han : 0 < a.num) (had : 0 < a.den)
    (halo : 1 ≤ a.toRat * (2 : ℚ) ^ 400) (haup : a.toRat < (2 : ℚ) ^ 400)
    (hbn : 0 < b.num) (hbd : 0 < b.den)
    (hblo : 1 ≤ b.toRat * (2 : ℚ) ^ 400) (hbup : b.toRat < (2 : ℚ) ^ 400)
    (hab : a.toRat < b.toRat) : (f32 a).toRat ≤ (f32 b).toRat := by
  obtain ⟨ea, ma, a1, a2, a3, a4, _, _⟩ := f32_spec a han had halo haup
  obtain ⟨eb, mb, b1, b2, b3, b4, _, _⟩ := f32_spec b hbn hbd hblo hbup
  have two : (1 : ℚ) < 2 := by norm_num
  have hee : ea < eb + 1 := (zpow_lt_zpow_iff_right₀ two).mp
    (lt_of_le_of_lt a1 (lt_trans hab b2))
  by_cases hsame : max ea (-126) = max eb (-126)
  · rw [hsame] at a3 a4
    rw [a3, b3]
    have hpU : (0 : ℚ) < (2 : ℚ) ^ (max eb (-126) - 23) := zpow_pos (by norm_num) _
    apply mul_le_mul_of_nonneg_right _ (le_of_lt hpU)
    have hlt : a.toRat / (2 : ℚ) ^ (max eb (-126) - 23) <
        b.toRat / (2 : ℚ) ^ (max eb (-126) - 23) := div_lt_div_of_pos_right hab hpU
    have h5 := (abs_le.mp a4).2
    have h6 := (abs_le.mp b4).1
    have h7 : ((ma : Int) : ℚ) < ((mb : Int) : ℚ) + 1 := by push_cast; linarith
    have h8 : (ma : Int) < (mb : Int) + 1 := by exact_mod_cast h7
    have h9 : ma ≤ mb := by omega
    exact_mod_cast h9
  · have hlt : ea < eb ∧ -126 < eb := by
      rcases max_cases ea (-126) with ⟨h1, _⟩ | ⟨h1, _⟩ <;>
        rcases max_cases eb (-126) with ⟨h2, _⟩ | ⟨h2, _⟩ <;>
        rw [h1, h2] at hsame <;> omega
    have hab2 : a.toRat ≤ (2 : ℚ) ^ eb :=
      le_trans (le_of_lt a2) (zpow_le_zpow_right₀ (le_of_lt two) (by omega))
    have hb24 : b.toRat < (2 : ℚ) ^ (eb + 24) :=
      lt_trans b2 (zpow_lt_zpow_right₀ two (by omega))
    have ha24 : a.toRat < (2 : ℚ) ^ (eb + 24) := lt_trans hab hb24
    have h1 := f32_le_of_grid a han had halo haup 1 eb (by omega) ha24 (by simpa using hab2)
    have h2 := f32_ge_of_grid b hbn hbd hblo hbup 1 eb (by omega) hb24 (by simpa using b1)
    exact le_trans h1 h2

/-- A fraction with positive denominator and positive value has a positive numerator. -/
theorem Frac.num_pos_of_toRat_pos (a : Frac) (hd : 0 < a.den) (h : 0 < a.toRat) :
    0 < a.num := by
  unfold Frac.toRat at h
  have hdq : (0 : ℚ) < (a.den : ℚ) := by exact_mod_cast hd
  have := (div_pos_iff_of_pos_right hdq).mp h
  exact_mod_cast this

/-- The conversion of a natural number below 2^24 to binary32 is exact. -/
theorem f32_ofNat_exact (c : Nat) (h : c < 16777216) :
    (f32 (Frac.ofNat c)).toRat = (c : ℚ) := by
  rcases Nat.eq_zero_or_pos c with h0 | hpos
  · subst h0
    rw [f32_zero _ rfl]
    simp [Frac.toRat]
  · have hn : 0 < (Frac.ofNat c).num := by
      show 0 < (c : Int)
      exact_mod_cast hpos
    have hd : 0 < (Frac.ofNat c).den := Nat.one_pos
    have hc1 : (1 : ℚ) ≤ (c : ℚ) := by exact_mod_cast hpos
    have hc2 : (c : ℚ) < 16777216 := by exact_mod_cast h
    have hr := range_of_bounds (Frac.ofNat c).toRat
      (by rw [Frac.toRat_ofNat]; nlinarith) (by rw [Frac.toRat_ofNat]; norm_num; linarith)
    have hlt : (Frac.ofNat c).toRat < (2 : ℚ) ^ ((0 : Int) + 24) := by
      rw [Frac.toRat_ofNat]; norm_num; exact h
    have h1 := f32_le_of_grid _ hn hd hr.1 hr.2 (c : Int) 0 (by norm_num) hlt
      (by rw [Frac.toRat_ofNat]; simp)
    have h2 := f32_ge_of_grid _ hn hd hr.1 hr.2 (c : Int) 0 (by norm_num) hlt
      (by rw [Frac.toRat_ofNat]; simp)
    have e : ((c : Int) : ℚ) * (2 : ℚ) ^ (0 : Int) = (c : ℚ) := by simp
    rw [e] at h1 h2
    exact le_antisymm h1 h2

/-- The conversion of natural numbers up to 2^32 to binary32 is monotone. -/
theorem f32_ofNat_mono (x y : Nat) (hxy : x ≤ y) (hy : y ≤ 4294967296) :
    (f32 (Frac.ofNat x)).toRat ≤ (f32 (Frac.ofNat y)).toRat := by
  rcases Nat.eq_zero_or_pos x with h0 | hpos
  · subst h0
    rw [f32_zero _ rfl]
    have : (Frac.mk 0 1).toRat = 0 := by simp [Frac.toRat]
    rw [this]
    exact Frac.toRat_nonneg _ (f32_num_nonneg _ (Int.ofNat_nonneg y))
  · rcases Nat.eq_or_lt_of_le hxy with heq | hlt
    · rw [heq]
    · have range : ∀ c : Nat, 0 < c → c ≤ 4294967296 →
          0 < (Frac.ofNat c).num ∧ 0 < (Frac.ofNat c).den ∧
            1 ≤ (Frac.ofNat c).toRat * (2 : ℚ) ^ 400 ∧ (Frac.ofNat c).toRat < (2 : ℚ) ^ 400 := by
        intro c hc hc2
        have hc1 : (1 : ℚ) ≤ (c : ℚ) := by exact_mod_cast hc
        have hc3 : (c : ℚ) ≤ 4294967296 := by exact_mod_cast hc2
        have hr := range_of_bounds (Frac.ofNat c).toRat
          (by rw [Frac.toRat_ofNat]; nlinarith) (by rw [Frac.toRat_ofNat]; norm_num; linarith)
        exact ⟨by show 0 < (c : Int); exact_mod_cast hc, Nat.one_pos, hr.1, hr.2⟩
      obtain ⟨a1, a2, a3, a4⟩ := range x hpos (by omega)
      obtain ⟨b1, b2, b3, b4⟩ := range y (by omega) hy
      apply f32_mono_of_lt _ _ a1 a2 a3 a4 b1 b2 b3 b4
      rw [Frac.toRat_ofNat, Frac.toRat_ofNat]
      exact_mod_cast hlt

/-- The conversion of a natural number between 1 and 2^32 to binary32 lies between 1 and
2^32. -/
theorem f32_ofNat_bounds (y : Nat) (h1 : 1 ≤ y) (hy : y ≤ 4294967296) :
    1 ≤ (f32 (Frac.ofNat y)).toRat ∧ (f32 (Frac.ofNat y)).toRat ≤ 4294967296 := by
  constructor
  · have := f32_ofNat_mono 1 y h1 hy
    rw [f32_ofNat_exact 1 (by norm_num)] at this
    exact_mod_cast this
  · have hc1 : (1 : ℚ) ≤ (y : ℚ) := by exact_mod_cast h1
    have hc3 : (y : ℚ) ≤ 4294967296 := by exact_mod_cast hy
    have hr := range_of_bounds (Frac.ofNat y).toRat
      (by rw [Frac.toRat_ofNat]; nlinarith) (by rw [Frac.toRat_ofNat]; norm_num; linarith)
    have := f32_le_of_grid (Frac.ofNat y) (by show 0 < (y : Int); exact_mod_cast h1)
      Nat.one_pos hr.1 hr.2 1 32 (by norm_num)
      (by rw [Frac.toRat_ofNat]; norm_num; linarith)
      (by rw [Frac.toRat_ofNat]; norm_num; linarith)
    norm_num at this
    exact this

/-- The sample position of the formula stays below the extent of the source when the extent
is at most 2^23: the rounded ratio exceeds the exact one by a factor of at most 1 + 2^-24,
the rounded index is at most the rounded new extent, and the product lies at or below
`extent - 1 + 1/2`, which is a binary32 value. -/
theorem formulaSrc_bound (extent newExtent i : Nat) (h1 : 1 ≤ extent)
    (h2 : extent ≤ 8388608) (h3 : i < newExtent) (h4 : newExtent ≤ 4294967296) :
    0 ≤ (formulaSrc extent newExtent i).num ∧ 0 < (formulaSrc extent newExtent i).den ∧
      (formulaSrc extent newExtent i).toRat < (extent : ℚ) := by
  unfold formulaSrc
  have hext : (extent : ℚ) = ((extent - 1 : Nat) : ℚ) + 1 := by
    have : extent = (extent - 1) + 1 := by omega
    conv_lhs => rw [this]
    push_cast
    rfl
  rw [hext]
  have ha : extent - 1 < 8388608 := by omega
  generalize extent - 1 = a at ha
  have haq : (a : ℚ) ≤ 8388607 := by
    have : a ≤ 8388607 := by omega
    exact_mod_cast this
  have ha0 : (0 : ℚ) ≤ (a : ℚ) := Nat.cast_nonneg a
  have hA := f32_ofNat_exact a (by omega)
  have hAn := f32_num_nonneg (Frac.ofNat a) (Int.ofNat_nonneg a)
  have hAd := f32_den_pos (Frac.ofNat a)
  obtain ⟨hB1, hB2⟩ := f32_ofNat_bounds newExtent (by omega) h4
  have hBd := f32_den_pos (Frac.ofNat newExtent)
  have hBn := Frac.num_pos_of_toRat_pos _ hBd (lt_of_lt_of_le one_pos hB1)
  have hX := f32_ofNat_mono i newExtent (le_of_lt h3) h4
  have hXn := f32_num_nonneg (Frac.ofNat i) (Int.ofNat_nonneg i)
  have hXd := f32_den_pos (Frac.ofNat i)
  have hX1 : 0 < (f32 (Frac.ofNat i)).num → 1 ≤ (f32 (Frac.ofNat i)).toRat := by
    intro hp
    rcases Nat.eq_zero_or_pos i with h0 | hpos
    · subst h0
      rw [f32_zero _ rfl] at hp
      exact absurd hp (lt_irrefl _)
    · exact (f32_ofNat_bounds i hpos (by omega)).1
  generalize f32 (Frac.ofNat a) = A at hA hAn hAd
  generalize f32 (Frac.ofNat newExtent) = B at hB1 hB2 hBd hBn hX
  generalize f32 (Frac.ofNat i) = X at hX hXn hXd hX1
  have hB0 : (0 : ℚ) < B.toRat := lt_of_lt_of_le one_pos hB1
  have hR := Frac.toRat_div A B hBn
  rw [hA] at hR
  have hRn : 0 ≤ (A / B).num := by
    show 0 ≤ A.num * B.den * Int.sign B.num
    rw [Int.sign_eq_one_of_pos hBn, mul_one]
    exact mul_nonneg hAn (Int.ofNat_nonneg _)
  have hRd : 0 < (A / B).den := by
    show 0 < A.den * B.num.natAbs
    exact Nat.mul_pos hAd (Int.natAbs_pos.mpr (ne_of_gt hBn))
  have hQn := f32_num_nonneg (A / B) hRn
  have hQd := f32_den_pos (A / B)
  have hQ : (f32 (A / B)).toRat ≤ (a : ℚ) / B.toRat * (1 + 1 / 16777216) ∧
      (0 < (f32 (A / B)).num → 1 / 8589934592 ≤ (f32 (A / B)).toRat) := by
    rcases eq_or_lt_of_le hRn with h0 | hpos
    · rw [f32_zero _ h0.symm]
      refine ⟨?_, fun hp => absurd hp (lt_irrefl _)⟩
      have : (Frac.mk 0 1).toRat = 0 := by simp [Frac.toRat]
      rw [this]
      exact mul_nonneg (div_nonneg ha0 (le_of_lt hB0)) (by norm_num)
    · have hRpos := Frac.toRat_pos _ hpos hRd
      rw [hR] at hRpos
      have hapos : (0 : ℚ) < (a : ℚ) := by
        by_contra hc
        have : (a : ℚ) = 0 := le_antisymm (not_lt.mp hc) ha0
        rw [this, zero_div] at hRpos
        exact lt_irrefl _ hRpos
      have ha1 : (1 : ℚ) ≤ (a : ℚ) := by
        have : 0 < a := by exact_mod_cast hapos
        exact_mod_cast this
      have hRlo : (1 : ℚ) / 4294967296 ≤ (A / B).toRat := by
        rw [hR, div_le_div_iff₀ (by norm_num) hB0]
        nlinarith
      have hRup : (A / B).toRat ≤ 8388607 := by
        rw [hR, div_le_iff₀ hB0]
        nlinarith
      have hr := range_of_bounds (A / B).toRat (by norm_num; linarith) (by norm_num; linarith)
      obtain ⟨e1, e2⟩ := f32_rel_err (A / B) hpos hRd hr.1 hr.2
        (le_trans (by norm_num) hRlo)
      rw [hR] at e1 e2
      refine ⟨e2, fun _ => ?_⟩
      rw [hR] at hRlo
      nlinarith
  generalize f32 (A / B) = Q at hQ hQn hQd
  obtain ⟨hQ1, hQ2⟩ := hQ
  have hV := Frac.toRat_mul X Q
  have hVn : 0 ≤ (X * Q).num := by
    show 0 ≤ X.num * Q.num
    exact mul_nonneg hXn hQn
  have hVd : 0 < (X * Q).den := by
    show 0 < X.den * Q.den
    exact Nat.mul_pos hXd hQd
  have hX0 := Frac.toRat_nonneg X hXn
  have hQ0 := Frac.toRat_nonneg Q hQn
  have hVle : (X * Q).toRat ≤ (a : ℚ) + 1 / 2 := by
    rw [hV]
    have s1 : X.toRat * Q.toRat ≤ B.toRat * ((a : ℚ) / B.toRat * (1 + 1 / 16777216)) :=
      mul_le_mul hX hQ1 hQ0 (le_of_lt hB0)
    have s2 : B.toRat * ((a : ℚ) / B.toRat * (1 + 1 / 16777216)) =
        (a : ℚ) * (1 + 1 / 16777216) := by
      field_simp
      ring
    rw [s2] at s1
    linarith
  refine ⟨f32_num_nonneg _ hVn, f32_den_pos _, ?_⟩
  rcases eq_or_lt_of_le hVn with h0 | hpos
  · rw [f32_zero _ h0.symm]
    have : (Frac.mk 0 1).toRat = 0 := by simp [Frac.toRat]
    rw [this]
    linarith
  · have hXp : 0 < X.num := by
      have hp : 0 < X.num * Q.num := hpos
      rcases eq_or_lt_of_le hXn with hz | hp2
      · rw [← hz, zero_mul] at hp
        exact absurd hp (lt_irrefl _)
      · exact hp2
    have hQp : 0 < Q.num := by
      have hp : 0 < X.num * Q.num := hpos
      rcases eq_or_lt_of_le hQn with hz | hp2
      · rw [← hz, mul_zero] at hp
        exact absurd hp (lt_irrefl _)
      · exact hp2
    have x1 := hX1 hXp
    have q1 := hQ2 hQp
    have hVlo : (1 : ℚ) / 8589934592 ≤ (X * Q).toRat := by
      rw [hV]
      calc (1 : ℚ) / 8589934592 = 1 * (1 / 8589934592) := by ring
        _ ≤ X.toRat * Q.toRat := mul_le_mul x1 q1 (by norm_num) hX0
    have hr := range_of_bounds (X * Q).toRat (by norm_num; linarith) (by norm_num; linarith)
    have := f32_le_of_grid (X * Q) hpos hVd hr.1 hr.2 (2 * (a : Int) + 1) (-1) (by norm_num)
      (by norm_num; linarith) (by push_cast; norm_num; linarith)
    have e : ((2 * (a : Int) + 1 : Int) : ℚ) * (2 : ℚ) ^ (-1 : Int) = (a : ℚ) + 1 / 2 := by
      push_cast
      norm_num
      ring
    rw [e] at this
    linarith

/-- The truncation of a non-negative fraction below `c + 1` is at most `c`. -/
theorem Frac.trunc_le (a : Frac) (hn : 0 ≤ a.num) (hd : 0 < a.den) (c : Nat)
    (h : a.toRat < (c : ℚ) + 1) : Int.toNat (Frac.trunc a) ≤ c := by
  unfold Frac.trunc
  rw [if_pos hn, Int.toNat_ofNat]
  have hdq : (0 : ℚ) < (a.den : ℚ) := by exact_mod_cast hd
  unfold Frac.toRat at h
  rw [div_lt_iff₀ hdq] at h
  have hnum : ((a.num.toNat : Nat) : Int) = a.num := Int.toNat_of_nonneg hn
  have h2 : (((a.num.toNat : Nat) : Int) : ℚ) < (((c + 1) * a.den : Nat) : ℚ) := by
    rw [hnum]
    push_cast
    exact h
  have h3 : a.num.toNat < (c + 1) * a.den := by exact_mod_cast h2
  have := (Nat.div_lt_iff_lt_mul hd).mpr h3
  omega

/-- The lower neighbour of the formula lies inside a source of extent at most 2^23. -/
theorem formulaLow_le (extent newExtent i : Nat) (h1 : 1 ≤ extent) (h2 : extent ≤ 8388608)
    (h3 : i < newExtent) (h4 : newExtent ≤ 4294967296) :
    formulaLow extent newExtent i ≤ extent - 1 := by
  obtain ⟨hn, hd, hlt⟩ := formulaSrc_bound extent newExtent i h1 h2 h3 h4
  unfold formulaLow
  apply Frac.trunc_le _ hn hd
  have : ((extent - 1 : Nat) : ℚ) + 1 = (extent : ℚ) := by
    have h : extent = (extent - 1) + 1 := by omega
    conv_rhs => rw [h]
    push_cast
    rfl
  rw [this]
  exact hlt

/-- The lower neighbour the source computes lies inside a source of extent at most 2^23. -/
theorem scaleLow_le {extent : Nat} (newExtent i : Nat) (h1 : 1 ≤ extent)
    (h2 : extent ≤ 8388608) (h3 : i < newExtent) (h4 : newExtent ≤ 4294967296) :
    scaleLow extent newExtent i ≤ extent - 1 := by
  have h := formulaLow_le extent newExtent i h1 h2 h3 h4
  rw [scaleLow_eq_formulaLow newExtent i h1 (by omega) h]
  exact h

/-! ## The store loops of scale -/

theorem forLoop_four {σ : Type} (body : Nat → σ → σ) (s : σ) :
    forLoop 4 body s = body 3 (body 2 (body 1 (body 0 s))) :=
  rfl

/-- The channel loop of `scale` for a destination pixel `P` whose four bytes lie inside the
buffer and below 2^32: the bytes of pixel `P` become `g 0 .. g 3`, all other bytes keep
their value. -/
theorem channelLoop_spec (g : Nat → Byte) (P : Nat) (t : List Byte)
    (hfit : P * 4 + 4 ≤ t.length) (hP : P * 4 + 4 ≤ 4294967296) :
    (forLoop 4 (fun c dst => dst.set (u32 (u32 (u32 P * 4) + c)) (g c)) t).length =
        t.length ∧
      (∀ c, c < 4 →
        (forLoop 4 (fun c dst => dst.set (u32 (u32 (u32 P * 4) + c)) (g c)) t)[P * 4 + c]? =
          some (g c)) ∧
      ∀ j, j < P * 4 ∨ P * 4 + 4 ≤ j →
        (forLoop 4 (fun c dst => dst.set (u32 (u32 (u32 P * 4) + c)) (g c)) t)[j]? =
          t[j]? := by
  have e : ∀ c, c < 4 → u32 (u32 (u32 P * 4) + c) = P * 4 + c := by
    intro c hc
    unfold u32
    omega
  rw [forLoop_four]
  simp only [e 0 (by omega), e 1 (by omega), e 2 (by omega), e 3 (by omega)]
  refine ⟨by simp, ?_, ?_⟩
  · intro c hc
    interval_cases c
    · rw [List.getElem?_set_ne (by omega), List.getElem?_set_ne (by omega),
        List.getElem?_set_ne (by omega), List.getElem?_set_self (by omega)]
    · rw [List.getElem?_set_ne (by omega), List.getElem?_set_ne (by omega),
        List.getElem?_set_self (by simp; omega)]
    · rw [List.getElem?_set_ne (by omega), List.getElem?_set_self (by simp; omega)]
    · rw [List.getElem?_set_self (by simp; omega)]
  · intro j hj
    rw [List.getElem?_set_ne (by omega), List.getElem?_set_ne (by omega),
      List.getElem?_set_ne (by omega), List.getElem?_set_ne (by omega)]

/-- The three nested loops of `scale` on an output of at most 2^32 bytes: the buffer has
`newWidth * newHeight * 4` bytes and channel `c` of destination pixel `(x, y)`, at index
`(y * newWidth + x) * 4 + c`, holds the byte computed for it. -/
theorem scaleLoop_spec (g : Nat → Nat → Nat → Byte) (newWidth newHeight : Nat)
    (hsmall : newWidth * newHeight * 4 ≤ 4294967296) :
    (forLoop newHeight (fun y dst =>
        forLoop newWidth (fun x dst =>
          forLoop 4 (fun c dst =>
            dst.set (u32 (u32 (u32 (y * newWidth + x) * 4) + c)) (g x y c)) dst) dst)
        (zeroBuffer (usize (usize (newWidth * newHeight) * 4)))).length =
        newWidth * newHeight * 4 ∧
      ∀ y x c, y < newHeight → x < newWidth → c < 4 →
        (forLoop newHeight (fun y dst =>
          forLoop newWidth (fun x dst =>
            forLoop 4 (fun c dst =>
              dst.set (u32 (u32 (u32 (y * newWidth + x) * 4) + c)) (g x y c)) dst) dst)
          (zeroBuffer (usize (usize (newWidth * newHeight) * 4))))[(y * newWidth + x) * 4 + c]? =
          some (g x y c) := by
  have hsize : usize (usize (newWidth * newHeight) * 4) = newWidth * newHeight * 4 := by
    unfold usize
    omega
  have hpix : ∀ y x, y < newHeight → x < newWidth →
      (y * newWidth + x) * 4 + 4 ≤ newWidth * newHeight * 4 := by
    intro y x hy hx
    have h1 : (y + 1) * newWidth ≤ newHeight * newWidth := Nat.mul_le_mul_right _ hy
    have h2 : (y + 1) * newWidth = y * newWidth + newWidth := by ring
    have h3 : newHeight * newWidth = newWidth * newHeight := Nat.mul_comm _ _
    omega
  have key := forLoop_invariant
    (fun m (t : List Byte) => t.length = newWidth * newHeight * 4 ∧
      ∀ y x c, y < m → x < newWidth → c < 4 →
        t[(y * newWidth + x) * 4 + c]? = some (g x y c)) newHeight
    (fun y dst =>
      forLoop newWidth (fun x dst =>
        forLoop 4 (fun c dst =>
          dst.set (u32 (u32 (u32 (y * newWidth + x) * 4) + c)) (g x y c)) dst) dst)
    (zeroBuffer (usize (usize (newWidth * newHeight) * 4)))
    (by
      refine ⟨by rw [zeroBuffer_length, hsize], fun y x c hy _ _ => ?_⟩
      omega)
    (by
      intro m hm t ht
      obtain ⟨hlen, hrows⟩ := ht
      have inner := forLoop_invariant
        (fun j (u : List Byte) => u.length = newWidth * newHeight * 4 ∧
          (∀ y x c, y < m → x < newWidth → c < 4 →
            u[(y * newWidth + x) * 4 + c]? = some (g x y c)) ∧
          ∀ x c, x < j → c < 4 → u[(m * newWidth + x) * 4 + c]? = some (g x m c)) newWidth
        (fun x dst =>
          forLoop 4 (fun c dst =>
            dst.set (u32 (u32 (u32 (m * newWidth + x) * 4) + c)) (g x m c)) dst) t
        (by
          refine ⟨hlen, hrows, fun x c hx _ => ?_⟩
          omega)
        (by
          intro j hj u hu
          obtain ⟨hulen, hurows, hucols⟩ := hu
          have hfit := hpix m j hm hj
          obtain ⟨hl, hset, hkeep⟩ := channelLoop_spec (fun c => g j m c)
            (m * newWidth + j) u (by omega) (by omega)
          refine ⟨by rw [hl, hulen], ?_, ?_⟩
          · intro y x c hy hx hc
            have h1 : (y + 1) * newWidth ≤ m * newWidth := Nat.mul_le_mul_right _ hy
            have h2 : (y + 1) * newWidth = y * newWidth + newWidth := by ring
            rw [hkeep _ (Or.inl (by omega))]
            exact hurows y x c hy hx hc
          · intro x c hx hc
            by_cases hxj : x = j
            · subst hxj
              exact hset c hc
            · rw [hkeep _ (Or.inl (by omega))]
              exact hucols x c (by omega) hc)
      obtain ⟨hl, hrows2, hcols2⟩ := inner
      refine ⟨hl, ?_⟩
      intro y x c hy hx hc
      by_cases hym : y = m
      · subst hym
        exact hcols2 x c hx hc
      · exact hrows2 y x c (by omega) hx hc)
  exact key

/-- No store of `scale` reaches a byte at index 2^32 or beyond: the index of every store is
a `u32` value, so such a byte of the result keeps the 0 of the fresh buffer. -/
theorem scale_high_bytes (sample : CapturedImage → Nat → Nat → Nat → Nat → Nat → Byte)
    (image : CapturedImage) (newWidth newHeight : Nat) (res : CapturedImage)
    (hres : scale sample image newWidth newHeight = some res) (j : Nat)
    (hj : 4294967296 ≤ j) (hjl : j < res.data.length) : res.data[j]? = some 0 := by
  obtain ⟨_, _, _, _, hlen⟩ := scale_fields sample image newWidth newHeight res hres
  rw [hlen] at hjl
  unfold scale at hres
  split_ifs at hres with h1 h2
  rw [← Option.some.inj hres]
  show (forLoop newHeight _ _)[j]? = some 0
  apply forLoop_invariant (fun _ (t : List Byte) => t[j]? = some 0)
  · exact List.getElem?_replicate_of_lt hjl
  · intro y _ t ht
    apply forLoop_invariant (fun _ (t : List Byte) => t[j]? = some 0)
    · exact ht
    · intro x _ t2 ht2
      apply forLoop_invariant (fun _ (t : List Byte) => t[j]? = some 0)
      · exact ht2
      · intro c _ t3 ht3
        have hne : u32 (u32 (u32 (y * newWidth + x) * 4) + c) ≠ j := by
          have := Nat.mod_lt (u32 (u32 (y * newWidth + x) * 4) + c)
            (show 0 < 4294967296 by decide)
          unfold u32 at this ⊢
          omega
        rw [List.getElem?_set_ne hne]
        exact ht3

/-- A `memcpy` none of whose stores goes to index `j` keeps the byte at index `j`. -/
theorem memcpy_keeps (dst : List Byte) (dOff : Nat) (src : List Byte) (sOff n j : Nat)
    (hne : ∀ k, k < n → dOff + k ≠ j) : (memcpy dst dOff src sOff n)[j]? = dst[j]? := by
  unfold memcpy
  apply forLoop_invariant (fun _ (t : List Byte) => t[j]? = dst[j]?)
  · rfl
  · intro k hk t ht
    rw [List.getElem?_set_ne (hne k hk)]
    exact ht

/-- Row copies none of whose stores goes to index `j` keep the byte at index `j`. -/
theorem rowCopies_keep (n : Nat) (dOff sOff : Nat → Nat) (src init : List Byte)
    (len j : Nat) (hne : ∀ row k, k < len → dOff row + k ≠ j) :
    (forLoop n (fun row dst => memcpy dst (dOff row) src (sOff row) len) init)[j]? =
      init[j]? := by
  apply forLoop_invariant (fun _ (t : List Byte) => t[j]? = init[j]?)
  · rfl
  · intro row _ t ht
    show (memcpy t _ _ _ _)[j]? = init[j]?
    rw [memcpy_keeps _ _ _ _ _ _ (hne row)]
    exact ht

/-! ## Composition of crops -/

theorem crop_present_of_pos (image : CapturedImage) (region : Rect)
    (hw : 0 < (cropClamp image region).2.2.1) (hh : 0 < (cropClamp image region).2.2.2) :
    ∃ res, crop image region = some res := by
  simp only [crop]
  rw [if_neg (by omega)]
  exact ⟨_, rfl⟩

theorem crop_absent_of_nonpos (image : CapturedImage) (region : Rect)
    (h : (cropClamp image region).2.2.1 ≤ 0 ∨ (cropClamp image region).2.2.2 ≤ 0) :
    crop image region = none := by
  simp only [crop]
  rw [if_pos h]

/-- Two images that agree in every field are equal. -/
theorem CapturedImage.eq_of_fields {a b : CapturedImage} (hd : a.data = b.data)
    (hw : a.width = b.width) (hh : a.height = b.height) (hs : a.stride = b.stride)
    (hf : a.format = b.format) (ht : a.timestamp = b.timestamp) : a = b := by
  cases a
  cases b
  simp only [CapturedImage.mk.injEq]
  exact ⟨hd, hw, hh, hs, hf, ht⟩

/-- Two buffers of `n * h` bytes that agree on byte `k` of row `r` for all `r < h` and
`k < n` are equal. -/
theorem eq_of_rows {a b : List Byte} {n h : Nat} (ha : a.length = n * h)
    (hb : b.length = n * h)
    (hrows : ∀ r k, r < h → k < n → a[r * n + k]? = b[r * n + k]?) : a = b := by
  apply List.ext_getElem?
  intro j
  by_cases hj : j < n * h
  · have hn : 0 < n := by
      rcases Nat.eq_zero_or_pos n with h0 | h0
      · rw [h0, Nat.zero_mul] at hj
        omega
      · exact h0
    have hr : j / n < h := by
      rw [Nat.div_lt_iff_lt_mul hn, Nat.mul_comm]
      exact hj
    have hk : j % n < n := Nat.mod_lt _ hn
    have hsplit : j / n * n + j % n = j := by
      rw [Nat.mul_comm]
      exact Nat.div_add_mod j n
    have h := hrows (j / n) (j % n) hr hk
    rw [hsplit] at h
    exact h
  · rw [List.getElem?_eq_none (by omega), List.getElem?_eq_none (by omega)]

/-- Crops compose on images of at most 2^32 bytes whose width and height are at most
2^31 - 1: for a region `r1` inside the image and a region `r2` with a non-negative origin,
cropping with `r1` and then with `r2` is cropping once with the region
(x1 + x2, y1 + y2, min(w2, w1 - x2), min(h2, h1 - y2)); both sides are absent together, and
when present they are the same image. -/
theorem crop_crop (image : CapturedImage) (r1 r2 : Rect) (hrep : image.Representable)
    (hr1 : r1.Representable) (hr2 : r2.Representable)
    (hw : image.width ≤ 2147483647) (hh : image.height ≤ 2147483647)
    (hstride : image.width * bytesPerPixel image.format ≤ image.stride)
    (hlen : image.data.length = image.stride * image.height)
    (hsmall : image.stride * image.height ≤ 4294967296)
    (hx1 : 0 ≤ r1.x) (hy1 : 0 ≤ r1.y) (hw1 : 0 < r1.width) (hh1 : 0 < r1.height)
    (hin1 : r1.x + r1.width ≤ image.width) (hin2 : r1.y + r1.height ≤ image.height)
    (hx2 : 0 ≤ r2.x) (hy2 : 0 ≤ r2.y) :
    (∃ c1, crop image r1 = some c1) ∧
      (crop image r1).bind (fun c1 => crop c1 r2) =
        crop image { x := r1.x + r2.x, y := r1.y + r2.y,
                     width := min r2.width (r1.width - r2.x),
                     height := min r2.height (r1.height - r2.y) } := by
  generalize hw3 : min r2.width (r1.width - r2.x) = w3
  generalize hh3 : min r2.height (r1.height - r2.y) = h3
  have hw3a : w3 ≤ r2.width := by rw [← hw3]; exact min_le_left _ _
  have hw3b : w3 ≤ r1.width - r2.x := by rw [← hw3]; exact min_le_right _ _
  have hh3a : h3 ≤ r2.height := by rw [← hh3]; exact min_le_left _ _
  have hh3b : h3 ≤ r1.height - r2.y := by rw [← hh3]; exact min_le_right _ _
  have m1 : max 0 r1.x = r1.x := max_eq_right hx1
  have m2 : max 0 r1.y = r1.y := max_eq_right hy1
  have m3 : min r1.width ((image.width : Int) - r1.x) = r1.width := min_eq_left (by omega)
  have m4 : min r1.height ((image.height : Int) - r1.y) = r1.height :=
    min_eq_left (by omega)
  have n1 : max 0 r2.x = r2.x := max_eq_right hx2
  have n2 : max 0 r2.y = r2.y := max_eq_right hy2
  have hclamp1 := cropClamp_of_range image r1 hw hh hr1
  rw [m1, m2, m3, m4] at hclamp1
  have hr1' := hr1
  have hr2' := hr2
  obtain ⟨⟨_, hx1hi⟩, ⟨_, hy1hi⟩, ⟨_, hw1hi⟩, ⟨_, hh1hi⟩⟩ := hr1'
  obtain ⟨⟨_, hx2hi⟩, ⟨_, hy2hi⟩, ⟨hw2lo, hw2hi⟩, ⟨hh2lo, hh2hi⟩⟩ := hr2'
  obtain ⟨c1, hc1⟩ := crop_present_of_pos image r1
    (by rw [hclamp1]; exact hw1) (by rw [hclamp1]; exact hh1)
  refine ⟨⟨c1, hc1⟩, ?_⟩
  rw [hc1, Option.some_bind]
  obtain ⟨X1, Y1, W1, H1, hX1, hY1, hW1, hH1, hf1, hcw1, hch1, hcs1, hcl1, hrows1⟩ :=
    crop_copies_rows image r1 hrep hr1 hw hh hstride hlen hsmall c1 hc1
  obtain ⟨_, _, _, _, _, _, hts1, _⟩ := crop_some_rows image r1 c1 hc1
  rw [m1] at hX1 hW1
  rw [m2] at hY1 hH1
  rw [m3] at hW1
  rw [m4] at hH1
  have hrep0 := hrep
  obtain ⟨hiw, hih, his, hit, hil⟩ := hrep0
  have hXW1 : X1 + W1 ≤ image.width := by omega
  have hYH1 : Y1 + H1 ≤ image.height := by omega
  -- the intermediate image fits its types and is at most as large as the source
  have hrow1 : W1 * bytesPerPixel image.format ≤ image.stride :=
    le_trans (Nat.mul_le_mul_right _ (by omega)) hstride
  have hsize1 : W1 * bytesPerPixel image.format * H1 ≤ image.stride * image.height :=
    Nat.mul_le_mul hrow1 (by omega)
  have hrep1 : c1.Representable := by
    refine ⟨by omega, by omega, by omega, by omega, ?_⟩
    rw [hcl1, hcs1, hch1]
    omega
  have hstride1 : c1.width * bytesPerPixel c1.format ≤ c1.stride := by
    rw [hcw1, hf1, hcs1]
  have hsmall1 : c1.stride * c1.height ≤ 4294967296 := by
    rw [hcs1, hch1]
    omega
  have hc1w : c1.width ≤ 2147483647 := by omega
  have hc1h : c1.height ≤ 2147483647 := by omega
  have hclamp2 := cropClamp_of_range c1 r2 hc1w hc1h hr2
  rw [hcw1, hch1, hW1, hH1, n1, n2, hw3, hh3] at hclamp2
  by_cases hpos : 0 < w3 ∧ 0 < h3
  · -- both crops are present
    obtain ⟨hposw, hposh⟩ := hpos
    have hr3 : Rect.Representable
        { x := r1.x + r2.x, y := r1.y + r2.y, width := w3, height := h3 } := by
      refine ⟨⟨?_, ?_⟩, ⟨?_, ?_⟩, ⟨?_, ?_⟩, ⟨?_, ?_⟩⟩ <;> dsimp only <;> omega
    have k1 : max 0 (r1.x + r2.x) = r1.x + r2.x := max_eq_right (by omega)
    have k2 : max 0 (r1.y + r2.y) = r1.y + r2.y := max_eq_right (by omega)
    have k3 : min w3 ((image.width : Int) - (r1.x + r2.x)) = w3 := min_eq_left (by omega)
    have k4 : min h3 ((image.height : Int) - (r1.y + r2.y)) = h3 := min_eq_left (by omega)
    have hclamp3 := cropClamp_of_range image _ hw hh hr3
    dsimp only at hclamp3
    rw [k1, k2, k3, k4] at hclamp3
    obtain ⟨a, ha⟩ := crop_present_of_pos c1 r2
      (by rw [hclamp2]; exact hposw) (by rw [hclamp2]; exact hposh)
    obtain ⟨b, hb⟩ := crop_present_of_pos image _
      (by rw [hclamp3]; exact hposw) (by rw [hclamp3]; exact hposh)
    rw [ha, hb]
    obtain ⟨X2, Y2, Wa, Ha, hX2, hY2, hWa, hHa, hfa, haw, hah, has, hal, hrowsa⟩ :=
      crop_copies_rows c1 r2 hrep1 hr2 hc1w hc1h hstride1 hcl1 hsmall1 a ha
    obtain ⟨_, _, _, _, _, _, htsa, _⟩ := crop_some_rows c1 r2 a ha
    obtain ⟨X3, Y3, Wb, Hb, hX3, hY3, hWb, hHb, hfb, hbw, hbh, hbs, hbl, hrowsb⟩ :=
      crop_copies_rows image _ hrep hr3 hw hh hstride hlen hsmall b hb
    obtain ⟨_, _, _, _, _, _, htsb, _⟩ := crop_some_rows image _ b hb
    dsimp only at hX3 hY3 hWb hHb
    rw [n1] at hX2
    rw [n2] at hY2
    rw [hcw1, hW1, n1, hw3] at hWa
    rw [hch1, hH1, n2, hh3] at hHa
    rw [k1] at hX3
    rw [k2] at hY3
    rw [k1, k3] at hWb
    rw [k2, k4] at hHb
    have eX : X3 = X1 + X2 := by omega
    have eY : Y3 = Y1 + Y2 := by omega
    have eW : Wb = Wa := by omega
    have eH : Hb = Ha := by omega
    have hXW2 : X2 + Wa ≤ W1 := by omega
    have hYH2 : Y2 + Ha ≤ H1 := by omega
    subst eX eY eW eH
    rw [hf1] at hfa has hrowsa
    clear hclamp1 hclamp2 hclamp3 hc1 ha hb hrep hrep1 hr1 hr2 hr3
    generalize bytesPerPixel image.format = bpp at *
    congr 1
    apply CapturedImage.eq_of_fields
    · have hal2 : a.data.length = Wb * bpp * Hb := by rw [hal, has, hah]
      have hbl2 : b.data.length = Wb * bpp * Hb := by rw [hbl, hbs, hbh]
      apply eq_of_rows hal2 hbl2
      intro r k hr hk
      obtain ⟨va, hva1, hva2⟩ := hrowsa r k hr hk
      obtain ⟨vb, hvb1, hvb2⟩ := hrowsb r k hr hk
      have hk1 : X2 * bpp + k < W1 * bpp := by
        have h1 : (X2 + Wb) * bpp ≤ W1 * bpp := Nat.mul_le_mul_right _ hXW2
        have h2 : (X2 + Wb) * bpp = X2 * bpp + Wb * bpp := by ring
        omega
      have hr1lt : Y2 + r < H1 := by omega
      obtain ⟨vc, hvc1, hvc2⟩ := hrows1 (Y2 + r) (X2 * bpp + k) hr1lt hk1
      rw [has] at hva2
      rw [hbs] at hvb2
      rw [hva2, hvb2]
      have e1 : (Y2 + r) * c1.stride + X2 * bpp + k =
          (Y2 + r) * c1.stride + (X2 * bpp + k) := by ring
      have e2 : (Y1 + Y2 + r) * image.stride + (X1 + X2) * bpp + k =
          (Y1 + (Y2 + r)) * image.stride + X1 * bpp + (X2 * bpp + k) := by ring
      rw [e1, hvc2] at hva1
      rw [e2, hvc1] at hvb1
      rw [← hva1, ← hvb1]
    · rw [haw, hbw]
    · rw [hah, hbh]
    · rw [has, hbs]
    · rw [hfa, hfb]
    · rw [htsa, hts1, htsb]
  · -- both crops are absent
    have hle : w3 ≤ 0 ∨ h3 ≤ 0 := by omega
    rw [crop_absent_of_nonpos c1 r2 (by rw [hclamp2]; exact hle)]
    rw [crop_absent_of_nonpos image _ (by
      simp only [cropClamp]
      rcases hle with h | h
      · exact Or.inl (le_trans (min_le_left _ _) h)
      · exact Or.inr (le_trans (min_le_left _ _) h))]

/-- On a tightly packed image of at most 2^32 bytes with width and height between 1 and
2^31 - 1, `crop` with the full bounds (0, 0, width, height) returns the image unchanged. -/
theorem crop_full_bounds (image : CapturedImage) (hrep : image.Representable)
    (hw : image.width ≤ 2147483647) (hh : image.height ≤ 2147483647)
    (hw1 : 1 ≤ image.width) (hh1 : 1 ≤ image.height)
    (hstride : image.stride = image.width * bytesPerPixel image.format)
    (hlen : image.data.length = image.stride * image.height)
    (hsmall : image.stride * image.height ≤ 4294967296) :
    crop image { x := 0, y := 0, width := image.width, height := image.height } =
      some image := by
  have hreg : Rect.Representable
      { x := 0, y := 0, width := image.width, height := image.height } := by
    refine ⟨⟨?_, ?_⟩, ⟨?_, ?_⟩, ⟨?_, ?_⟩, ⟨?_, ?_⟩⟩ <;> dsimp only <;> omega
  have hclamp := cropClamp_of_range image _ hw hh hreg
  dsimp only at hclamp
  have k1 : max (0 : Int) 0 = 0 := rfl
  have k3 : min (image.width : Int) ((image.width : Int) - 0) = image.width :=
    min_eq_left (by omega)
  have k4 : min (image.height : Int) ((image.height : Int) - 0) = image.height :=
    min_eq_left (by omega)
  rw [k1, k3, k4] at hclamp
  obtain ⟨res, hres⟩ := crop_present_of_pos image _
    (by rw [hclamp]; show (0 : Int) < image.width; omega)
    (by rw [hclamp]; show (0 : Int) < image.height; omega)
  obtain ⟨X, Y, Wc, Hc, hX, hY, hWc, hHc, hf, hrw, hrh, hrs, hrl, hrows⟩ :=
    crop_copies_rows image _ hrep hreg hw hh (le_of_eq hstride.symm) hlen hsmall res hres
  obtain ⟨_, _, _, _, _, _, hts, _⟩ := crop_some_rows image _ res hres
  dsimp only at hX hY hWc hHc
  rw [k1] at hX hY
  rw [k1, k3] at hWc
  rw [k1, k4] at hHc
  have eX : X = 0 := by omega
  have eY : Y = 0 := by omega
  have eW : Wc = image.width := by omega
  have eH : Hc = image.height := by omega
  subst eX eY
  rw [eW] at hrw hrs hrows
  rw [eH] at hrh hrows
  rw [← hstride] at hrs hrows
  rw [hres]
  have hl1 : res.data.length = image.stride * image.height := by rw [hrl, hrs, hrh]
  have hdata : res.data = image.data := by
    apply eq_of_rows hl1 hlen
    intro r k hr hk
    obtain ⟨v, hv1, hv2⟩ := hrows r k hr hk
    rw [hrs] at hv2
    simp only [Nat.zero_add, Nat.zero_mul, Nat.add_zero] at hv1
    rw [hv2, ← hv1]
  exact congrArg some (CapturedImage.eq_of_fields hdata hrw hrh hrs hf hts)

/-- On `dotRow` scaled to 6x1 the interpolation formula over exact rationals gives 1 for
channel 0 of destination pixel (5, 0): sx = 5/6, x0 = 0, x1 = 1, fx = 5/6,
v = 3 * (1/6) + 0 * (5/6) = 1/2 and floor(1/2 + 1/2) = 1. -/
theorem bilinearExact_dotRow : bilinearExact dotRow 6 1 5 0 0 = 1 := by
  have hsx : ⌊((5 : Nat) : ℚ) * (((2 : Nat) : ℚ) - 1) / ((6 : Nat) : ℚ)⌋ = 0 := by
    rw [Int.floor_eq_iff]
    norm_num
  have hsy : ⌊((0 : Nat) : ℚ) * (((1 : Nat) : ℚ) - 1) / ((1 : Nat) : ℚ)⌋ = 0 := by
    norm_num
  have hw : dotRow.width = 2 := rfl
  have hh : dotRow.height = 1 := rfl
  have p0 : readByte dotRow.data 0 = 3 := by decide
  have p4 : readByte dotRow.data 4 = 0 := by decide
  simp only [bilinearExact, hw, hh, hsx, hsy]
  norm_num [p0, p4]
  have ht : Int.toNat 4 = 4 := rfl
  have v3 : (((3 : Byte).val : Nat) : ℚ) = 3 := by
    rw [show ((3 : Byte).val : Nat) = 3 from rfl]
    norm_num
  have v0 : (((0 : Byte).val : Nat) : ℚ) = 0 := by
    rw [show ((0 : Byte).val : Nat) = 0 from rfl]
    norm_num
  rw [ht, p4, v3, v0]
  have hfl : ⌊(3 : ℚ) * (1 / 6) + 0 * (5 / 6) + 1 / 2⌋ = 1 := by
    rw [Int.floor_eq_iff]
    norm_num
  rw [hfl]
  decide

/-! ## Theorems -/

/-- C5: `convertFormat` to the image's own format returns the image unchanged, whatever its
format, stride and data. -/
theorem convertFormat_same_format (image : CapturedImage) :
    convertFormat image image.format = some image := by
  simp [convertFormat]

/-- C4: an image whose format is `RGB8` or `Grayscale` is converted to no other format:
`convertFormat` returns `none` for every target different from the image's format. -/
theorem convertFormat_unsupported_source (image : CapturedImage) (target : CaptureFormat)
    (hsrc : image.format = CaptureFormat.RGB8 ∨ image.format = CaptureFormat.Grayscale)
    (hne : target ≠ image.format) : convertFormat image target = none := by
  have hne2 : ¬ image.format = target := fun h => hne h.symm
  rcases hsrc with h | h <;> rw [h] at hne2 <;> simp [convertFormat, hne2, h]

/-- C3 (failing input): the 1x1 `RGBA8` image with bytes 1, 2, 3, 4 is well formed and has
four bytes of data, yet `convertFormat` to `RGB8` returns `none`. -/
theorem convertFormat_rgba_to_rgb_absent :
    rgbaPixel.Representable ∧ rgbaPixel.format = CaptureFormat.RGBA8 ∧
      rgbaPixel.width * rgbaPixel.height * 4 ≤ rgbaPixel.data.length ∧
      convertFormat rgbaPixel CaptureFormat.RGB8 = none := by
  decide

/-- C9: `scale` returns `none` for every image in `RGB8` or `Grayscale` format, whatever the
new size, and for every image when the new width or the new height is 0. -/
theorem scale_rejects (sample : CapturedImage → Nat → Nat → Nat → Nat → Nat → Byte)
    (image : CapturedImage) (newWidth newHeight : Nat) :
    ((image.format = CaptureFormat.RGB8 ∨ image.format = CaptureFormat.Grayscale) →
        scale sample image newWidth newHeight = none) ∧
      ((newWidth = 0 ∨ newHeight = 0) → scale sample image newWidth newHeight = none) := by
  constructor
  · intro h
    rcases h with h | h <;> simp [scale, h]
  · intro h
    simp [scale, h]

/-- C1: a tightly packed `BGRA8` image (stride = width * 4, data length = stride * height)
converts to `RGBA8`, the result converts back to `BGRA8`, and the final image is the original
image in every field and every byte; likewise from `RGBA8` through `BGRA8`. -/
theorem convertFormat_swap_roundtrip (image : CapturedImage) (hrep : image.Representable)
    (hstride : image.stride = image.width * 4)
    (hlen : image.data.length = image.stride * image.height) :
    (image.format = CaptureFormat.BGRA8 →
        ∃ mid, convertFormat image CaptureFormat.RGBA8 = some mid ∧
          convertFormat mid CaptureFormat.BGRA8 = some image) ∧
      (image.format = CaptureFormat.RGBA8 →
        ∃ mid, convertFormat image CaptureFormat.BGRA8 = some mid ∧
          convertFormat mid CaptureFormat.RGBA8 = some image) := by
  obtain ⟨hw, hh, hs, _, hd⟩ := hrep
  have hcount : usize (image.width * image.height) = image.width * image.height :=
    usize_mul_u32 hw hh
  have hlen4 : image.data.length = image.width * image.height * 4 := by
    rw [hlen, hstride]; ring
  have hn : image.width * image.height * 4 < 18446744073709551616 := by omega
  have hst : u32 (image.width * 4) = image.stride := by
    rw [← hstride]; exact u32_of_lt hs
  have hback := swapRedBlue_swapRedBlue image.data (image.width * image.height) hlen4 hn
  constructor
  · intro hf
    refine ⟨{ data := swapRedBlue image.data (image.width * image.height)
              width := image.width
              height := image.height
              stride := image.stride
              format := CaptureFormat.RGBA8
              timestamp := image.timestamp }, ?_, ?_⟩
    · simp [convertFormat, hf, hcount, hst]
    · simp only [convertFormat, hcount, hst, hback]
      cases image
      simp_all
  · intro hf
    refine ⟨{ data := swapRedBlue image.data (image.width * image.height)
              width := image.width
              height := image.height
              stride := image.stride
              format := CaptureFormat.BGRA8
              timestamp := image.timestamp }, ?_, ?_⟩
    · simp [convertFormat, hf, hcount, hst]
    · simp only [convertFormat, hcount, hst, hback]
      cases image
      simp_all

/-- Witness of C1 on the 2x1 image `bgraPair`. -/
theorem convertFormat_swap_roundtrip_witness :
    bgraPair.Representable ∧ bgraPair.stride = bgraPair.width * 4 ∧
      bgraPair.data.length = bgraPair.stride * bgraPair.height ∧
      bgraPair.format = CaptureFormat.BGRA8 ∧
      ∃ mid, convertFormat bgraPair CaptureFormat.RGBA8 = some mid ∧
        convertFormat mid CaptureFormat.BGRA8 = some bgraPair :=
  ⟨by decide, by decide, by decide, by decide,
    (convertFormat_swap_roundtrip bgraPair (by decide) (by decide) (by decide)).1 (by decide)⟩

/-- C2: for a `BGRA8` or `RGBA8` image whose data holds at least width * height * 4 bytes,
`convertFormat` to `Grayscale` is present and byte `i` of the result, for every
`i < width * height`, is `floor((R * 299 + G * 587 + B * 114) / 1000)`, with R, G, B the bytes
2, 1, 0 of source pixel `i` for `BGRA8` and the bytes 0, 1, 2 for `RGBA8`.  Pure red, green,
blue and white give 76, 149, 29 and 255. -/
theorem convertFormat_grayscale_luma (image : CapturedImage) (hrep : image.Representable)
    (hlen : image.width * image.height * 4 ≤ image.data.length) :
    (image.format = CaptureFormat.BGRA8 →
        ∃ res, convertFormat image CaptureFormat.Grayscale = some res ∧
          ∀ i, i < image.width * image.height →
            ∃ b g r, image.data[i * 4]? = some b ∧ image.data[i * 4 + 1]? = some g ∧
              image.data[i * 4 + 2]? = some r ∧ res.data[i]? = some (luma r g b) ∧
              (luma r g b).val = (r.val * 299 + g.val * 587 + b.val * 114) / 1000) ∧
      (image.format = CaptureFormat.RGBA8 →
        ∃ res, convertFormat image CaptureFormat.Grayscale = some res ∧
          ∀ i, i < image.width * image.height →
            ∃ r g b, image.data[i * 4]? = some r ∧ image.data[i * 4 + 1]? = some g ∧
              image.data[i * 4 + 2]? = some b ∧ res.data[i]? = some (luma r g b) ∧
              (luma r g b).val = (r.val * 299 + g.val * 587 + b.val * 114) / 1000) ∧
      ((luma 255 0 0).val = 76 ∧ (luma 0 255 0).val = 149 ∧ (luma 0 0 255).val = 29 ∧
        (luma 255 255 255).val = 255) := by
  obtain ⟨hw, hh, _, _, hd⟩ := hrep
  have hcount : usize (image.width * image.height) = image.width * image.height :=
    usize_mul_u32 hw hh
  refine ⟨?_, ?_, by decide⟩
  · intro hf
    refine ⟨{ data := bgraToGray image.data (image.width * image.height)
              width := image.width
              height := image.height
              stride := image.width
              format := CaptureFormat.Grayscale
              timestamp := image.timestamp }, by simp [convertFormat, hf, hcount], ?_⟩
    intro i hi
    have e0 : usize (i * 4 + 0) = i * 4 := usize_of_lt (by omega)
    have e1 : usize (i * 4 + 1) = i * 4 + 1 := usize_of_lt (by omega)
    have e2 : usize (i * 4 + 2) = i * 4 + 2 := usize_of_lt (by omega)
    refine ⟨readByte image.data (i * 4), readByte image.data (i * 4 + 1),
      readByte image.data (i * 4 + 2), getElem?_eq_some_readByte (by omega),
      getElem?_eq_some_readByte (by omega), getElem?_eq_some_readByte (by omega), ?_,
      luma_val _ _ _⟩
    have h := (storeLoop_spec (fun i =>
      luma (readByte image.data (usize (i * 4 + 2))) (readByte image.data (usize (i * 4 + 1)))
        (readByte image.data (usize (i * 4 + 0)))) (image.width * image.height)).2 i hi
    simp only [e0, e1, e2] at h
    exact h
  · intro hf
    refine ⟨{ data := rgbaToGray image.data (image.width * image.height)
              width := image.width
              height := image.height
              stride := image.width
              format := CaptureFormat.Grayscale
              timestamp := image.timestamp }, by simp [convertFormat, hf, hcount], ?_⟩
    intro i hi
    have e0 : usize (i * 4 + 0) = i * 4 := usize_of_lt (by omega)
    have e1 : usize (i * 4 + 1) = i * 4 + 1 := usize_of_lt (by omega)
    have e2 : usize (i * 4 + 2) = i * 4 + 2 := usize_of_lt (by omega)
    refine ⟨readByte image.data (i * 4), readByte image.data (i * 4 + 1),
      readByte image.data (i * 4 + 2), getElem?_eq_some_readByte (by omega),
      getElem?_eq_some_readByte (by omega), getElem?_eq_some_readByte (by omega), ?_,
      luma_val _ _ _⟩
    have h := (storeLoop_spec (fun i =>
      luma (readByte image.data (usize (i * 4 + 0))) (readByte image.data (usize (i * 4 + 1)))
        (readByte image.data (usize (i * 4 + 2)))) (image.width * image.height)).2 i hi
    simp only [e0, e1, e2] at h
    exact h

/-- Witness of C2 on `bgraPrimaries`: the grayscale bytes are 76, 149, 29, 255. -/
theorem convertFormat_grayscale_luma_witness :
    bgraPrimaries.Representable ∧
      bgraPrimaries.width * bgraPrimaries.height * 4 ≤ bgraPrimaries.data.length ∧
      bgraPrimaries.format = CaptureFormat.BGRA8 ∧
      (convertFormat bgraPrimaries CaptureFormat.Grayscale).map (fun res => res.data) =
        some [76, 149, 29, 255] ∧
      ∃ res, convertFormat bgraPrimaries CaptureFormat.Grayscale = some res ∧
        ∀ i, i < bgraPrimaries.width * bgraPrimaries.height →
          ∃ b g r, bgraPrimaries.data[i * 4]? = some b ∧
            bgraPrimaries.data[i * 4 + 1]? = some g ∧
            bgraPrimaries.data[i * 4 + 2]? = some r ∧ res.data[i]? = some (luma r g b) ∧
            (luma r g b).val = (r.val * 299 + g.val * 587 + b.val * 114) / 1000 :=
  ⟨by decide, by decide, by decide, by decide,
    (convertFormat_grayscale_luma bgraPrimaries (by decide) (by decide)).1 (by decide)⟩

/-- C7 (failing input): `leftRegion` has positive size and lies entirely to the left of
`gray4x4` (x + w <= 0), so its rectangle does not meet the image, yet `crop` is present: it
returns the 2x2 block at the origin of the image.  The clamp of the origin to 0 moves the
rectangle into the image without shortening its extent. -/
theorem crop_left_region_present :
    0 < leftRegion.width ∧ 0 < leftRegion.height ∧ leftRegion.x + leftRegion.width ≤ 0 ∧
      crop gray4x4 leftRegion =
        some { data := [0, 1, 4, 5], width := 2, height := 2, stride := 2,
               format := CaptureFormat.Grayscale, timestamp := 0 } := by
  decide

/-- C8 (failing input): `tallGray` satisfies stride >= width * bpp and
data length = stride * height, and `crop` with `lastRowPixel` is present with clamped origin
(0, 65536) and size 1x1; the source byte at (65536 + 0) * stride + 0 * bpp + 0 is 1, but
the byte of the result is 0, the byte at offset 0 of the source: the product
65536 * 65536 of the row and the stride is reduced to `u32`. -/
theorem crop_row_offset_wraps :
    tallGray.Representable ∧ tallGray.width * bytesPerPixel tallGray.format ≤ tallGray.stride ∧
      tallGray.data.length = tallGray.stride * tallGray.height ∧
      cropClamp tallGray lastRowPixel = (0, 65536, 1, 1) ∧
      crop tallGray lastRowPixel =
        some { data := [0], width := 1, height := 1, stride := 1,
               format := CaptureFormat.Grayscale, timestamp := 0 } ∧
      tallGray.data[(65536 + 0) * tallGray.stride + 0 * bytesPerPixel tallGray.format + 0]? =
        some 1 := by
  have hlen : tallGray.data.length = 4294967296 + 65536 := by
    show (List.replicate 4294967296 (0 : Byte) ++ List.replicate 65536 1).length = _
    rw [List.length_append, List.length_replicate, List.length_replicate]
  have hread : readByte tallGray.data 0 = 0 := by
    apply readByte_of_getElem?
    show (List.replicate 4294967296 (0 : Byte) ++ List.replicate 65536 1)[0]? = some 0
    rw [List.getElem?_append_left (by rw [List.length_replicate]; decide)]
    exact List.getElem?_replicate_of_lt (by decide)
  have hclamp : cropClamp tallGray lastRowPixel = (0, 65536, 1, 1) := by decide
  refine ⟨?_, by decide, ?_, hclamp, ?_, ?_⟩
  · refine ⟨by decide, by decide, by decide, by decide, ?_⟩
    rw [hlen]; decide
  · rw [hlen]; rfl
  · have hoff : u32 (i32ToU32 (toI32 (65536 + ((0 : Nat) : Int))) * tallGray.stride) +
        u32 (i32ToU32 0 * bytesPerPixel CaptureFormat.Grayscale) = 0 := by decide
    have hstride : u32 (1 * bytesPerPixel CaptureFormat.Grayscale) = 1 := by decide
    have hone : Int.toNat 1 = 1 := rfl
    have hw : i32ToU32 1 = 1 := by decide
    have hdst : u32 (i32ToU32 ((0 : Nat) : Int) * 1) = 0 := by decide
    have hbuf : zeroBuffer (usize (1 * 1)) = [0] := by decide
    have hfmt : tallGray.format = CaptureFormat.Grayscale := rfl
    have hts : tallGray.timestamp = 0 := rfl
    simp only [crop, hclamp]
    rw [if_neg (by decide)]
    simp only [hw, hfmt, hts, hstride, hone, forLoop_one, memcpy, hoff, hdst, hbuf,
      Nat.add_zero, hread, List.set]
  · show (List.replicate 4294967296 (0 : Byte) ++ List.replicate 65536 1)[_]? = some 1
    rw [List.getElem?_append_right (by rw [List.length_replicate]; decide)]
    rw [List.length_replicate]
    exact List.getElem?_replicate_of_lt (by decide)

/-- C6 (counterexample): `wideStrip` is 2^31 pixels wide and 1 pixel high.  For the region
(0, 0, 1, 1) the clamped size of the claim is w = min(1, 2^31 - 0) = 1 and
h = min(1, 1 - 0) = 1, both positive, yet `crop` returns `none`. -/
theorem crop_wide_image_absent :
    wideStrip.Representable ∧ originPixel.Representable ∧
      crop wideStrip originPixel = none ∧
      ¬ (min originPixel.width ((wideStrip.width : Int) - max 0 originPixel.x) ≤ 0 ∨
          min originPixel.height ((wideStrip.height : Int) - max 0 originPixel.y) ≤ 0) := by
  have hlen : wideStrip.data.length = 2147483648 := by
    show (List.replicate 2147483648 (0 : Byte)).length = _
    rw [List.length_replicate]
  have hclamp : cropClamp wideStrip originPixel = (0, 0, -2147483648, 1) := by decide
  refine ⟨⟨by decide, by decide, by decide, by decide, ?_⟩, by decide, ?_, by decide⟩
  · rw [hlen]; decide
  · simp only [crop, hclamp]
    rw [if_pos (by decide)]

/-- C6 (amended): for an image whose width W and height H are at most 2^31 - 1 and a region
with `i32` components, let x = max(0, x0), y = max(0, y0), w = min(w0, W - x),
h = min(h0, H - y).  `crop` returns `none` exactly when w <= 0 or h <= 0, and otherwise the
result has width w and height h. -/
theorem crop_clamping (image : CapturedImage) (region : Rect)
    (hw : image.width ≤ 2147483647) (hh : image.height ≤ 2147483647)
    (hreg : region.Representable) :
    (crop image region = none ↔
        (min region.width ((image.width : Int) - max 0 region.x) ≤ 0 ∨
          min region.height ((image.height : Int) - max 0 region.y) ≤ 0)) ∧
      (∀ res, crop image region = some res →
        (res.width : Int) = min region.width ((image.width : Int) - max 0 region.x) ∧
          (res.height : Int) = min region.height ((image.height : Int) - max 0 region.y)) := by
  have hclamp := cropClamp_of_range image region hw hh hreg
  obtain ⟨_, _, ⟨_, hrw⟩, ⟨_, hrh⟩⟩ := hreg
  simp only [crop, hclamp]
  by_cases hc : min region.width ((image.width : Int) - max 0 region.x) ≤ 0 ∨
      min region.height ((image.height : Int) - max 0 region.y) ≤ 0
  · rw [if_pos hc]
    exact ⟨⟨fun _ => hc, fun _ => rfl⟩, fun res hres => Option.noConfusion hres⟩
  · rw [if_neg hc]
    refine ⟨⟨fun h => Option.noConfusion h, fun h => absurd h hc⟩, ?_⟩
    intro res hres
    have hres2 := Option.some.inj hres
    rw [← hres2]
    have hpos : 0 < min region.width ((image.width : Int) - max 0 region.x) ∧
        0 < min region.height ((image.height : Int) - max 0 region.y) := by omega
    exact ⟨i32ToU32_of_nonneg (by omega) (by omega), i32ToU32_of_nonneg (by omega) (by omega)⟩

/-- Witness of C6: the region (90, 90, 50, 50) on the 100x100 image `gray100` is clamped, not
rejected, and the result is 10x10. -/
theorem crop_clamping_witness :
    gray100.width ≤ 2147483647 ∧ gray100.height ≤ 2147483647 ∧ cornerRegion.Representable ∧
      (crop gray100 cornerRegion).map (fun res => (res.width, res.height)) = some (10, 10) ∧
      ((crop gray100 cornerRegion = none ↔
        (min cornerRegion.width ((gray100.width : Int) - max 0 cornerRegion.x) ≤ 0 ∨
          min cornerRegion.height ((gray100.height : Int) - max 0 cornerRegion.y) ≤ 0)) ∧
      (∀ res, crop gray100 cornerRegion = some res →
        (res.width : Int) = min cornerRegion.width ((gray100.width : Int) - max 0 cornerRegion.x) ∧
          (res.height : Int) =
            min cornerRegion.height ((gray100.height : Int) - max 0 cornerRegion.y))) :=
  ⟨by decide, by decide, by decide, by decide,
    crop_clamping gray100 cornerRegion (by decide) (by decide) (by decide)⟩

/-- The part of C7 that holds: when the clamped origin of the region lies at or beyond the
right edge or the bottom edge of the image (max(0, x) >= W or max(0, y) >= H, which covers
every region entirely to the right of or below the image and every region on an image
without pixels), `crop` returns `none`. -/
theorem crop_outside_right_or_below (image : CapturedImage) (region : Rect)
    (hreg : region.Representable)
    (hout : (image.width : Int) ≤ max 0 region.x ∨ (image.height : Int) ≤ max 0 region.y) :
    crop image region = none := by
  obtain ⟨⟨hx1, hx2⟩, ⟨hy1, hy2⟩, _, _⟩ := hreg
  have hnone : (cropClamp image region).2.2.1 ≤ 0 ∨ (cropClamp image region).2.2.2 ≤ 0 := by
    rcases hout with h | h
    · left
      have hW : toI32 (image.width : Int) = image.width := toI32_of_range (by omega) (by omega)
      have hdx : toI32 ((image.width : Int) - max 0 region.x) = image.width - max 0 region.x :=
        toI32_of_range (by omega) (by omega)
      simp only [cropClamp, hW, hdx]
      omega
    · right
      have hH : toI32 (image.height : Int) = image.height :=
        toI32_of_range (by omega) (by omega)
      have hdy : toI32 ((image.height : Int) - max 0 region.y) =
          image.height - max 0 region.y := toI32_of_range (by omega) (by omega)
      simp only [cropClamp, hH, hdy]
      omega
  simp only [crop]
  rw [if_pos hnone]

/-- An instance of `crop_outside_right_or_below`: `rightRegion` starts at column 4 of the
4-column image `gray4x4`. -/
theorem crop_outside_right_or_below_witness :
    rightRegion.Representable ∧
      ((gray4x4.width : Int) ≤ max 0 rightRegion.x ∨
        (gray4x4.height : Int) ≤ max 0 rightRegion.y) ∧
      crop gray4x4 rightRegion = none :=
  ⟨by decide, by decide,
    crop_outside_right_or_below gray4x4 rightRegion (by decide) (by decide)⟩

/-- Witness of C4: the `Grayscale` image `gray4x4` does not convert to `BGRA8`. -/
theorem convertFormat_unsupported_source_witness :
    (gray4x4.format = CaptureFormat.RGB8 ∨ gray4x4.format = CaptureFormat.Grayscale) ∧
      CaptureFormat.BGRA8 ≠ gray4x4.format ∧
      convertFormat gray4x4 CaptureFormat.BGRA8 = none :=
  ⟨by decide, by decide,
    convertFormat_unsupported_source gray4x4 CaptureFormat.BGRA8 (by decide) (by decide)⟩

/-- Witness of C9: the `Grayscale` image `gray4x4` is not scaled to 2x2, and the `BGRA8` image
`bgraPair` is not scaled to width 0. -/
theorem scale_rejects_witness :
    (gray4x4.format = CaptureFormat.RGB8 ∨ gray4x4.format = CaptureFormat.Grayscale) ∧
      scale sampleZero gray4x4 2 2 = none ∧
      ((0 : Nat) = 0 ∨ (3 : Nat) = 0) ∧ scale sampleZero bgraPair 0 3 = none :=
  ⟨by decide, (scale_rejects sampleZero gray4x4 2 2).1 (by decide), by decide,
    (scale_rejects sampleZero bgraPair 0 3).2 (by decide)⟩

/-- C11 (counterexample): the 1x1 image `rgbaPixel` has data length = stride * height and
stride >= width * 4, and `scale` to 1073741824 x 1 (both values of type `u32`) is present;
its stride field is `1073741824 * 4` reduced to `u32`, that is 0, while its buffer holds
4294967296 bytes: the data length is not stride * height and the stride is below
width * bytesPerPixel. -/
theorem scale_wide_row_breaks_buffer_invariant :
    rgbaPixel.Representable ∧ rgbaPixel.data.length = rgbaPixel.stride * rgbaPixel.height ∧
      rgbaPixel.width * bytesPerPixel rgbaPixel.format ≤ rgbaPixel.stride ∧
      ∀ sample, ∃ res, scale sample rgbaPixel 1073741824 1 = some res ∧
        res.stride = 0 ∧ res.height = 1 ∧ res.width = 1073741824 ∧
        res.data.length = 4294967296 ∧ res.data.length ≠ res.stride * res.height ∧
        ¬ (res.width * bytesPerPixel res.format ≤ res.stride) := by
  refine ⟨by decide, by decide, by decide, fun sample => ?_⟩
  have hsome : (scale sample rgbaPixel 1073741824 1).isSome = true := by
    unfold scale
    rw [if_neg (by decide), if_neg (by decide)]
    rfl
  obtain ⟨res, hres⟩ := Option.isSome_iff_exists.mp hsome
  obtain ⟨hw, hh, hs, hf, hl⟩ := scale_fields sample rgbaPixel 1073741824 1 res hres
  have hs0 : u32 (1073741824 * 4) = 0 := by decide
  have hl0 : usize (usize (1073741824 * 1) * 4) = 4294967296 := by decide
  have hfmt : bytesPerPixel rgbaPixel.format = 4 := by decide
  rw [hs0] at hs
  rw [hl0] at hl
  refine ⟨res, hres, hs, hh, hw, hl, ?_, ?_⟩
  · rw [hl, hs, hh]
    decide
  · rw [hw, hf, hfmt, hs]
    decide

/-- C11 (amended): for every image with data length = stride * height and
stride >= width * bytesPerPixel, every present result of `convertFormat` (any target), of
`scale` (any `u32` size whose row of newWidth * 4 bytes fits `u32`, i.e.
newWidth * 4 < 2^32) and of `crop` (any region with `i32` components) has
data length = stride * height and stride >= width * bytesPerPixel, the fields being the `u32`
values the code computes. -/
theorem utilities_keep_buffer_invariant
    (sample : CapturedImage → Nat → Nat → Nat → Nat → Nat → Byte) (image : CapturedImage)
    (hrep : image.Representable) (hlen : image.data.length = image.stride * image.height)
    (hstride : image.width * bytesPerPixel image.format ≤ image.stride) :
    (∀ target res, convertFormat image target = some res →
        res.data.length = res.stride * res.height ∧
          res.width * bytesPerPixel res.format ≤ res.stride) ∧
      (∀ newWidth newHeight res, newWidth * 4 < 4294967296 → newHeight < 4294967296 →
        scale sample image newWidth newHeight = some res →
        res.data.length = res.stride * res.height ∧
          res.width * bytesPerPixel res.format ≤ res.stride) ∧
      (∀ region res, region.Representable → crop image region = some res →
        res.data.length = res.stride * res.height ∧
          res.width * bytesPerPixel res.format ≤ res.stride) :=
  ⟨fun target res h => convertFormat_buffer image hrep hlen hstride target res h,
    fun newWidth newHeight res hnw hnh h =>
      scale_buffer sample image newWidth newHeight hnw hnh res h,
    fun region res hreg h => crop_buffer image hrep hstride region hreg res h⟩

/-- Witness of C11 on `bgraPair`: its conversion to `RGB8`, its scaling to 3x2 and its crop
to the region (1, 0, 1, 1) are present and satisfy both properties. -/
theorem utilities_keep_buffer_invariant_witness :
    bgraPair.Representable ∧ bgraPair.data.length = bgraPair.stride * bgraPair.height ∧
      bgraPair.width * bytesPerPixel bgraPair.format ≤ bgraPair.stride ∧
      (convertFormat bgraPair CaptureFormat.RGB8).isSome = true ∧
      (scale sampleZero bgraPair 3 2).isSome = true ∧
      (crop bgraPair { x := 1, y := 0, width := 1, height := 1 }).isSome = true ∧
      ((∀ target res, convertFormat bgraPair target = some res →
          res.data.length = res.stride * res.height ∧
            res.width * bytesPerPixel res.format ≤ res.stride) ∧
        (∀ newWidth newHeight res, newWidth * 4 < 4294967296 → newHeight < 4294967296 →
          scale sampleZero bgraPair newWidth newHeight = some res →
          res.data.length = res.stride * res.height ∧
            res.width * bytesPerPixel res.format ≤ res.stride) ∧
        (∀ region res, region.Representable → crop bgraPair region = some res →
          res.data.length = res.stride * res.height ∧
            res.width * bytesPerPixel res.format ≤ res.stride)) :=
  ⟨by decide, by decide, by decide, by decide, by decide, by decide,
    utilities_keep_buffer_invariant sampleZero bgraPair (by decide) (by decide) (by decide)⟩

/-- C12: for every requested method and every platform, `create` returns a backend whose
method is `DXGI` exactly when the request is `Auto` or `DXGI` and `isMethodAvailable(DXGI)`
is true, and `BitBlt` otherwise; `create(Auto)` has the method `getBestMethod()`, which is
`BitBlt` where `DXGI` is not available. -/
theorem create_resolves_method (p : Platform) (method : CaptureMethod) :
    ((create p method).getMethod = CaptureMethod.DXGI ↔
        ((method = CaptureMethod.Auto ∨ method = CaptureMethod.DXGI) ∧
          isMethodAvailable p CaptureMethod.DXGI = true)) ∧
      ((create p method).getMethod = CaptureMethod.BitBlt ↔
        ¬ ((method = CaptureMethod.Auto ∨ method = CaptureMethod.DXGI) ∧
          isMethodAvailable p CaptureMethod.DXGI = true)) ∧
      (create p CaptureMethod.Auto).getMethod = getBestMethod p ∧
      (isMethodAvailable p CaptureMethod.DXGI = false →
        create p CaptureMethod.Auto = Backend.bitBlt {}) := by
  obtain ⟨win, v⟩ := p
  cases win <;> cases v <;> cases method <;> decide

/-- Witness of C12: on a platform that is not Windows, `DXGI` is not available and
`create(Auto)` is a fresh `BitBltCapture`. -/
theorem create_resolves_method_witness :
    isMethodAvailable { win32 := false, windows8OrLater := false } CaptureMethod.DXGI = false ∧
      create { win32 := false, windows8OrLater := false } CaptureMethod.Auto =
        Backend.bitBlt {} :=
  ⟨by decide,
    (create_resolves_method { win32 := false, windows8OrLater := false }
      CaptureMethod.Auto).2.2.2 (by decide)⟩

/-- C13: for both backends and every format `f` set with `setFormat`, every capture call
(`captureScreen`, `captureRegion`, `captureWindow`) that returns an image returns it with
format `f`.  The conversion of the native `BGRA8` frame never fails, so no capture hands
out a frame in another format. -/
theorem capture_returns_configured_format (b : BitBltCapture) (d : DXGICapture)
    (f : CaptureFormat) (screen region : Rect) (w : WindowOutcome) (bo : BlitOutcome)
    (fo : FrameOutcome) (image : CapturedImage) :
    ((BitBltCapture.captureScreen (BitBltCapture.setFormat b f) screen bo).ret = some image →
        image.format = f) ∧
      ((BitBltCapture.captureRegion (BitBltCapture.setFormat b f) region bo).ret = some image →
        image.format = f) ∧
      ((BitBltCapture.captureWindow (BitBltCapture.setFormat b f) w bo).ret = some image →
        image.format = f) ∧
      ((DXGICapture.captureScreen (DXGICapture.setFormat d f) fo).ret = some image →
        image.format = f) ∧
      ((DXGICapture.captureRegion (DXGICapture.setFormat d f) region fo).ret = some image →
        image.format = f) ∧
      ((DXGICapture.captureWindow (DXGICapture.setFormat d f) w fo).ret = some image →
        image.format = f) ∧
      (∀ native : CapturedImage, native.format = CaptureFormat.BGRA8 →
        ∃ converted, convertFormat native f = some converted ∧ converted.format = f) := by
  exact ⟨fun h => BitBltCapture.blit_captureScreen_format _ _ _ _ h,
    fun h => BitBltCapture.blit_captureRegion_format _ _ _ _ h,
    fun h => BitBltCapture.blit_captureWindow_format _ _ _ _ h,
    fun h => DXGICapture.acquireFrame_format _ _ _ h,
    fun h => DXGICapture.captureRegion_format _ _ _ _ h,
    fun h => DXGICapture.captureWindow_format _ _ _ _ h,
    fun native hn => convertFormat_of_bgra native f hn⟩

/-- Witness of C13: `readyBitBlt` set to `RGBA8` captures the 2x1 screen as an `RGBA8` image,
and `readyDXGI` set to `Grayscale` hands out the `Grayscale` frame `grayFrame`. -/
theorem capture_returns_configured_format_witness :
    (BitBltCapture.captureScreen (BitBltCapture.setFormat readyBitBlt CaptureFormat.RGBA8)
        smallScreen goodBlit).ret =
      some { data := [30, 20, 10, 40, 70, 60, 50, 80], width := 2, height := 1, stride := 8,
             format := CaptureFormat.RGBA8, timestamp := 0 } ∧
      (DXGICapture.captureScreen (DXGICapture.setFormat readyDXGI CaptureFormat.Grayscale)
          goodFrame).ret = some grayFrame ∧
      grayFrame.format = CaptureFormat.Grayscale :=
  ⟨by decide, by decide,
    (capture_returns_configured_format readyBitBlt readyDXGI CaptureFormat.Grayscale
      smallScreen smallScreen { handleIsNull := false, isWindow := false, windowRect := none }
      goodBlit goodFrame grayFrame).2.2.2.1 (by decide)⟩

/-- C14 (counterexample): `readyDXGI` is initialized; its acquisition reports access lost and
the recreation of the session fails.  `acquireFrame` returns no frame, but the instance
still reports `isInitialized() = true`, and a following `initialize()` whose platform calls
would all succeed returns true without any call and without acquiring a session. -/
theorem acquireFrame_failed_recreation_stays_initialized :
    readyDXGI.m_initialized = true ∧ lostFrame.first = AcquireResult.accessLost ∧
      (DXGICapture.initializeDuplication (DXGICapture.releaseDuplication readyDXGI).state
        lostFrame.recreate).ret = false ∧
      (DXGICapture.acquireFrame readyDXGI lostFrame).ret = none ∧
      (DXGICapture.acquireFrame readyDXGI lostFrame).state.m_initialized = true ∧
      DXGICapture.initialize (DXGICapture.acquireFrame readyDXGI lostFrame).state
          workingDevice =
        ⟨true, (DXGICapture.acquireFrame readyDXGI lostFrame).state, []⟩ ∧
      ( DXGICapture.initialize (DXGICapture.acquireFrame readyDXGI lostFrame).state
        workingDevice).state.m_duplication = none := by
  decide

/-- C14 (amended): when `acquireFrame` on an initialized instance with a live session sees
access lost and the recreation of the session fails, the call returns no frame and
afterwards the duplication handle and the staging texture are null, while the instance
stays initialized and keeps its device and context: a following `initialize()` returns true
without any platform call and without a change of state, and a following `acquireFrame`
returns no frame without any platform call. -/
theorem acquireFrame_failed_recreation (s : DXGICapture) (o : FrameOutcome) (dup : Handle)
    (hinit : s.m_initialized = true) (hdup : s.m_duplication = some dup)
    (hfirst : o.first = AcquireResult.accessLost)
    (hfail : (DXGICapture.initializeDuplication (DXGICapture.releaseDuplication s).state
      o.recreate).ret = false) :
    (DXGICapture.acquireFrame s o).ret = none ∧
      (DXGICapture.acquireFrame s o).state.m_initialized = true ∧
      (DXGICapture.acquireFrame s o).state.m_duplication = none ∧
      (DXGICapture.acquireFrame s o).state.m_stagingTexture = none ∧
      (DXGICapture.acquireFrame s o).state.m_device = s.m_device ∧
      (DXGICapture.acquireFrame s o).state.m_context = s.m_context ∧
      (∀ o2, DXGICapture.initialize (DXGICapture.acquireFrame s o).state o2 =
        ⟨true, (DXGICapture.acquireFrame s o).state, []⟩) ∧
      (∀ o3, DXGICapture.acquireFrame (DXGICapture.acquireFrame s o).state o3 =
        ⟨none, (DXGICapture.acquireFrame s o).state, []⟩) := by
  rw [DXGICapture.acquireFrame_lost_failed s o dup hdup hfirst hfail]
  obtain ⟨_, hkinit, _, hkdev, hkctx⟩ :=
    DXGICapture.initializeDuplication_keeps (DXGICapture.releaseDuplication s).state o.recreate
  obtain ⟨hnodup, hnotex⟩ := DXGICapture.initializeDuplication_failed
    (DXGICapture.releaseDuplication s).state o.recreate rfl rfl hfail
  have hinit2 : (DXGICapture.initializeDuplication (DXGICapture.releaseDuplication s).state
      o.recreate).state.m_initialized = true := by
    rw [hkinit]
    exact hinit
  refine ⟨rfl, hinit2, hnodup, hnotex, hkdev, hkctx, ?_, ?_⟩
  · intro o2
    unfold DXGICapture.initialize
    dsimp only
    rw [if_pos hinit2]
  · intro o3
    unfold DXGICapture.acquireFrame
    dsimp only
    rw [hnodup]

/-- Witness of C14 on `readyDXGI` and `lostFrame`. -/
theorem acquireFrame_failed_recreation_witness :
    readyDXGI.m_initialized = true ∧ readyDXGI.m_duplication = some 3 ∧
      lostFrame.first = AcquireResult.accessLost ∧
      (DXGICapture.initializeDuplication (DXGICapture.releaseDuplication readyDXGI).state
        lostFrame.recreate).ret = false ∧
      (DXGICapture.acquireFrame readyDXGI lostFrame).ret = none ∧
      (DXGICapture.acquireFrame readyDXGI lostFrame).state.m_initialized = true ∧
      (DXGICapture.acquireFrame readyDXGI lostFrame).state.m_duplication = none :=
  ⟨by decide, by decide, by decide, by decide,
    (acquireFrame_failed_recreation readyDXGI lostFrame 3 (by decide) (by decide) (by decide)
      (by decide)).1,
    (acquireFrame_failed_recreation readyDXGI lostFrame 3 (by decide) (by decide) (by decide)
      (by decide)).2.1,
    (acquireFrame_failed_recreation readyDXGI lostFrame 3 (by decide) (by decide) (by decide)
      (by decide)).2.2.1⟩

/-- C15: in every run of `acquireFrame`, for all outcomes of the platform calls, the number
of `ReleaseFrame` calls equals the number of `AcquireNextFrame` calls that succeeded (which
is at most one), and a run that acquired a frame ends with `ReleaseFrame`, whether the
texture query, the map or the whole read succeeded or failed. -/
theorem acquireFrame_releases_acquired_frames (s : DXGICapture) (o : FrameOutcome) :
    (DXGICapture.acquireFrame s o).calls.count PlatformCall.ReleaseFrame =
        (acquireResults (DXGICapture.acquireFrame s o).calls).count AcquireResult.ok ∧
      (acquireResults (DXGICapture.acquireFrame s o).calls).count AcquireResult.ok ≤ 1 ∧
      ((acquireResults (DXGICapture.acquireFrame s o).calls).count AcquireResult.ok = 1 →
        (DXGICapture.acquireFrame s o).calls.getLast? = some PlatformCall.ReleaseFrame) := by
  cases hdup : s.m_duplication with
  | none =>
    rw [DXGICapture.acquireFrame_no_session s o hdup]
    simp [acquireResults_nil]
  | some dup =>
    obtain ⟨hr1, hr2, _, _, _⟩ := DXGICapture.releaseDuplication_calls s
    obtain ⟨hi1, hi2, _, _, _⟩ := DXGICapture.initializeDuplication_calls
      (DXGICapture.releaseDuplication s).state o.recreate
    by_cases h1 : o.first = AcquireResult.waitTimeout
    · rw [DXGICapture.acquireFrame_timeout s o dup hdup h1]
      simp [acquireResults_nil, acquireResults_acquire]
    · by_cases h2 : o.first = AcquireResult.accessLost
      · cases hrec : (DXGICapture.initializeDuplication
            (DXGICapture.releaseDuplication s).state o.recreate).ret with
        | false =>
          rw [DXGICapture.acquireFrame_lost_failed s o dup hdup h2 hrec]
          simp [acquireResults_append, List.count_append, hr1, hr2, hi1, hi2, h2,
            acquireResults_nil, acquireResults_acquire]
        | true =>
          rw [DXGICapture.acquireFrame_lost_recreated s o dup hdup h2 hrec]
          obtain ⟨tail, hcalls, _, ht1, ht2, _, _, _, ht3, ht4⟩ :=
            DXGICapture.readFrame_calls
              (DXGICapture.initializeDuplication (DXGICapture.releaseDuplication s).state
                o.recreate).state o.second o
              ([PlatformCall.AcquireNextFrame o.first] ++
                (DXGICapture.releaseDuplication s).calls ++
                (DXGICapture.initializeDuplication (DXGICapture.releaseDuplication s).state
                  o.recreate).calls ++ [PlatformCall.AcquireNextFrame o.second])
          rw [hcalls]
          by_cases hok : o.second = AcquireResult.ok
          · refine ⟨?_, ?_, fun _ => getLast?_append_some _ _ _ (ht4 hok)⟩
            · simp [acquireResults_append, List.count_append, hr1, hr2, hi1, hi2, h2, ht1,
                ht2, hok, acquireResults_nil, acquireResults_acquire]
            · simp [acquireResults_append, List.count_append, hr1, hi1, h2, ht1,
                hok, acquireResults_nil, acquireResults_acquire]
          · have htail := (ht3 hok).1
            subst htail
            have hc : List.count AcquireResult.ok [o.second] = 0 :=
              List.count_eq_zero.mpr (by simpa using fun h => hok h.symm)
            simp [acquireResults_append, List.count_append, hr1, hr2, hi1, hi2, h2,
              hc, acquireResults_nil, acquireResults_acquire]
      · rw [DXGICapture.acquireFrame_direct s o dup hdup h1 h2]
        obtain ⟨tail, hcalls, _, ht1, ht2, _, _, _, ht3, ht4⟩ :=
          DXGICapture.readFrame_calls s o.first o [PlatformCall.AcquireNextFrame o.first]
        rw [hcalls]
        by_cases hok : o.first = AcquireResult.ok
        · refine ⟨?_, ?_, fun _ => getLast?_append_some _ _ _ (ht4 hok)⟩
          · simp [acquireResults_append, List.count_append, ht1, ht2, hok,
              acquireResults_nil, acquireResults_acquire]
          · simp [acquireResults_append, List.count_append, ht1, hok,
              acquireResults_nil, acquireResults_acquire]
        · have htail := (ht3 hok).1
          subst htail
          have hc : List.count AcquireResult.ok [o.first] = 0 :=
            List.count_eq_zero.mpr (by simpa using fun h => hok h.symm)
          simp [acquireResults_append, List.count_append, hc, acquireResults_nil,
            acquireResults_acquire]

/-- Witness of C15 on `readyDXGI` and `goodFrame`: one frame is acquired, one `ReleaseFrame`
is made, and it is the last call. -/
theorem acquireFrame_releases_acquired_frames_witness :
    (acquireResults (DXGICapture.acquireFrame readyDXGI goodFrame).calls).count
        AcquireResult.ok = 1 ∧
      (DXGICapture.acquireFrame readyDXGI goodFrame).calls.count PlatformCall.ReleaseFrame = 1 ∧
      (DXGICapture.acquireFrame readyDXGI goodFrame).calls.getLast? =
        some PlatformCall.ReleaseFrame :=
  ⟨by decide, by decide,
    (acquireFrame_releases_acquired_frames readyDXGI goodFrame).2.2 (by decide)⟩

/-- C16: when each of `n` consecutive `acquireFrame` calls gets a wait timeout, each call
returns no frame, the state of the instance after all calls is the state before them
(duplication handle, staging texture, output size and initialized flag included), and every
platform call made is an `AcquireNextFrame` that timed out: no `ReleaseFrame`, no release or
creation of a session or staging texture; on a live session there is exactly one such call
per `acquireFrame`. -/
theorem acquireFrames_timeouts_keep_session (s : DXGICapture) (os : List FrameOutcome)
    (htimeout : ∀ o ∈ os, o.first = AcquireResult.waitTimeout) :
    (DXGICapture.acquireFrames s os).ret = List.replicate os.length none ∧
      (DXGICapture.acquireFrames s os).state = s ∧
      (∀ c ∈ (DXGICapture.acquireFrames s os).calls,
        c = PlatformCall.AcquireNextFrame AcquireResult.waitTimeout) ∧
      (∀ dup, s.m_duplication = some dup →
        (DXGICapture.acquireFrames s os).calls =
          List.replicate os.length (PlatformCall.AcquireNextFrame AcquireResult.waitTimeout)) := by
  induction os with
  | nil =>
    exact ⟨rfl, rfl, fun c hc => (by cases hc), fun _ _ => rfl⟩
  | cons o os ih =>
    have hfirst : o.first = AcquireResult.waitTimeout := htimeout o (List.mem_cons_self _ _)
    obtain ⟨ih1, ih2, ih3, ih4⟩ := ih (fun o2 ho2 => htimeout o2 (List.mem_cons_of_mem _ ho2))
    cases hdup : s.m_duplication with
    | none =>
      have hrun := DXGICapture.acquireFrame_no_session s o hdup
      simp only [DXGICapture.acquireFrames, hrun]
      refine ⟨?_, ih2, ?_, ?_⟩
      · rw [ih1]
        rfl
      · intro c hc
        exact ih3 c (by simpa using hc)
      · intro dup hd
        exact Option.noConfusion hd
    | some dup =>
      have hrun := DXGICapture.acquireFrame_timeout s o dup hdup hfirst
      simp only [DXGICapture.acquireFrames, hrun]
      refine ⟨?_, ih2, ?_, ?_⟩
      · rw [ih1]
        rfl
      · intro c hc
        rcases List.mem_append.mp hc with h | h
        · exact List.mem_singleton.mp h
        · exact ih3 c h
      · intro dup2 _
        rw [ih4 dup hdup]
        rfl

/-- Witness of C16: three timeouts in a row on `readyDXGI`. -/
theorem acquireFrames_timeouts_keep_session_witness :
    (∀ o ∈ [timeoutFrame, timeoutFrame, timeoutFrame], o.first = AcquireResult.waitTimeout) ∧
      (DXGICapture.acquireFrames readyDXGI [timeoutFrame, timeoutFrame, timeoutFrame]).ret =
        [none, none, none] ∧
      (DXGICapture.acquireFrames readyDXGI [timeoutFrame, timeoutFrame, timeoutFrame]).state =
        readyDXGI :=
  ⟨by decide,
    (acquireFrames_timeouts_keep_session readyDXGI [timeoutFrame, timeoutFrame, timeoutFrame]
      (by decide)).1,
    (acquireFrames_timeouts_keep_session readyDXGI [timeoutFrame, timeoutFrame, timeoutFrame]
      (by decide)).2.1⟩

/-- C17: in every run of `acquireFrame`, `AcquireNextFrame` is called at most twice,
`DuplicateOutput` at most once and a staging texture is released at most once (the session
is torn down and recreated at most once; besides the session live at entry only a session
created in this run is released).  On a live session a second `AcquireNextFrame` happens
exactly when the first reported access lost and the recreation succeeded; when that second
call fails too, access lost included, the run returns no frame and the second
`AcquireNextFrame` is its last platform call. -/
theorem acquireFrame_retries_once (s : DXGICapture) (o : FrameOutcome) :
    (acquireResults (DXGICapture.acquireFrame s o).calls).length ≤ 2 ∧
      (DXGICapture.acquireFrame s o).calls.count PlatformCall.DuplicateOutput ≤ 1 ∧
      (DXGICapture.acquireFrame s o).calls.countP PlatformCall.isReleaseStagingTexture ≤ 1 ∧
      (DXGICapture.acquireFrame s o).calls.countP PlatformCall.isReleaseDuplication ≤
        1 + (DXGICapture.acquireFrame s o).calls.count PlatformCall.DuplicateOutput ∧
      (∀ dup, s.m_duplication = some dup →
        ((acquireResults (DXGICapture.acquireFrame s o).calls).length = 2 ↔
          (o.first = AcquireResult.accessLost ∧
            (DXGICapture.initializeDuplication (DXGICapture.releaseDuplication s).state
              o.recreate).ret = true))) ∧
      (∀ dup, s.m_duplication = some dup → o.first = AcquireResult.accessLost →
        (DXGICapture.initializeDuplication (DXGICapture.releaseDuplication s).state
          o.recreate).ret = true →
        o.second ≠ AcquireResult.ok →
        (DXGICapture.acquireFrame s o).ret = none ∧
          acquireResults (DXGICapture.acquireFrame s o).calls =
            [AcquireResult.accessLost, o.second] ∧
          (DXGICapture.acquireFrame s o).calls.getLast? =
            some (PlatformCall.AcquireNextFrame o.second)) := by
  cases hdup : s.m_duplication with
  | none =>
    rw [DXGICapture.acquireFrame_no_session s o hdup]
    simp [acquireResults_nil]
  | some dup =>
    obtain ⟨hr1, _, hr3, hr4, hr5⟩ := DXGICapture.releaseDuplication_calls s
    obtain ⟨hi1, _, hi3, hi4, hi5⟩ := DXGICapture.initializeDuplication_calls
      (DXGICapture.releaseDuplication s).state o.recreate
    by_cases h1 : o.first = AcquireResult.waitTimeout
    · rw [DXGICapture.acquireFrame_timeout s o dup hdup h1]
      simp [acquireResults_nil, acquireResults_acquire, h1,
        PlatformCall.isReleaseStagingTexture, PlatformCall.isReleaseDuplication]
    · by_cases h2 : o.first = AcquireResult.accessLost
      · cases hrec : (DXGICapture.initializeDuplication
            (DXGICapture.releaseDuplication s).state o.recreate).ret with
        | false =>
          rw [DXGICapture.acquireFrame_lost_failed s o dup hdup h2 hrec]
          refine ⟨?_, ?_, ?_, ?_, ?_, ?_⟩
          · simp [acquireResults_append, acquireResults_nil, acquireResults_acquire, hr1, hi1]
          · simp only [List.count_append, hr3]
            simp
            omega
          · simp only [List.countP_append, hi4]
            simp [PlatformCall.isReleaseStagingTexture]
            omega
          · simp only [List.countP_append, List.count_append, hr3]
            simp [PlatformCall.isReleaseDuplication]
            omega
          · intro dup2 _
            simp [acquireResults_append, acquireResults_nil, acquireResults_acquire, hr1, hi1]
          · intro dup2 _ _ hcontra
            exact Bool.noConfusion hcontra
        | true =>
          rw [DXGICapture.acquireFrame_lost_recreated s o dup hdup h2 hrec]
          obtain ⟨tail, hcalls, _, ht1, _, ht3, ht4, ht5, ht6, _⟩ :=
            DXGICapture.readFrame_calls
              (DXGICapture.initializeDuplication (DXGICapture.releaseDuplication s).state
                o.recreate).state o.second o
              ([PlatformCall.AcquireNextFrame o.first] ++
                (DXGICapture.releaseDuplication s).calls ++
                (DXGICapture.initializeDuplication (DXGICapture.releaseDuplication s).state
                  o.recreate).calls ++ [PlatformCall.AcquireNextFrame o.second])
          refine ⟨?_, ?_, ?_, ?_, ?_, ?_⟩
          · rw [hcalls]
            simp [acquireResults_append, acquireResults_nil, acquireResults_acquire, hr1, hi1,
              ht1]
          · rw [hcalls]
            simp only [List.count_append, hr3, ht3]
            simp
            omega
          · rw [hcalls]
            simp only [List.countP_append, hi4, ht4]
            simp [PlatformCall.isReleaseStagingTexture]
            omega
          · rw [hcalls]
            simp only [List.countP_append, List.count_append, hr3, ht3, ht5]
            simp [PlatformCall.isReleaseDuplication]
            omega
          · intro dup2 _
            rw [hcalls]
            simp [acquireResults_append, acquireResults_nil, acquireResults_acquire, hr1, hi1,
              ht1, h2]
          · intro dup2 _ _ _ hsecond
            obtain ⟨htail, hret⟩ := ht6 hsecond
            refine ⟨hret, ?_, ?_⟩
            · rw [hcalls, htail]
              simp [acquireResults_append, acquireResults_nil, acquireResults_acquire, hr1,
                hi1, h2]
            · rw [hcalls, htail, List.append_nil]
              exact getLast?_append_some _ _ _ rfl
      · rw [DXGICapture.acquireFrame_direct s o dup hdup h1 h2]
        obtain ⟨tail, hcalls, _, ht1, _, ht3, ht4, ht5, _, _⟩ :=
          DXGICapture.readFrame_calls s o.first o [PlatformCall.AcquireNextFrame o.first]
        rw [hcalls]
        refine ⟨?_, ?_, ?_, ?_, ?_, ?_⟩
        · simp [acquireResults_append, acquireResults_nil, acquireResults_acquire, ht1]
        · simp only [List.count_append, ht3]
          simp
        · simp only [List.countP_append, ht4]
          simp [PlatformCall.isReleaseStagingTexture]
        · simp only [List.countP_append, List.count_append, ht3, ht5]
          simp [PlatformCall.isReleaseDuplication]
        · intro dup2 _
          simp [acquireResults_append, acquireResults_nil, acquireResults_acquire, ht1, h2]
        · intro dup2 _ hcontra
          exact absurd hcontra h2

/-- Witness of C17 on `readyDXGI` and `twiceLostFrame`: access lost, a successful
recreation, access lost again; the run stops after the second `AcquireNextFrame`. -/
theorem acquireFrame_retries_once_witness :
    readyDXGI.m_duplication = some 3 ∧ twiceLostFrame.first = AcquireResult.accessLost ∧
      (DXGICapture.initializeDuplication (DXGICapture.releaseDuplication readyDXGI).state
        twiceLostFrame.recreate).ret = true ∧
      twiceLostFrame.second ≠ AcquireResult.ok ∧
      ((DXGICapture.acquireFrame readyDXGI twiceLostFrame).ret = none ∧
        acquireResults (DXGICapture.acquireFrame readyDXGI twiceLostFrame).calls =
          [AcquireResult.accessLost, twiceLostFrame.second] ∧
        (DXGICapture.acquireFrame readyDXGI twiceLostFrame).calls.getLast? =
          some (PlatformCall.AcquireNextFrame twiceLostFrame.second)) :=
  ⟨by decide, by decide, by decide, by decide,
    (acquireFrame_retries_once readyDXGI twiceLostFrame).2.2.2.2.2 3 (by decide) (by decide)
      (by decide) (by decide)⟩

/-- C18: for both backends, `initialize()` on an instance whose `isInitialized()` is true
returns true, makes no platform call and leaves every field of the instance unchanged. -/
theorem initialize_idempotent (b : BitBltCapture) (d : DXGICapture) (gdi : GdiOutcome)
    (dev : DeviceOutcome) :
    (b.m_initialized = true → BitBltCapture.initialize b gdi = ⟨true, b, []⟩) ∧
      (d.m_initialized = true → DXGICapture.initialize d dev = ⟨true, d, []⟩) := by
  constructor
  · intro h
    unfold BitBltCapture.initialize
    rw [if_pos h]
  · intro h
    unfold DXGICapture.initialize
    rw [if_pos h]

/-- Witness of C18 on `readyBitBlt` and `readyDXGI`, with platform calls that would all
succeed. -/
theorem initialize_idempotent_witness :
    readyBitBlt.m_initialized = true ∧ readyDXGI.m_initialized = true ∧
      BitBltCapture.initialize readyBitBlt { screenDC := some 9, memoryDC := some 10 } =
        ⟨true, readyBitBlt, []⟩ ∧
      DXGICapture.initialize readyDXGI workingDevice = ⟨true, readyDXGI, []⟩ :=
  ⟨by decide, by decide,
    (initialize_idempotent readyBitBlt readyDXGI { screenDC := some 9, memoryDC := some 10 }
      workingDevice).1 (by decide),
    (initialize_idempotent readyBitBlt readyDXGI { screenDC := some 9, memoryDC := some 10 }
      workingDevice).2 (by decide)⟩

/-- C19: for both backends and all outcomes of the platform calls, an `initialize()` that
returns false on an instance that is not initialized and holds no session handle leaves it
not initialized and without session handle (`BitBltCapture`: screen DC and memory DC null,
every field as before; `DXGICapture`: device, context, duplication handle and staging
texture null, format and monitor index as before), and a later `initialize()` runs on it as
on the instance before the failed call: same return value, same platform calls and, when it
succeeds, same state. -/
theorem failed_initialize_leaves_clean (b : BitBltCapture) (d : DXGICapture)
    (gdi : GdiOutcome) (dev : DeviceOutcome) :
    (b.m_initialized = false → b.m_screenDC = none → b.m_memoryDC = none →
        ( BitBltCapture.initialize b gdi).ret = false →
        ( BitBltCapture.initialize b gdi).state.m_initialized = false ∧
          ( BitBltCapture.initialize b gdi).state.m_screenDC = none ∧
          ( BitBltCapture.initialize b gdi).state.m_memoryDC = none ∧
          ( BitBltCapture.initialize b gdi).state = b) ∧
      (d.m_initialized = false → d.m_device = none → d.m_context = none →
        d.m_duplication = none → d.m_stagingTexture = none →
        ( DXGICapture.initialize d dev).ret = false →
        ( DXGICapture.initialize d dev).state.m_initialized = false ∧
          ( DXGICapture.initialize d dev).state.m_device = none ∧
          ( DXGICapture.initialize d dev).state.m_context = none ∧
          ( DXGICapture.initialize d dev).state.m_duplication = none ∧
          ( DXGICapture.initialize d dev).state.m_stagingTexture = none ∧
          ( DXGICapture.initialize d dev).state.m_format = d.m_format ∧
          ( DXGICapture.initialize d dev).state.m_monitorIndex = d.m_monitorIndex ∧
          ∀ later : DeviceOutcome,
            ( DXGICapture.initialize ( DXGICapture.initialize d dev).state later).ret =
                ( DXGICapture.initialize d later).ret ∧
              ( DXGICapture.initialize ( DXGICapture.initialize d dev).state later).calls =
                ( DXGICapture.initialize d later).calls ∧
              (( DXGICapture.initialize d later).ret = true →
                ( DXGICapture.initialize ( DXGICapture.initialize d dev).state later).state =
                  ( DXGICapture.initialize d later).state)) := by
  constructor
  · intro hinit hscreen hmem hret
    have hstate : ( BitBltCapture.initialize b gdi).state = b := by
      obtain ⟨init, fmt, screenDC, memoryDC, bitmap, info⟩ := b
      simp only at hinit hscreen hmem
      subst hinit hscreen hmem
      obtain ⟨sdc, mdc⟩ := gdi
      cases sdc <;> cases mdc <;> first | rfl | exact Bool.noConfusion hret
    rw [hstate]
    exact ⟨hinit, hscreen, hmem, rfl⟩
  · intro hinit hdev hctx hdup htex hret
    obtain ⟨width, height, hstate⟩ :=
      DXGICapture.initialize_failed d dev hinit hdev hctx hdup htex hret
    rw [hstate]
    refine ⟨hinit, hdev, hctx, hdup, htex, rfl, rfl, fun later => ?_⟩
    obtain ⟨h1, h2, h3⟩ := DXGICapture.initialize_ignores_size d width height later
    exact ⟨h1, h2, fun hr => h3 hr hinit⟩

/-- Witness of C19: on a fresh `BitBltCapture` a failing `CreateCompatibleDC`, and on a fresh
`DXGICapture` a failing `CreateTexture2D`, make `initialize()` return false and leave the
instance without handle. -/
theorem failed_initialize_leaves_clean_witness :
    ( BitBltCapture.initialize {} { screenDC := some 1, memoryDC := none }).ret = false ∧
      ( BitBltCapture.initialize {} { screenDC := some 1, memoryDC := none }).state = {} ∧
      ( DXGICapture.initialize {}
        { device := some (7, 8),
          duplication := { workingDuplication with stagingTexture := none } }).ret = false ∧
      ( DXGICapture.initialize {}
        { device := some (7, 8),
          duplication := { workingDuplication with stagingTexture := none } }).state.m_duplication
        = none :=
  ⟨by decide,
    ((failed_initialize_leaves_clean {} {} { screenDC := some 1, memoryDC := none }
      { device := some (7, 8),
        duplication := { workingDuplication with stagingTexture := none } }).1
      (by decide) (by decide) (by decide) (by decide)).2.2.2,
    by decide,
    ((failed_initialize_leaves_clean {} {} { screenDC := some 1, memoryDC := none }
      { device := some (7, 8),
        duplication := { workingDuplication with stagingTexture := none } }).2
      (by decide) (by decide) (by decide) (by decide) (by decide) (by decide)).2.2.2.1⟩

/-- C20: for both backends, `shutdown()` on an initialized instance leaves
`isInitialized()` false and every session handle null (`BitBltCapture`: retained bitmap,
memory DC, screen DC; `DXGICapture`: staging texture, duplication handle, context, device),
its platform calls are exactly one release for each handle that was held, in that order,
and the configuration is kept; a second `shutdown()`, and a `shutdown()` on an instance that
is not initialized, make no platform call and change no field. -/
theorem shutdown_releases_everything (b : BitBltCapture) (d : DXGICapture) :
    (b.m_initialized = true →
        (BitBltCapture.shutdown b).state =
            { b with m_initialized := false, m_bitmap := none, m_memoryDC := none,
                     m_screenDC := none } ∧
          (BitBltCapture.shutdown b).calls =
            b.m_bitmap.toList.map PlatformCall.DeleteObject ++
              b.m_memoryDC.toList.map PlatformCall.DeleteDC ++
              b.m_screenDC.toList.map PlatformCall.ReleaseDC ∧
          (∀ h, b.m_bitmap = some h →
            (BitBltCapture.shutdown b).calls.count (PlatformCall.DeleteObject h) = 1) ∧
          (∀ h, b.m_memoryDC = some h →
            (BitBltCapture.shutdown b).calls.count (PlatformCall.DeleteDC h) = 1) ∧
          (∀ h, b.m_screenDC = some h →
            (BitBltCapture.shutdown b).calls.count (PlatformCall.ReleaseDC h) = 1) ∧
          BitBltCapture.shutdown (BitBltCapture.shutdown b).state =
            ⟨(), (BitBltCapture.shutdown b).state, []⟩) ∧
      (b.m_initialized = false → BitBltCapture.shutdown b = ⟨(), b, []⟩) ∧
      (d.m_initialized = true →
        (DXGICapture.shutdown d).state =
            { d with m_initialized := false, m_stagingTexture := none, m_duplication := none,
                     m_context := none, m_device := none } ∧
          (DXGICapture.shutdown d).calls =
            d.m_stagingTexture.toList.map PlatformCall.ReleaseStagingTexture ++
              d.m_duplication.toList.map PlatformCall.ReleaseDuplication ++
              d.m_context.toList.map PlatformCall.ReleaseContext ++
              d.m_device.toList.map PlatformCall.ReleaseDevice ∧
          (∀ h, d.m_stagingTexture = some h →
            (DXGICapture.shutdown d).calls.count (PlatformCall.ReleaseStagingTexture h) = 1) ∧
          (∀ h, d.m_duplication = some h →
            (DXGICapture.shutdown d).calls.count (PlatformCall.ReleaseDuplication h) = 1) ∧
          (∀ h, d.m_context = some h →
            (DXGICapture.shutdown d).calls.count (PlatformCall.ReleaseContext h) = 1) ∧
          (∀ h, d.m_device = some h →
            (DXGICapture.shutdown d).calls.count (PlatformCall.ReleaseDevice h) = 1) ∧
          DXGICapture.shutdown (DXGICapture.shutdown d).state =
            ⟨(), (DXGICapture.shutdown d).state, []⟩) ∧
      (d.m_initialized = false → DXGICapture.shutdown d = ⟨(), d, []⟩) := by
  refine ⟨?_, ?_, ?_, ?_⟩
  · intro hinit
    obtain ⟨init, fmt, screenDC, memoryDC, bitmap, info⟩ := b
    simp only at hinit
    subst hinit
    cases screenDC <;> cases memoryDC <;> cases bitmap <;>
      simp [BitBltCapture.shutdown]
  · intro hinit
    unfold BitBltCapture.shutdown
    rw [if_pos (by rw [hinit]; rfl)]
  · intro hinit
    obtain ⟨init, fmt, mon, dev, ctx, dup, tex, w, h⟩ := d
    simp only at hinit
    subst hinit
    cases dev <;> cases ctx <;> cases dup <;> cases tex <;>
      simp [DXGICapture.shutdown, DXGICapture.releaseDuplication]
  · intro hinit
    unfold DXGICapture.shutdown
    rw [if_pos (by rw [hinit]; rfl)]

/-- Witness of C20 on `readyBitBlt` and `readyDXGI`. -/
theorem shutdown_releases_everything_witness :
    readyBitBlt.m_initialized = true ∧ readyDXGI.m_initialized = true ∧
      (BitBltCapture.shutdown readyBitBlt).calls =
        [PlatformCall.DeleteObject 3, PlatformCall.DeleteDC 2, PlatformCall.ReleaseDC 1] ∧
      (DXGICapture.shutdown readyDXGI).calls =
        [PlatformCall.ReleaseStagingTexture 4, PlatformCall.ReleaseDuplication 3,
          PlatformCall.ReleaseContext 2, PlatformCall.ReleaseDevice 1] ∧
      (BitBltCapture.shutdown readyBitBlt).state =
        { readyBitBlt with m_initialized := false, m_bitmap := none, m_memoryDC := none,
                           m_screenDC := none } ∧
      (DXGICapture.shutdown readyDXGI).state =
        { readyDXGI with m_initialized := false, m_stagingTexture := none,
                         m_duplication := none, m_context := none, m_device := none } :=
  ⟨by decide, by decide, by decide, by decide,
    ((shutdown_releases_everything readyBitBlt readyDXGI).1 (by decide)).1,
    ((shutdown_releases_everything readyBitBlt readyDXGI).2.2.1 (by decide)).1⟩

/-- C21 (failing input): `readyDXGI` acquires the frame `goodFrame` while the window is gone
(`IsWindow` answers false); `captureWindow` of the duplication backend is not absent, it
returns the whole 2x1 frame of the output.  For the same window `captureWindow` of
`readyBitBlt` returns absent. -/
theorem captureWindow_gone_window_full_frame :
    goneWindow.isWindow = false ∧
      (DXGICapture.captureWindow readyDXGI goneWindow goodFrame).ret =
        some { data := [10, 20, 30, 40, 50, 60, 70, 80], width := 2, height := 1, stride := 8,
               format := CaptureFormat.BGRA8, timestamp := 0 } ∧
      (BitBltCapture.captureWindow readyBitBlt goneWindow goodBlit).ret = none := by
  decide

/-- The two backends on a vanished window: for a window reference that is null or does not
refer to an existing window (`IsWindow` fails or `GetWindowRect` fails), `captureWindow` of
`BitBltCapture` returns absent without changing the instance, while `captureWindow` of
`DXGICapture` returns what `captureScreen` returns: absent when no frame is acquired,
otherwise the whole frame of the output, not cropped. -/
theorem captureWindow_vanished_window (b : BitBltCapture) (d : DXGICapture)
    (w : WindowOutcome) (bo : BlitOutcome) (fo : FrameOutcome)
    (hgone : w.handleIsNull = true ∨ w.isWindow = false ∨ w.windowRect = none) :
    (BitBltCapture.captureWindow b w bo).ret = none ∧
      (BitBltCapture.captureWindow b w bo).state = b ∧
      (w.isWindow = false ∨ w.windowRect = none →
        (DXGICapture.captureWindow d w fo).ret = (DXGICapture.captureScreen d fo).ret ∧
          (DXGICapture.captureWindow d w fo).state = (DXGICapture.captureScreen d fo).state) := by
  obtain ⟨hn, iw, wr⟩ := w
  refine ⟨?_, ?_, ?_⟩
  · unfold BitBltCapture.captureWindow
    cases hb : b.m_initialized <;> cases hn <;> cases iw <;> cases wr <;> simp_all
  · unfold BitBltCapture.captureWindow
    cases hb : b.m_initialized <;> cases hn <;> cases iw <;> cases wr <;> simp_all
  · intro hw
    unfold DXGICapture.captureWindow
    cases hr : (DXGICapture.captureScreen d fo).ret <;> cases iw <;> cases wr <;> simp_all

/-- C22: for every state of a `BitBltCapture` (initialized or not) and every region whose
width or height is 0 or negative, `captureRegion` returns absent, makes no platform call (no
bitmap is created, deleted or selected and nothing is copied from the screen), and leaves
the instance, with its retained bitmap, as it was. -/
theorem captureRegion_rejects_empty_region (s : BitBltCapture) (region : Rect)
    (o : BlitOutcome) (hempty : region.width ≤ 0 ∨ region.height ≤ 0) :
    (BitBltCapture.captureRegion s region o).ret = none ∧
      (BitBltCapture.captureRegion s region o).calls = [] ∧
      (BitBltCapture.captureRegion s region o).state = s ∧
      (BitBltCapture.captureRegion s region o).state.m_bitmap = s.m_bitmap := by
  unfold BitBltCapture.captureRegion
  cases hinit : s.m_initialized
  · simp
  · simp [hempty]

/-- Witness of C22: `readyBitBlt` retains bitmap 3 and keeps it when asked for a region of
width 0. -/
theorem captureRegion_rejects_empty_region_witness :
    emptyRegion.width ≤ 0 ∧
      (BitBltCapture.captureRegion readyBitBlt emptyRegion goodBlit).ret = none ∧
      (BitBltCapture.captureRegion readyBitBlt emptyRegion goodBlit).calls = [] ∧
      (BitBltCapture.captureRegion readyBitBlt emptyRegion goodBlit).state.m_bitmap = some 3 :=
  ⟨by decide,
    (captureRegion_rejects_empty_region readyBitBlt emptyRegion goodBlit
      (Or.inl (by decide))).1,
    (captureRegion_rejects_empty_region readyBitBlt emptyRegion goodBlit
      (Or.inl (by decide))).2.1,
    (captureRegion_rejects_empty_region readyBitBlt emptyRegion goodBlit
      (Or.inl (by decide))).2.2.2⟩

/-- C23: for every `DXGICapture` state and every region, `captureRegion` is the screen capture
followed by a crop: it is absent when `captureScreen` is absent and otherwise is
`crop frame region` for the frame `captureScreen` returned.  `captureScreen` is one run of
`acquireFrame`, and the platform calls and the final state of `captureRegion` are those of
that single run. -/
theorem captureRegion_is_capture_then_crop (s : DXGICapture) (region : Rect)
    (o : FrameOutcome) :
    DXGICapture.captureRegion s region o = captureScreenThenCrop s region o ∧
      DXGICapture.captureScreen s o = DXGICapture.acquireFrame s o ∧
      ((DXGICapture.captureScreen s o).ret = none →
        (DXGICapture.captureRegion s region o).ret = none) ∧
      (∀ frame, (DXGICapture.captureScreen s o).ret = some frame →
        (DXGICapture.captureRegion s region o).ret = crop frame region) ∧
      (DXGICapture.captureRegion s region o).calls = (DXGICapture.acquireFrame s o).calls ∧
      (DXGICapture.captureRegion s region o).state = (DXGICapture.acquireFrame s o).state := by
  have hscreen : DXGICapture.captureScreen s o = DXGICapture.acquireFrame s o := rfl
  unfold DXGICapture.captureRegion captureScreenThenCrop
  dsimp only
  rw [hscreen]
  generalize DXGICapture.acquireFrame s o = r
  obtain ⟨ret, st, calls⟩ := r
  cases ret with
  | none =>
    refine ⟨rfl, rfl, fun _ => rfl, ?_, rfl, rfl⟩
    intro frame h
    dsimp only at h
    exact absurd h (Option.some_ne_none frame).symm
  | some frame =>
    refine ⟨?_, rfl, ?_, ?_, rfl, rfl⟩
    · rw [Option.some_bind]
    · intro h
      dsimp only at h
      exact absurd h (Option.some_ne_none frame)
    · intro frame2 h
      dsimp only at h
      have hf : frame = frame2 := Option.some.inj h
      rw [hf]

/-- C27: for all bytes R, G, B the luma floor((R * 299 + G * 587 + B * 114) / 1000) lies
between the smallest and the largest of the three; hence it is at most 255, the cast to a
byte in `luma` loses nothing, and a grey pixel R = G = B = v has luma v. -/
theorem luma_within_channel_range (r g b v : Byte) :
    (luma r g b).val = (r.val * 299 + g.val * 587 + b.val * 114) / 1000 ∧
      min r.val (min g.val b.val) ≤ (luma r g b).val ∧
      (luma r g b).val ≤ max r.val (max g.val b.val) ∧
      (r.val * 299 + g.val * 587 + b.val * 114) / 1000 ≤ 255 ∧
      luma v v v = v := by
  have hr := r.isLt
  have hg := g.isLt
  have hb := b.isLt
  have hv := v.isLt
  have h1 := luma_val r g b
  have h2 := luma_val v v v
  refine ⟨h1, ?_, ?_, ?_, ?_⟩
  · rw [h1]; omega
  · rw [h1]; omega
  · omega
  · apply Fin.ext
    rw [h2]; omega

/-- C28: for a `BGRA8` image whose data holds at least width * height * 4 bytes, the
conversion to `RGBA8` followed by the conversion to `Grayscale` gives the same image (data,
width, height, stride, format and timestamp) as the direct conversion to `Grayscale`;
likewise for an `RGBA8` image going through `BGRA8`. -/
theorem grayscale_commutes_with_swap (image : CapturedImage) (hrep : image.Representable)
    (hlen : image.width * image.height * 4 ≤ image.data.length) :
    (image.format = CaptureFormat.BGRA8 →
        ∃ mid res, convertFormat image CaptureFormat.RGBA8 = some mid ∧
          convertFormat mid CaptureFormat.Grayscale = some res ∧
          convertFormat image CaptureFormat.Grayscale = some res) ∧
      (image.format = CaptureFormat.RGBA8 →
        ∃ mid res, convertFormat image CaptureFormat.BGRA8 = some mid ∧
          convertFormat mid CaptureFormat.Grayscale = some res ∧
          convertFormat image CaptureFormat.Grayscale = some res) := by
  obtain ⟨hw, hh, _, _, hd⟩ := hrep
  have hcount : usize (image.width * image.height) = image.width * image.height :=
    usize_mul_u32 hw hh
  have hn : image.width * image.height * 4 < 18446744073709551616 := by omega
  obtain ⟨hg1, hg2⟩ := gray_of_swapRedBlue image.data (image.width * image.height) hn
  constructor
  · intro hf
    refine ⟨{ data := swapRedBlue image.data (image.width * image.height)
              width := image.width
              height := image.height
              stride := u32 (image.width * 4)
              format := CaptureFormat.RGBA8
              timestamp := image.timestamp },
      { data := bgraToGray image.data (image.width * image.height)
        width := image.width
        height := image.height
        stride := image.width
        format := CaptureFormat.Grayscale
        timestamp := image.timestamp }, ?_, ?_, ?_⟩
    · simp [convertFormat, hf, hcount]
    · simp [convertFormat, hcount, hg1]
    · simp [convertFormat, hf, hcount]
  · intro hf
    refine ⟨{ data := swapRedBlue image.data (image.width * image.height)
              width := image.width
              height := image.height
              stride := u32 (image.width * 4)
              format := CaptureFormat.BGRA8
              timestamp := image.timestamp },
      { data := rgbaToGray image.data (image.width * image.height)
        width := image.width
        height := image.height
        stride := image.width
        format := CaptureFormat.Grayscale
        timestamp := image.timestamp }, ?_, ?_, ?_⟩
    · simp [convertFormat, hf, hcount]
    · simp [convertFormat, hcount, hg2]
    · simp [convertFormat, hf, hcount]

/-- Witness of C28 on `bgraPair`: through `RGBA8` or directly, the grayscale image has the
bytes 21 and 61. -/
theorem grayscale_commutes_with_swap_witness :
    bgraPair.Representable ∧ bgraPair.width * bgraPair.height * 4 ≤ bgraPair.data.length ∧
      bgraPair.format = CaptureFormat.BGRA8 ∧
      (convertFormat bgraPair CaptureFormat.Grayscale).map (fun res => res.data) =
        some [21, 61] ∧
      ∃ mid res, convertFormat bgraPair CaptureFormat.RGBA8 = some mid ∧
        convertFormat mid CaptureFormat.Grayscale = some res ∧
        convertFormat bgraPair CaptureFormat.Grayscale = some res :=
  ⟨by decide, by decide, by decide, by decide,
    (grayscale_commutes_with_swap bgraPair (by decide) (by decide)).1 (by decide)⟩

/-- C26: `convertFormat` reads its source as tightly packed and never uses `stride`.  For two
`BGRA8` (or two `RGBA8`) images with the same width, height and timestamp and every target
format other than the source format: (1) if the first width * height * 4 bytes of the two
buffers agree, the two conversions give the same result, whatever the strides and the
remaining bytes are; (2) output pixel `i` depends on the source bytes `4 * i .. 4 * i + 3`
only; (3) for a row-padded image (stride > width * 4) and a row `y >= 1`, the first source
byte of output pixel `y * width + x` lies strictly before byte offset `y * stride + x * 4`,
where pixel (x, y) of the padded image is stored. -/
theorem convertFormat_ignores_stride (a b : CapturedImage) (target : CaptureFormat)
    (hfmt : a.format = CaptureFormat.BGRA8 ∨ a.format = CaptureFormat.RGBA8)
    (hsame : b.format = a.format) (htarget : target ≠ a.format)
    (hw : b.width = a.width) (hh : b.height = a.height)
    (hts : b.timestamp = a.timestamp) :
    (a.data.take (a.width * a.height * 4) = b.data.take (a.width * a.height * 4) →
        convertFormat a target = convertFormat b target) ∧
      (a.width * a.height * 4 < 18446744073709551616 →
        ∀ ra rb, convertFormat a target = some ra → convertFormat b target = some rb →
          ∀ i, i < a.width * a.height →
            (∀ k, k < 4 → readByte a.data (i * 4 + k) = readByte b.data (i * 4 + k)) →
            ∀ k, k < bytesPerPixel target →
              ra.data[i * bytesPerPixel target + k]? =
                rb.data[i * bytesPerPixel target + k]?) ∧
      (∀ x y, 1 ≤ y → a.width * 4 < a.stride →
        (y * a.width + x) * 4 < y * a.stride + x * 4) := by
  refine ⟨?_, ?_, ?_⟩
  · intro hdata
    have hread : ∀ j, j < a.width * a.height * 4 → readByte a.data j = readByte b.data j := by
      intro j hj
      have h1 : (a.data.take (a.width * a.height * 4))[j]? = a.data[j]? :=
        List.getElem?_take_of_lt hj
      have h2 : (b.data.take (a.width * a.height * 4))[j]? = b.data[j]? :=
        List.getElem?_take_of_lt hj
      rw [hdata, h2] at h1
      simp only [readByte, List.getD_eq_getElem?_getD, h1]
    have hn : ∀ j, j < usize (a.width * a.height) * 4 →
        readByte a.data j = readByte b.data j :=
      fun j hj => hread j (lt_of_lt_of_le hj (Nat.mul_le_mul_right 4 (usize_le _)))
    have e1 := swapRedBlue_congr a.data b.data _ hn
    have e2 := bgraToRgb_congr a.data b.data _ hn
    have e3 := bgraToGray_congr a.data b.data _ hn
    have e4 := rgbaToGray_congr a.data b.data _ hn
    simp only [convertFormat, hsame, hw, hh, hts, e1, e2, e3, e4]
    rw [if_neg (Ne.symm htarget), if_neg (Ne.symm htarget)]
  · intro hn ra rb hra hrb i hi hagree k hk
    have hcount : usize (a.width * a.height) = a.width * a.height := usize_of_lt (by omega)
    have r0 : readByte a.data (i * 4) = readByte b.data (i * 4) := hagree 0 (by omega)
    have r1 := hagree 1 (by omega)
    have r2 := hagree 2 (by omega)
    have r3 := hagree 3 (by omega)
    obtain ⟨_, sa⟩ := swapRedBlue_spec a.data (a.width * a.height) hn
    obtain ⟨_, sb⟩ := swapRedBlue_spec b.data (a.width * a.height) hn
    obtain ⟨_, ca⟩ := bgraToRgb_spec a.data (a.width * a.height) hn
    obtain ⟨_, cb⟩ := bgraToRgb_spec b.data (a.width * a.height) hn
    obtain ⟨_, ga⟩ := bgraToGray_spec a.data (a.width * a.height) hn
    obtain ⟨_, gb⟩ := bgraToGray_spec b.data (a.width * a.height) hn
    obtain ⟨_, ha⟩ := rgbaToGray_spec a.data (a.width * a.height) hn
    obtain ⟨_, hb⟩ := rgbaToGray_spec b.data (a.width * a.height) hn
    obtain ⟨sa0, sa1, sa2, sa3⟩ := sa i hi
    obtain ⟨sb0, sb1, sb2, sb3⟩ := sb i hi
    obtain ⟨ca0, ca1, ca2⟩ := ca i hi
    obtain ⟨cb0, cb1, cb2⟩ := cb i hi
    have ga0 := ga i hi
    have gb0 := gb i hi
    have ha0 := ha i hi
    have hb0 := hb i hi
    simp only [r0, r1, r2, r3] at ga0 ha0 ca0 ca1 ca2 sa0 sa1 sa2 sa3
    rcases hfmt with hf | hf
    · cases target with
      | BGRA8 => exact absurd hf.symm htarget
      | RGBA8 =>
        simp [convertFormat, hf, hsame, hw, hh, hcount] at hra hrb
        rw [← hra, ← hrb]
        have hk4 : k < 4 := hk
        show (swapRedBlue a.data _)[i * 4 + k]? = (swapRedBlue b.data _)[i * 4 + k]?
        interval_cases k
        · rw [Nat.add_zero, sa0, sb0]
        · rw [sa1, sb1]
        · rw [sa2, sb2]
        · rw [sa3, sb3]
      | RGB8 =>
        simp [convertFormat, hf, hsame, hw, hh, hcount] at hra hrb
        rw [← hra, ← hrb]
        have hk3 : k < 3 := hk
        show (bgraToRgb a.data _)[i * 3 + k]? = (bgraToRgb b.data _)[i * 3 + k]?
        interval_cases k
        · rw [Nat.add_zero, ca0, cb0]
        · rw [ca1, cb1]
        · rw [ca2, cb2]
      | Grayscale =>
        simp [convertFormat, hf, hsame, hw, hh, hcount] at hra hrb
        rw [← hra, ← hrb]
        have hk1 : k < 1 := hk
        show (bgraToGray a.data _)[i * 1 + k]? = (bgraToGray b.data _)[i * 1 + k]?
        interval_cases k
        rw [Nat.add_zero, Nat.mul_one, ga0, gb0]
    · cases target with
      | RGBA8 => exact absurd hf.symm htarget
      | BGRA8 =>
        simp [convertFormat, hf, hsame, hw, hh, hcount] at hra hrb
        rw [← hra, ← hrb]
        have hk4 : k < 4 := hk
        show (swapRedBlue a.data _)[i * 4 + k]? = (swapRedBlue b.data _)[i * 4 + k]?
        interval_cases k
        · rw [Nat.add_zero, sa0, sb0]
        · rw [sa1, sb1]
        · rw [sa2, sb2]
        · rw [sa3, sb3]
      | RGB8 =>
        simp [convertFormat, hf] at hra
      | Grayscale =>
        simp [convertFormat, hf, hsame, hw, hh, hcount] at hra hrb
        rw [← hra, ← hrb]
        have hk1 : k < 1 := hk
        show (rgbaToGray a.data _)[i * 1 + k]? = (rgbaToGray b.data _)[i * 1 + k]?
        interval_cases k
        rw [Nat.add_zero, Nat.mul_one, ha0, hb0]
  · intro x y hy hs
    have h1 : y * (a.width * 4) < y * a.stride := Nat.mul_lt_mul_of_pos_left hs (by omega)
    have h2 : (y * a.width + x) * 4 = y * (a.width * 4) + x * 4 := by ring
    omega

/-- Witness of C26: `paddedColumn` (stride 8) and `packedColumn` (stride 4) agree on their
first 8 bytes and convert to the same `RGBA8` image; its second pixel comes from the
padding bytes 4..7 of `paddedColumn`, not from the pixel (5, 6, 7, 8) stored at byte offset
1 * stride + 0 * 4 = 8. -/
theorem convertFormat_ignores_stride_witness :
    paddedColumn.stride ≠ packedColumn.stride ∧ paddedColumn.data ≠ packedColumn.data ∧
      convertFormat paddedColumn CaptureFormat.RGBA8 =
        some { data := [3, 2, 1, 4, 9, 9, 9, 9], width := 1, height := 2, stride := 4,
               format := CaptureFormat.RGBA8, timestamp := 3 } ∧
      convertFormat paddedColumn CaptureFormat.RGBA8 =
        convertFormat packedColumn CaptureFormat.RGBA8 :=
  ⟨by decide, by decide, by decide,
    (convertFormat_ignores_stride paddedColumn packedColumn CaptureFormat.RGBA8
      (Or.inl rfl) rfl (by decide) rfl rfl rfl).1 (by decide)⟩

/-- C24: for every image with stride >= width * bytesPerPixel and data length =
stride * height and every region of `i32` components for which `crop` is present, the
result buffer is filled by one `memcpy` of `stride` bytes per row from `srcRow` to `dstRow`,
and for every row below the height of the result and every byte `k` of the row: the
source offset the code reads is below the length of the source buffer, the destination
offset is below the length of the result buffer, and the source offset
(y + row) * stride + x * bytesPerPixel + k over the clamped origin (which the offset of
the code never exceeds) is below the length of the source buffer too. -/
theorem crop_reads_inside_source (image : CapturedImage) (region : Rect)
    (res : CapturedImage) (hrep : image.Representable) (hreg : region.Representable)
    (hstride : image.width * bytesPerPixel image.format ≤ image.stride)
    (hlen : image.data.length = image.stride * image.height)
    (hres : crop image region = some res) :
    res.data =
        forLoop res.height (fun row dst =>
          memcpy dst (cropDstRow image region row) image.data (cropSrcRow image region row)
            res.stride) (zeroBuffer res.data.length) ∧
      ∀ row k, row < res.height → k < res.stride →
        cropSrcRow image region row + k < image.data.length ∧
        cropDstRow image region row + k < res.data.length ∧
        cropSrcRow image region row + k ≤
          ((cropClamp image region).2.1.toNat + row) * image.stride +
            (cropClamp image region).1.toNat * bytesPerPixel image.format + k ∧
        ((cropClamp image region).2.1.toNat + row) * image.stride +
            (cropClamp image region).1.toNat * bytesPerPixel image.format + k <
          image.data.length := by
  obtain ⟨hwpos, hhpos, hW, hH, hS, hF, hT, hD⟩ := crop_some_rows image region res hres
  obtain ⟨hx0, hx1, hy0, hy1, hwle, hhle, hxw, hyh⟩ := cropClamp_inside image region hreg
  obtain ⟨hlenR, _⟩ := crop_buffer image hrep hstride region hreg res hres
  have hxw2 := hxw hwpos
  have hyh2 := hyh hhpos
  have hsrc : ∀ row, cropSrcRow image region row =
      u32 (i32ToU32 (toI32 ((cropClamp image region).2.1 + row)) * image.stride) +
        u32 (i32ToU32 (cropClamp image region).1 * bytesPerPixel image.format) :=
    fun _ => rfl
  have hdst : ∀ row, cropDstRow image region row = u32 (i32ToU32 (row : Int) * res.stride) := by
    intro row
    rw [hS]
    rfl
  clear hres hxw hyh
  generalize (cropClamp image region).1 = x at *
  generalize (cropClamp image region).2.1 = y at *
  generalize (cropClamp image region).2.2.1 = w at *
  generalize (cropClamp image region).2.2.2 = h at *
  obtain ⟨X, rfl⟩ : ∃ X : Nat, (X : Int) = x := ⟨x.toNat, Int.toNat_of_nonneg hx0⟩
  obtain ⟨Y, rfl⟩ : ∃ Y : Nat, (Y : Int) = y := ⟨y.toNat, Int.toNat_of_nonneg hy0⟩
  have hw0 : 0 ≤ w := Int.le_of_lt hwpos
  have hh0 : 0 ≤ h := Int.le_of_lt hhpos
  obtain ⟨Wc, rfl⟩ : ∃ Wc : Nat, (Wc : Int) = w := ⟨w.toNat, Int.toNat_of_nonneg hw0⟩
  obtain ⟨Hc, rfl⟩ : ∃ Hc : Nat, (Hc : Int) = h := ⟨h.toNat, Int.toNat_of_nonneg hh0⟩
  have hXle : X ≤ 2147483647 := by omega
  have hWle : Wc ≤ 2147483647 := by omega
  have hHle : Hc ≤ 2147483647 := by omega
  have hXW : X + Wc ≤ image.width := by omega
  have hYH : Y + Hc ≤ image.height := by omega
  rw [i32ToU32_natCast hHle] at hH
  rw [i32ToU32_natCast hWle] at hS
  have hSle : res.stride ≤ Wc * bytesPerPixel image.format := by
    rw [hS]
    exact u32_le _
  have hSlt : res.stride < 4294967296 := by
    rw [hS]
    exact Nat.mod_lt _ (by decide)
  simp only [Int.toNat_natCast] at hD ⊢
  constructor
  · have e2 : usize (res.stride * Hc) = res.data.length := by
      rw [hlenR, hH]
      apply usize_of_lt
      have h1 : res.stride * Hc ≤ 4294967295 * 2147483647 :=
        Nat.mul_le_mul (by omega) hHle
      omega
    rw [e2] at hD
    rw [hH]
    exact hD
  · intro row k hrow hk
    rw [hH] at hrow
    have hk2 : k < Wc * bytesPerPixel image.format := lt_of_lt_of_le hk hSle
    have hform := row_byte_inside hXW hYH hstride hrow hk2
    have hrowU : i32ToU32 (row : Int) = row := i32ToU32_natCast (by omega)
    have hXU : i32ToU32 (X : Int) = X := i32ToU32_natCast hXle
    have hyr : i32ToU32 (toI32 ((Y : Int) + (row : Int))) ≤ Y + row := by
      rw [← Int.ofNat_add]
      exact i32ToU32_toI32_le (Y + row)
    have h1 : u32 (i32ToU32 (toI32 ((Y : Int) + (row : Int))) * image.stride) ≤
        (Y + row) * image.stride :=
      le_trans (u32_le _) (Nat.mul_le_mul_right _ hyr)
    have h2 : u32 (X * bytesPerPixel image.format) ≤ X * bytesPerPixel image.format :=
      u32_le _
    have h3 : u32 (row * res.stride) ≤ row * res.stride := u32_le _
    have h4 : (row + 1) * res.stride ≤ Hc * res.stride := Nat.mul_le_mul_right _ hrow
    have h5 : (row + 1) * res.stride = row * res.stride + res.stride := by ring
    rw [hsrc, hdst, hrowU, hXU, hlen, hlenR, hH, Nat.mul_comm res.stride Hc]
    refine ⟨?_, ?_, ?_, hform⟩
    · omega
    · omega
    · omega
/-- Witness of C24: `crop` of `gray4x4` with `leftRegion` is the 2x2 block at the origin; the
two copies of 2 bytes read below offset 16 of the source and write below offset 4 of the
result. -/
theorem crop_reads_inside_source_witness :
    gray4x4.Representable ∧ leftRegion.Representable ∧
      gray4x4.data.length = gray4x4.stride * gray4x4.height ∧
      crop gray4x4 leftRegion =
        some { data := [0, 1, 4, 5], width := 2, height := 2, stride := 2,
               format := CaptureFormat.Grayscale, timestamp := 0 } ∧
      ∀ row k, row < 2 → k < 2 →
        cropSrcRow gray4x4 leftRegion row + k < 16 ∧
          cropDstRow gray4x4 leftRegion row + k < 4 :=
  ⟨by decide, by decide, by decide, by decide, fun row k hr hk =>
    ⟨((crop_reads_inside_source gray4x4 leftRegion
        { data := [0, 1, 4, 5], width := 2, height := 2, stride := 2,
          format := CaptureFormat.Grayscale, timestamp := 0 }
        (by decide) (by decide) (by decide) (by decide) (by decide)).2 row k hr hk).1,
      ((crop_reads_inside_source gray4x4 leftRegion
        { data := [0, 1, 4, 5], width := 2, height := 2, stride := 2,
          format := CaptureFormat.Grayscale, timestamp := 0 }
        (by decide) (by decide) (by decide) (by decide) (by decide)).2 row k hr hk).2.1⟩⟩

/-- C30 (failing input): `flatPixel` is a tightly packed 1x1 `BGRA8` image whose pixel is
(7, 7, 7, 7).  Scaled to width 1 and height 2^30 + 1, whatever the interpolation computes,
the result has 2^32 + 4 bytes and its last pixel, (x, y) = (0, 2^30) at byte offset
y * stride + x * 4 = 2^32, is (0, 0, 0, 0): the index `(y * newWidth + x) * 4 + c` of the
store is computed in `u32` and wraps around to `c`. -/
theorem scale_large_output_keeps_zero_pixel :
    flatPixel.Representable ∧ flatPixel.stride = flatPixel.width * 4 ∧
      flatPixel.data.length = flatPixel.stride * flatPixel.height ∧
      (∀ c, c < 4 → readByte flatPixel.data (0 * 4 + c) = 7) ∧
      ∀ sample, ∃ res, scale sample flatPixel 1 1073741825 = some res ∧
        res.width = 1 ∧ res.height = 1073741825 ∧ res.stride = 4 ∧
        res.data.length = 4294967300 ∧
        ∀ c, c < 4 → res.data[1073741824 * res.stride + 0 * 4 + c]? = some 0 := by
  refine ⟨by decide, by decide, by decide, by decide, fun sample => ?_⟩
  have hsome : (scale sample flatPixel 1 1073741825).isSome = true := by
    unfold scale
    rw [if_neg (by decide), if_neg (by decide)]
    rfl
  obtain ⟨res, hres⟩ := Option.isSome_iff_exists.mp hsome
  obtain ⟨hw, hh, hs, hf, hl⟩ := scale_fields sample flatPixel 1 1073741825 res hres
  have hs4 : u32 (1 * 4) = 4 := by decide
  have hl4 : usize (usize (1 * 1073741825) * 4) = 4294967300 := by decide
  rw [hs4] at hs
  rw [hl4] at hl
  refine ⟨res, hres, hw, hh, hs, hl, ?_⟩
  intro c hc
  rw [hs]
  exact scale_high_bytes sample flatPixel 1 1073741825 res hres _ (by omega)
    (by rw [hl]; omega)

/-- C29 (failing input): `tallGray` is tightly packed (stride = width * bytesPerPixel, data
length = stride * height = 2^32 + 65536) and `tallGrayBounds` is its full bounds
(0, 0, width, height).  `crop` is present with the size of the image, but the result is not
the image: its byte at offset 2^32, the first byte of the last row, is 0 while the image
holds 1 there.  The destination offset `row * result.stride` and the source offset
`(y + row) * image.stride` of row 65536 are computed in `u32` and wrap around to 0. -/
theorem crop_full_bounds_loses_last_row :
    tallGray.Representable ∧
      tallGray.stride = tallGray.width * bytesPerPixel tallGray.format ∧
      tallGray.data.length = tallGray.stride * tallGray.height ∧
      tallGrayBounds = { x := 0, y := 0, width := tallGray.width, height := tallGray.height } ∧
      ∃ res, crop tallGray tallGrayBounds = some res ∧ res.width = tallGray.width ∧
        res.height = tallGray.height ∧ res.data[4294967296]? = some 0 ∧
        tallGray.data[4294967296]? = some 1 ∧ res ≠ tallGray := by
  have hlen : tallGray.data.length = 4294967296 + 65536 := by
    show (List.replicate 4294967296 (0 : Byte) ++ List.replicate 65536 1).length = _
    rw [List.length_append, List.length_replicate, List.length_replicate]
  have hlast : tallGray.data[4294967296]? = some 1 := by
    show (List.replicate 4294967296 (0 : Byte) ++ List.replicate 65536 1)[_]? = some 1
    rw [List.getElem?_append_right (by rw [List.length_replicate])]
    rw [List.length_replicate]
    exact List.getElem?_replicate_of_lt (by decide)
  have hclamp : cropClamp tallGray tallGrayBounds = (0, 0, 65536, 65537) := by decide
  have hsome : (crop tallGray tallGrayBounds).isSome = true := by
    simp only [crop, hclamp]
    rw [if_neg (by decide)]
    rfl
  obtain ⟨res, hres⟩ := Option.isSome_iff_exists.mp hsome
  obtain ⟨_, _, hW, hH, hS, _, _, hD⟩ := crop_some_rows tallGray tallGrayBounds res hres
  have hstride : res.stride = 65536 := by
    rw [hS, hclamp]
    decide
  have hdst : ∀ row, cropDstRow tallGray tallGrayBounds row =
      u32 (i32ToU32 (row : Int) * 65536) := by
    intro row
    have h65536 : u32 (i32ToU32 (65536 : Int) * bytesPerPixel tallGray.format) = 65536 := by
      decide
    simp only [cropDstRow, hclamp, h65536]
  have hrows : (cropClamp tallGray tallGrayBounds).2.2.2.toNat = 65537 := by
    rw [hclamp]
    rfl
  have hbuf : usize (65536 * 65537) = 4295032832 := by decide
  have hinit : (zeroBuffer 4295032832)[4294967296]? = some 0 :=
    List.getElem?_replicate_of_lt (by decide)
  have hne : ∀ row k, k < 65536 →
      cropDstRow tallGray tallGrayBounds row + k ≠ 4294967296 := by
    intro row k hk
    rw [hdst]
    unfold u32
    omega
  have hzero : res.data[4294967296]? = some 0 := by
    rw [hD, hstride, hrows, hbuf]
    rw [rowCopies_keep 65537 (cropDstRow tallGray tallGrayBounds)
      (cropSrcRow tallGray tallGrayBounds) tallGray.data (zeroBuffer 4295032832) 65536
      4294967296 hne]
    exact hinit
  refine ⟨?_, by decide, ?_, by decide, res, hres, ?_, ?_, hzero, hlast, ?_⟩
  · refine ⟨by decide, by decide, by decide, by decide, ?_⟩
    rw [hlen]; decide
  · rw [hlen]; rfl
  · rw [hW, hclamp]; decide
  · rw [hH, hclamp]; decide
  · intro h
    rw [h, hlast] at hzero
    exact absurd (Option.some.inj hzero) (by decide)

/-- The part of C25 that holds: on a tightly packed image with width and height between 1
and 2^23, for every destination pixel and channel the neighbours x0, x1 are at most
width - 1, the neighbours y0, y1 are at most height - 1, and the four source reads are below
the data length. -/
theorem scale_reads_inside_small_source (image : CapturedImage)
    (newWidth newHeight x y c : Nat) (hw : 1 ≤ image.width) (hh : 1 ≤ image.height)
    (hW : image.width ≤ 8388608) (hH : image.height ≤ 8388608)
    (hlen : image.data.length = image.width * image.height * 4)
    (hnw : newWidth ≤ 4294967295) (hnh : newHeight ≤ 4294967295)
    (hx : x < newWidth) (hy : y < newHeight) (hc : c < 4) :
    scaleLow image.width newWidth x ≤ image.width - 1 ∧
      scaleHigh image.width newWidth x ≤ image.width - 1 ∧
      scaleLow image.height newHeight y ≤ image.height - 1 ∧
      scaleHigh image.height newHeight y ≤ image.height - 1 ∧
      scaleIndex image (scaleLow image.height newHeight y) (scaleLow image.width newWidth x) c <
        image.data.length ∧
      scaleIndex image (scaleLow image.height newHeight y) (scaleHigh image.width newWidth x) c <
        image.data.length ∧
      scaleIndex image (scaleHigh image.height newHeight y) (scaleLow image.width newWidth x) c <
        image.data.length ∧
      scaleIndex image (scaleHigh image.height newHeight y) (scaleHigh image.width newWidth x)
        c < image.data.length := by
  have x0 := scaleLow_le newWidth x hw hW hx (by omega)
  have y0 := scaleLow_le newHeight y hh hH hy (by omega)
  have x1 := scaleHigh_le newWidth x hw (by omega)
  have y1 := scaleHigh_le newHeight y hh (by omega)
  have inside : ∀ yy xx, yy ≤ image.height - 1 → xx ≤ image.width - 1 →
      scaleIndex image yy xx c < image.data.length := by
    intro yy xx hyy hxx
    obtain ⟨j, hj, hidx, _⟩ := scaleIndex_pixel image hw hh hyy hxx hc
    rw [hidx, hlen]
    omega
  exact ⟨x0, x1, y0, y1, inside _ _ y0 x0, inside _ _ y0 x1, inside _ _ y1 x0,
    inside _ _ y1 x1⟩

/-- An instance of `scale_reads_inside_small_source`: `bgraPair` scaled from 2x1 to 4x3, at
the last destination pixel. -/
theorem scale_reads_inside_small_source_witness :
    bgraPair.data.length = bgraPair.width * bgraPair.height * 4 ∧
      scaleLow bgraPair.width 4 3 ≤ bgraPair.width - 1 ∧
      scaleHigh bgraPair.width 4 3 ≤ bgraPair.width - 1 ∧
      scaleLow bgraPair.height 3 2 ≤ bgraPair.height - 1 ∧
      scaleHigh bgraPair.height 3 2 ≤ bgraPair.height - 1 ∧
      scaleIndex bgraPair (scaleLow bgraPair.height 3 2) (scaleLow bgraPair.width 4 3) 0 <
        bgraPair.data.length ∧
      scaleIndex bgraPair (scaleLow bgraPair.height 3 2) (scaleHigh bgraPair.width 4 3) 0 <
        bgraPair.data.length ∧
      scaleIndex bgraPair (scaleHigh bgraPair.height 3 2) (scaleLow bgraPair.width 4 3) 0 <
        bgraPair.data.length ∧
      scaleIndex bgraPair (scaleHigh bgraPair.height 3 2) (scaleHigh bgraPair.width 4 3)
        0 < bgraPair.data.length :=
  ⟨by decide,
    scale_reads_inside_small_source bgraPair 4 3 3 2 0 (by decide) (by decide) (by decide)
      (by decide) (by decide) (by decide) (by decide) (by decide) (by decide) (by decide)⟩

/-- C25 (failing input): `wideRow` is a tightly packed `BGRA8` image of width
16777220 = 2^24 + 4 and height 1 with data length = width * height * 4.  Scaled to the same
size, destination pixel x = 16777219 has the lower neighbour x0 = 16777220 = width, not at
most width - 1: `width - 1` and `x` both round to 16777220 in binary32, so `xRatio` is 1 and
`srcX` is 16777220.  With y0 = 0 the read index `(y0 * width + x0) * 4 + c` is
data length + c, outside the buffer.  The upper neighbour x1 is clamped to width - 1. -/
theorem scale_lower_neighbour_outside_source :
    wideRow.Representable ∧ wideRow.format = CaptureFormat.BGRA8 ∧
      wideRow.data.length = wideRow.width * wideRow.height * 4 ∧
      scaleLow wideRow.width 16777220 16777219 = 16777220 ∧
      ¬ (scaleLow wideRow.width 16777220 16777219 ≤ wideRow.width - 1) ∧
      scaleHigh wideRow.width 16777220 16777219 = 16777219 ∧
      scaleLow wideRow.height 1 0 = 0 ∧
      ∀ c, c < 4 →
        scaleIndex wideRow (scaleLow wideRow.height 1 0)
            (scaleLow wideRow.width 16777220 16777219) c = wideRow.data.length + c := by
  have hlen : wideRow.data.length = 67108880 := by
    show (List.replicate 67108880 (0 : Byte)).length = _
    rw [List.length_replicate]
  have hx0 : scaleLow wideRow.width 16777220 16777219 = 16777220 := by decide
  have hy0 : scaleLow wideRow.height 1 0 = 0 := by decide
  refine ⟨?_, rfl, ?_, hx0, ?_, by decide, hy0, ?_⟩
  · refine ⟨by decide, by decide, by decide, by decide, ?_⟩
    rw [hlen]; decide
  · rw [hlen]; rfl
  · rw [hx0]; decide
  · intro c hc
    rw [hx0, hy0, hlen]
    interval_cases c <;> decide

/-- C10 (counterexample): `dotRow` is a tightly packed 2x1 `BGRA8` image.  Scaled to 6x1,
channel 0 of destination pixel (5, 0) is 0 in the result of `scale`, while the formula of
the claim over exact rationals gives clamp(floor(1/2 + 1/2), 0, 255) = 1: in binary32 the
ratio 1/6 rounds up, `1 - xFrac` is 1398101 / 2^23, below 1/6, the blend is
4194303 / 2^23, below 1/2, and the sum with 0.5 is still below 1. -/
theorem scale_differs_from_exact_formula :
    dotRow.Representable ∧ dotRow.format = CaptureFormat.BGRA8 ∧
      dotRow.stride = dotRow.width * 4 ∧
      dotRow.data.length = dotRow.stride * dotRow.height ∧
      scaleSample dotRow 6 1 5 0 0 = 0 ∧
      (∃ res, scale scaleSample dotRow 6 1 = some res ∧ res.width = 6 ∧ res.height = 1 ∧
        res.data[(0 * 6 + 5) * 4 + 0]? = some 0) ∧
      bilinearExact dotRow 6 1 5 0 0 = 1 := by
  have hbyte : scaleSample dotRow 6 1 5 0 0 = 0 := by decide
  refine ⟨by decide, rfl, rfl, rfl, hbyte, ?_, bilinearExact_dotRow⟩
  obtain ⟨_, hget⟩ := scaleLoop_spec (fun x y c => scaleSample dotRow 6 1 x y c) 6 1
    (by decide)
  unfold scale
  rw [if_neg (by decide), if_neg (by decide)]
  refine ⟨_, rfl, rfl, rfl, ?_⟩
  have h := hget 0 5 0 (by decide) (by decide) (by decide)
  simp only [hbyte] at h
  exact h

/-- C10 (amended): for every tightly packed `BGRA8` or `RGBA8` image with width and height at
least 1 and at most 2^32 bytes, and every new width and height at least 1 with an output of
less than 2^32 bytes, `scale` is present with the new width and height, stride = new
width * 4 and the format of the source, and for every destination pixel whose lower
neighbours `x0`, `y0` lie inside the source and every channel, the byte of the result is the
value of the interpolation formula evaluated in binary32, `bilinearF32`; the source bytes of
the formula lie inside the source buffer.  The lower neighbour `x0` lies inside the source
for every destination pixel when the width is at most 2^23, and `y0` when the height is at
most 2^23. -/
theorem scale_is_binary32_interpolation (image : CapturedImage) (newWidth newHeight : Nat)
    (hfmt : image.format = CaptureFormat.BGRA8 ∨ image.format = CaptureFormat.RGBA8)
    (hrep : image.Representable) (hw : 1 ≤ image.width) (hh : 1 ≤ image.height)
    (hlen : image.data.length = image.width * image.height * 4)
    (hsrc : image.width * image.height * 4 ≤ 4294967296)
    (hnw : 1 ≤ newWidth) (hnh : 1 ≤ newHeight)
    (hsmall : newWidth * newHeight * 4 < 4294967296) :
    (∃ res, scale scaleSample image newWidth newHeight = some res ∧
      res.width = newWidth ∧ res.height = newHeight ∧ res.stride = newWidth * 4 ∧
      res.format = image.format ∧ res.data.length = newWidth * newHeight * 4 ∧
      ∀ x y c, x < newWidth → y < newHeight → c < 4 →
        formulaLow image.width newWidth x ≤ image.width - 1 →
        formulaLow image.height newHeight y ≤ image.height - 1 →
        (∃ b : Byte, res.data[(y * newWidth + x) * 4 + c]? = some b ∧
          ((b.val : Nat) : Int) = bilinearF32 image newWidth newHeight x y c) ∧
        ∀ i j, i ≤ image.width - 1 → j ≤ image.height - 1 →
          (j * image.width + i) * 4 + c < image.data.length) ∧
      (image.width ≤ 8388608 →
        ∀ x, x < newWidth → formulaLow image.width newWidth x ≤ image.width - 1) ∧
      (image.height ≤ 8388608 →
        ∀ y, y < newHeight → formulaLow image.height newHeight y ≤ image.height - 1) := by
  obtain ⟨hlenR, hget⟩ := scaleLoop_spec
    (fun x y c => scaleSample image newWidth newHeight x y c) newWidth newHeight
    (Nat.le_of_lt hsmall)
  have hrow : newWidth * 4 < 4294967296 := by
    have h1 : newWidth * 1 ≤ newWidth * newHeight := Nat.mul_le_mul_left _ hnh
    omega
  have hcol : newHeight * 4 < 4294967296 := by
    have h1 : 1 * newHeight ≤ newWidth * newHeight := Nat.mul_le_mul_right _ hnw
    omega
  refine ⟨?_, fun hW x hx => formulaLow_le image.width newWidth x hw hW hx (by omega),
    fun hH y hy => formulaLow_le image.height newHeight y hh hH hy (by omega)⟩
  unfold scale
  rw [if_neg (by omega), if_neg (by
    rcases hfmt with h | h <;> simp [h])]
  refine ⟨_, rfl, rfl, rfl, u32_of_lt hrow, rfl, hlenR, ?_⟩
  intro x y c hx hy hc hx0 hy0
  refine ⟨⟨scaleSample image newWidth newHeight x y c, hget y x c hy hx hc,
    scaleSample_eq_bilinearF32 image newWidth newHeight x y c hrep hw hh hsrc hc hx0 hy0⟩, ?_⟩
  intro i j hi hj
  have h1 : j * image.width ≤ (image.height - 1) * image.width := Nat.mul_le_mul_right _ hj
  have h2 : (image.height - 1) * image.width + image.width = image.width * image.height := by
    have h3 : (image.height - 1 + 1) * image.width = image.width * image.height := by
      rw [Nat.sub_add_cancel hh, Nat.mul_comm]
    rw [Nat.add_mul, Nat.one_mul] at h3
    exact h3
  rw [hlen]
  generalize j * image.width = a at h1 ⊢
  generalize (image.height - 1) * image.width = b at h1 h2
  generalize image.width * image.height = n at h2 ⊢
  omega

/-- Witness of C10 (amended): `bgraPair` scaled from 2x1 to 4x3; the last destination pixel
has x0 = 0 and y0 = 0 inside the source, and its channel 0 is the binary32 value of
10 * 0.25 + 50 * 0.75 + 0.5, truncated: 40. -/
theorem scale_is_binary32_interpolation_witness :
    bgraPair.Representable ∧ bgraPair.data.length = bgraPair.width * bgraPair.height * 4 ∧
      formulaLow bgraPair.width 4 3 ≤ bgraPair.width - 1 ∧
      formulaLow bgraPair.height 3 2 ≤ bgraPair.height - 1 ∧
      bilinearF32 bgraPair 4 3 3 2 0 = 40 ∧
      (∃ res, scale scaleSample bgraPair 4 3 = some res ∧
        res.width = 4 ∧ res.height = 3 ∧ res.stride = 4 * 4 ∧
        res.format = bgraPair.format ∧ res.data.length = 4 * 3 * 4 ∧
        ∀ x y c, x < 4 → y < 3 → c < 4 →
          formulaLow bgraPair.width 4 x ≤ bgraPair.width - 1 →
          formulaLow bgraPair.height 3 y ≤ bgraPair.height - 1 →
          (∃ b : Byte, res.data[(y * 4 + x) * 4 + c]? = some b ∧
            ((b.val : Nat) : Int) = bilinearF32 bgraPair 4 3 x y c) ∧
          ∀ i j, i ≤ bgraPair.width - 1 → j ≤ bgraPair.height - 1 →
            (j * bgraPair.width + i) * 4 + c < bgraPair.data.length) ∧
      (bgraPair.width ≤ 8388608 →
        ∀ x, x < 4 → formulaLow bgraPair.width 4 x ≤ bgraPair.width - 1) ∧
      (bgraPair.height ≤ 8388608 →
        ∀ y, y < 3 → formulaLow bgraPair.height 3 y ≤ bgraPair.height - 1) :=
  ⟨by decide, by decide, by decide, by decide, by decide,
    scale_is_binary32_interpolation bgraPair 4 3 (Or.inl rfl) (by decide) (by decide)
      (by decide) (by decide) (by decide) (by decide) (by decide) (by decide)⟩

end dakt.overlay
